import Mathlib

/-!
Verification of `src/scripts/safari-post-convert.ts` (BewlyCat repository).

The script is modelled over `List Char`.  JavaScript string operations are
embedded as follows:

* `String.prototype.includes(pat)`       — `pat <:+: s` (list infix);
* `String.prototype.replace(lit, repl)`  — `scanF (litM lit repl)`
  (JS replaces only the first occurrence when the pattern is a string);
* `content.replace(/re/g, repl)`         — `scanG M` for a matcher `M`
  embedding the concrete regular expression;
* `content.replace(/re/, repl)`          — `scanF M`.

The two regular-expression shapes appearing in the script are embedded by
`bundleM` (pattern `lit1 (\s+) (alt1|alt2)`, replacement `$1$2ins$2$3`) and
`groupM` (pattern `glit \s* isa-lit \s* children-lit`, replacement
`$1 ++ ins`).  Greedy `\s+`/`\s*` with backtracking is equivalent to taking
the maximal whitespace run here because every follow-up literal starts with
a non-whitespace character, so the matchers use `takeWhile`/`dropWhile`.
-/

/-- Characters matched by the JavaScript regular-expression class `\\s`:
space, tab, line terminators, vertical tab, form feed, and the Unicode
space separators (U+00A0, U+1680, U+2000–U+200A, U+2028, U+2029, U+202F,
U+205F, U+3000) together with the BOM U+FEFF. -/
def isJSWS (c : Char) : Bool :=
  let n := c.toNat
  n = 0x20 || n = 0x9 || n = 0xA || n = 0xD || n = 0xB || n = 0xC ||
  n = 0xA0 || n = 0x1680 || (0x2000 ≤ n && n ≤ 0x200A) ||
  n = 0x2028 || n = 0x2029 || n = 0x202F || n = 0x205F ||
  n = 0x3000 || n = 0xFEFF

/-- Shorthand: the character list of a string literal. -/
def js (s : String) : List Char := s.data

/-- A matcher: given the remaining input, either fail, or return the
replacement block to emit together with the number of consumed characters. -/
def Matcher : Type := List Char → Option (List Char × Nat)

/-- Worker for the global scan: `k` counts characters still to be skipped
because they belong to the block consumed by the last match. -/
def scanGo (M : Matcher) : List Char → Nat → List Char
  | [], _ => []
  | _ :: t, k + 1 => scanGo M t k
  | c :: t, 0 =>
    match M (c :: t) with
    | some (o, n) => o ++ scanGo M t (max n 1 - 1)
    | none => c :: scanGo M t 0

/-- Global scan-and-replace, the embedding of `String.replace` with a
`/g`-flagged regular expression: at each position, if the matcher fires,
emit its block and resume after the consumed characters, otherwise keep the
character.  All matchers used here consume at least one character; `max n 1`
only serves termination. -/
def scanG (M : Matcher) (s : List Char) : List Char := scanGo M s 0

/-- First-match scan-and-replace, the embedding of `String.replace` with a
string pattern or a regular expression without the `/g` flag. -/
def scanF (M : Matcher) : List Char → List Char
  | [] => []
  | c :: t =>
    match M (c :: t) with
    | some (o, n) => o ++ (c :: t).drop (max n 1)
    | none => c :: scanF M t

/-- Worker for `matchCount`, with the same skip counter as `scanGo`. -/
def mcGo (M : Matcher) : List Char → Nat → Nat
  | [], _ => 0
  | _ :: t, k + 1 => mcGo M t k
  | c :: t, 0 =>
    match M (c :: t) with
    | some (_, n) => 1 + mcGo M t (max n 1 - 1)
    | none => mcGo M t 0

/-- Number of matches found by a global scan. -/
def matchCount (M : Matcher) (s : List Char) : Nat := mcGo M s 0

/-- Number of positions of `s` at which `m` occurs (occurrence count). -/
def occCount (m : List Char) : List Char → Nat
  | [] => 0
  | c :: t => (if m <+: c :: t then 1 else 0) + occCount m t

/-- Number of positions of the input at which the matcher fires (whether or
not a global scan would reach them): the position-wise match count. -/
def fireCount (N : Matcher) : List Char → Nat
  | [] => 0
  | c :: t => (if (N (c :: t)).isSome then 1 else 0) + fireCount N t

/-- Number of positions inside `a` at which the matcher fires on `a ++ b`. -/
def fireCross (N : Matcher) : List Char → List Char → Nat
  | [], _ => 0
  | c :: a, b => (if (N (c :: (a ++ b))).isSome then 1 else 0) + fireCross N a b

/-- Matcher for a literal string pattern `pat`, replaced by `repl`. -/
def litM (pat repl : List Char) : Matcher := fun s =>
  if pat <+: s then some (repl, pat.length) else none

/-- Matcher embedding `/(lit1)(\s+)(alt1|alt2)/` with replacement
`$1$2ins$2$3` (the two `CODE_SIGN_ENTITLEMENTS` substitutions). -/
def bundleM (lit1 alt1 alt2 ins : List Char) : Matcher := fun s =>
  if lit1 <+: s then
    let s1 := s.drop lit1.length
    let ws := s1.takeWhile isJSWS
    let s2 := s1.dropWhile isJSWS
    if ws = [] then none
    else if alt1 <+: s2 then
      some (lit1 ++ ws ++ ins ++ ws ++ alt1, lit1.length + ws.length + alt1.length)
    else if alt2 <+: s2 then
      some (lit1 ++ ws ++ ins ++ ws ++ alt2, lit1.length + ws.length + alt2.length)
    else none
  else none

def isaLit : List Char := js "isa = PBXGroup;"

def childrenLit : List Char := js "children = ("

/-- Matcher embedding `/(glit\s*isa = PBXGroup;\s*children = \()/` with
replacement `$1 ++ ins` (the two group-membership substitutions). -/
def groupM (glit ins : List Char) : Matcher := fun s =>
  if glit <+: s then
    let s1 := s.drop glit.length
    let ws1 := s1.takeWhile isJSWS
    let s2 := s1.dropWhile isJSWS
    if isaLit <+: s2 then
      let s3 := s2.drop isaLit.length
      let ws2 := s3.takeWhile isJSWS
      let s4 := s3.dropWhile isJSWS
      if childrenLit <+: s4 then
        some (glit ++ ws1 ++ isaLit ++ ws2 ++ childrenLit ++ ins,
          glit.length + ws1.length + isaLit.length
            + ws2.length + childrenLit.length)
      else none
    else none
  else none

/-! ### Constants of the script -/

def marker : List Char := js "BewlyCat.entitlements"

def fileRefEndMarker : List Char := js "/* End PBXFileReference section */"

def appLit1 : List Char := js "PRODUCT_BUNDLE_IDENTIFIER = com.hankun.BewlyCat;"

def extLit1 : List Char := js "PRODUCT_BUNDLE_IDENTIFIER = com.hankun.BewlyCat.Extension;"

def pnLit : List Char := js "PRODUCT_NAME"

def ragLit : List Char := js "REGISTER_APP_GROUPS"

def siLit : List Char := js "SKIP_INSTALL"

def appIns : List Char := js "CODE_SIGN_ENTITLEMENTS = BewlyCat/BewlyCat.entitlements;"

def extIns : List Char :=
  js "CODE_SIGN_ENTITLEMENTS = \"BewlyCat Extension/BewlyCat Extension.entitlements\";"

def glitApp : List Char := js "/* BewlyCat */ = \x7b"

def glitExt : List Char := js "/* BewlyCat Extension */ = \x7b"

/-- The child entry inserted into the `/* BewlyCat */` group
(`$1\n\t\t\t\t${appEntFileRef} /* BewlyCat.entitlements */,`). -/
def clApp (u1 : List Char) : List Char :=
  js "\n\t\t\t\t" ++ u1 ++ js " /* BewlyCat.entitlements */,"

/-- The child entry inserted into the `/* BewlyCat Extension */` group. -/
def clExt (u2 : List Char) : List Char :=
  js "\n\t\t\t\t" ++ u2 ++ js " /* BewlyCat Extension.entitlements */,"

/-- `fileRefAddition` of the script: two `PBXFileReference` lines followed by
the end-of-section marker (which the replacement re-emits). -/
def fileRefAddition (u1 u2 : List Char) : List Char :=
  js "\t\t" ++ u1 ++
  js " /* BewlyCat.entitlements */ = \x7bisa = PBXFileReference; lastKnownFileType = text.plist.entitlements; path = BewlyCat.entitlements; sourceTree = \"<group>\"; \x7d;\n\t\t"
  ++ u2 ++
  js " /* BewlyCat Extension.entitlements */ = \x7bisa = PBXFileReference; lastKnownFileType = text.plist.entitlements; path = \"BewlyCat Extension.entitlements\"; sourceTree = \"<group>\"; \x7d;\n"
  ++ fileRefEndMarker

/-- The first fixed segment of `fileRefAddition` after the leading tabs and
the first token: the body of the first `PBXFileReference` line. -/
def fraB1 : List Char :=
  js " /* BewlyCat.entitlements */ = \x7bisa = PBXFileReference; lastKnownFileType = text.plist.entitlements; path = BewlyCat.entitlements; sourceTree = \"<group>\"; \x7d;\n\t\t"

/-- The second fixed segment of `fileRefAddition`: the body of the second
`PBXFileReference` line. -/
def fraB2 : List Char :=
  js " /* BewlyCat Extension.entitlements */ = \x7bisa = PBXFileReference; lastKnownFileType = text.plist.entitlements; path = \"BewlyCat Extension.entitlements\"; sourceTree = \"<group>\"; \x7d;\n"

/-- The five substitutions of `updatePbxproj`, in program order, applied to
the descriptor content (after the idempotence guard has been passed). -/
def updBody (u1 u2 c : List Char) : List Char :=
  scanF (groupM glitExt (clExt u2))
    (scanF (groupM glitApp (clApp u1))
      (scanG (bundleM extLit1 pnLit siLit extIns)
        (scanG (bundleM appLit1 pnLit ragLit appIns)
          (scanF (litM fileRefEndMarker (fileRefAddition u1 u2)) c))))

/-- The content transformation performed by `updatePbxproj`: if the content
already contains `'BewlyCat.entitlements'` it is returned unchanged,
otherwise the five substitutions are applied.  `u1`, `u2` are the values of
the two `generateUUID()` calls. -/
def updatePbxprojContent (u1 u2 c : List Char) : List Char :=
  if marker <:+: c then c else updBody u1 u2 c

/-! ### Identifier generation (`generateUUID`) -/

/-- The character table `'0123456789ABCDEF'`. -/
def hexTable : List Char := js "0123456789ABCDEF"

/-- `generateUUID`, parameterised by the sequence of random draws: draw `i`
is `Math.floor(Math.random() * 16)`, a number in `0..15`, and selects
`hexTable[draw i]`. -/
def generateUUID (d : Nat → Fin 16) : List Char :=
  (List.range 24).map fun i => hexTable.getD (d i).val '0'

/-! ### Entitlement files and orchestration (`createEntitlementsFiles`, `main`) -/

def APP_GROUP : List Char := js "group.com.hankun.BewlyCat"

/-- `APP_ENTITLEMENTS`, the template literal with `${APP_GROUP}` substituted. -/
def APP_ENTITLEMENTS : List Char :=
  js "<?xml version=\"1.0\" encoding=\"UTF-8\"?>\n<!DOCTYPE plist PUBLIC \"-//Apple//DTD PLIST 1.0//EN\" \"http://www.apple.com/DTDs/PropertyList-1.0.dtd\">\n<plist version=\"1.0\">\n<dict>\n    <key>com.apple.security.app-sandbox</key>\n    <true/>\n    <key>com.apple.security.network.client</key>\n    <true/>\n    <key>com.apple.security.application-groups</key>\n    <array>\n        <string>group.com.hankun.BewlyCat</string>\n    </array>\n</dict>\n</plist>\n"

/-- `EXT_ENTITLEMENTS`, the template literal with `${APP_GROUP}` substituted. -/
def EXT_ENTITLEMENTS : List Char :=
  js "<?xml version=\"1.0\" encoding=\"UTF-8\"?>\n<!DOCTYPE plist PUBLIC \"-//Apple//DTD PLIST 1.0//EN\" \"http://www.apple.com/DTDs/PropertyList-1.0.dtd\">\n<plist version=\"1.0\">\n<dict>\n    <key>com.apple.security.app-sandbox</key>\n    <true/>\n    <key>com.apple.security.network.client</key>\n    <true/>\n    <key>com.apple.security.application-groups</key>\n    <array>\n        <string>group.com.hankun.BewlyCat</string>\n    </array>\n</dict>\n</plist>\n"

/-- The one-parameter XML template both entitlement constants instantiate:
everything is fixed except the App Group identifier inside `<string>`. -/
def entTemplate (g : List Char) : List Char :=
  js "<?xml version=\"1.0\" encoding=\"UTF-8\"?>\n<!DOCTYPE plist PUBLIC \"-//Apple//DTD PLIST 1.0//EN\" \"http://www.apple.com/DTDs/PropertyList-1.0.dtd\">\n<plist version=\"1.0\">\n<dict>\n    <key>com.apple.security.app-sandbox</key>\n    <true/>\n    <key>com.apple.security.network.client</key>\n    <true/>\n    <key>com.apple.security.application-groups</key>\n    <array>\n        <string>"
  ++ g ++ js "</string>\n    </array>\n</dict>\n</plist>\n"

def appEntPath : List Char :=
  js "extension-safari-xcode/BewlyCat/BewlyCat/BewlyCat.entitlements"

def extEntPath : List Char :=
  js "extension-safari-xcode/BewlyCat/BewlyCat Extension/BewlyCat Extension.entitlements"

def pbxprojPath : List Char :=
  js "extension-safari-xcode/BewlyCat/BewlyCat.xcodeproj/project.pbxproj"

/-- A run of `main`, modelled as exit code plus the ordered list of file
writes `(path, content)`.  `pbxExists` is the `fs.pathExists(PBXPROJ_PATH)`
check; `c` is the descriptor content read by `updatePbxproj`; `r` is the
random stream (the first `generateUUID()` consumes draws `0..23`, the second
draws `24..47`).  I/O exceptions are outside the model. -/
def runMain (pbxExists : Bool) (c : List Char) (r : Nat → Fin 16) :
    Nat × List (List Char × List Char) :=
  if pbxExists then
    let u1 := generateUUID fun i => r i
    let u2 := generateUUID fun i => r (24 + i)
    (0, [(appEntPath, APP_ENTITLEMENTS), (extEntPath, EXT_ENTITLEMENTS)] ++
        (if marker <:+: c then [] else [(pbxprojPath, updBody u1 u2 c)]))
  else (1, [])

/-! ### Basic facts and easy claims -/

/-- Claim C2: when the descriptor file is absent, the run exits with code 1
and performs no file write at all. -/
theorem missing_descriptor_no_writes (c : List Char) (r : Nat → Fin 16) :
    runMain false c r = (1, []) := rfl

/-- Every character produced by a draw is taken from the hex table. -/
theorem hexTable_getD_mem (k : Fin 16) :
    hexTable.contains (hexTable.getD k.val '0') = true := by revert k; decide

/-- Claim C5: for every sequence of random draws, `generateUUID` returns a
string of exactly 24 characters, each drawn from `0123456789ABCDEF`. -/
theorem generateUUID_length_and_alphabet (d : Nat → Fin 16) :
    (generateUUID d).length = 24 ∧
    (generateUUID d).all (fun ch => hexTable.contains ch) = true := by
  constructor
  · simp [generateUUID]
  · simp only [generateUUID, List.all_eq_true, List.mem_map]
    rintro ch ⟨i, -, rfl⟩
    exact hexTable_getD_mem (d i)

set_option maxRecDepth 40000 in
/-- The App Group identifier occurs exactly once in each entitlements file. -/
theorem appGroup_once :
    occCount APP_GROUP APP_ENTITLEMENTS = 1 ∧
    occCount APP_GROUP EXT_ENTITLEMENTS = 1 := by decide

/-- Claim C6: a successful run (descriptor present; the model has no I/O
failures) exits with code 0 and writes both entitlement files at their fixed
paths — unconditionally, for every descriptor content and every random
stream, hence overwriting whatever was there — and each written content
contains the App Group identifier exactly once. -/
theorem successful_run_writes_entitlements (c : List Char) (r : Nat → Fin 16) :
    (runMain true c r).1 = 0 ∧
    (appEntPath, APP_ENTITLEMENTS) ∈ (runMain true c r).2 ∧
    (extEntPath, EXT_ENTITLEMENTS) ∈ (runMain true c r).2 ∧
    occCount APP_GROUP APP_ENTITLEMENTS = 1 ∧
    occCount APP_GROUP EXT_ENTITLEMENTS = 1 := by
  refine ⟨rfl, ?_, ?_, appGroup_once.1, appGroup_once.2⟩ <;>
    simp [runMain]

/-- Counterexample to claim C8: the claim asserts at least one textual
difference between the two entitlement documents, but `APP_ENTITLEMENTS`
and `EXT_ENTITLEMENTS` are character-for-character identical. -/
theorem app_ext_entitlements_equal : APP_ENTITLEMENTS = EXT_ENTITLEMENTS := rfl

set_option maxRecDepth 40000 in
/-- Claim C8 (amended): both entitlement documents are instances of the one
fixed XML template parameterised by the App Group identifier, and the two
instances are textually identical (zero differences), so in particular no
difference touches the declared capabilities. -/
theorem entitlements_template_instances :
    APP_ENTITLEMENTS = entTemplate APP_GROUP ∧
    EXT_ENTITLEMENTS = entTemplate APP_GROUP := by
  constructor <;> decide

/-- Counterexample to claim C9: the claim asserts the two tokens of a run
are distinct for every outcome of the draws; with the constant-zero random
stream the two `generateUUID()` results coincide. -/
theorem tokens_equal_on_constant_draws :
    generateUUID (fun i => (fun _ => (0 : Fin 16)) i) =
    generateUUID (fun i => (fun _ => (0 : Fin 16)) (24 + i)) := rfl

/-- Claim C9 (amended): the two tokens of a run are always syntactically
valid (24 characters, hexadecimal alphabet), but distinctness is not
guaranteed: some draw sequences make them equal and some make them
different. -/
theorem tokens_valid_not_necessarily_distinct :
    (∀ r : Nat → Fin 16,
      (generateUUID (fun i => r i)).length = 24 ∧
      (generateUUID (fun i => r i)).all (fun ch => hexTable.contains ch) = true ∧
      (generateUUID (fun i => r (24 + i))).length = 24 ∧
      (generateUUID (fun i => r (24 + i))).all (fun ch => hexTable.contains ch) = true) ∧
    (∃ r : Nat → Fin 16,
      generateUUID (fun i => r i) = generateUUID (fun i => r (24 + i))) ∧
    (∃ r : Nat → Fin 16,
      generateUUID (fun i => r i) ≠ generateUUID (fun i => r (24 + i))) := by
  refine ⟨fun r => ⟨(generateUUID_length_and_alphabet _).1,
      (generateUUID_length_and_alphabet _).2,
      (generateUUID_length_and_alphabet _).1,
      (generateUUID_length_and_alphabet _).2⟩, ⟨fun _ => 0, rfl⟩,
      ⟨fun i => if i = 0 then 1 else 0, ?_⟩⟩
  decide

/-! ### Scanner equations -/

theorem scanGo_skip (M : Matcher) :
    ∀ (t : List Char) (k : Nat), scanGo M t k = scanGo M (t.drop k) 0 := by
  intro t
  induction t with
  | nil => intro k; simp [scanGo]
  | cons c t ih =>
    intro k
    cases k with
    | zero => rfl
    | succ k => simpa [scanGo] using ih k

theorem scanG_cons_none {M : Matcher} {c : Char} {t : List Char}
    (h : M (c :: t) = none) : scanG M (c :: t) = c :: scanG M t := by
  simp [scanG, scanGo, h]

theorem scanG_cons_some {M : Matcher} {c : Char} {t : List Char} {o : List Char} {n : Nat}
    (h : M (c :: t) = some (o, n)) :
    scanG M (c :: t) = o ++ scanG M ((c :: t).drop (max n 1)) := by
  have h1 : max n 1 = (max n 1 - 1) + 1 := by omega
  simp only [scanG, scanGo, h]
  rw [scanGo_skip, h1, List.drop_succ_cons]
  have h2 : n ⊔ 1 - 1 + 1 - 1 = n ⊔ 1 - 1 := by omega
  rw [h2]

theorem scanF_cons_none {M : Matcher} {c : Char} {t : List Char}
    (h : M (c :: t) = none) : scanF M (c :: t) = c :: scanF M t := by
  simp [scanF, h]

theorem scanF_cons_some {M : Matcher} {c : Char} {t : List Char} {o : List Char} {n : Nat}
    (h : M (c :: t) = some (o, n)) :
    scanF M (c :: t) = o ++ (c :: t).drop (max n 1) := by
  simp [scanF, h]

theorem mcGo_skip (M : Matcher) :
    ∀ (t : List Char) (k : Nat), mcGo M t k = mcGo M (t.drop k) 0 := by
  intro t
  induction t with
  | nil => intro k; simp [mcGo]
  | cons c t ih =>
    intro k
    cases k with
    | zero => rfl
    | succ k => simpa [mcGo] using ih k

theorem matchCount_cons_none {M : Matcher} {c : Char} {t : List Char}
    (h : M (c :: t) = none) : matchCount M (c :: t) = matchCount M t := by
  simp [matchCount, mcGo, h]

theorem matchCount_cons_some {M : Matcher} {c : Char} {t : List Char} {o : List Char} {n : Nat}
    (h : M (c :: t) = some (o, n)) :
    matchCount M (c :: t) = 1 + matchCount M ((c :: t).drop (max n 1)) := by
  have h1 : max n 1 = (max n 1 - 1) + 1 := by omega
  simp only [matchCount, mcGo, h]
  rw [mcGo_skip, h1, List.drop_succ_cons]
  have h2 : n ⊔ 1 - 1 + 1 - 1 = n ⊔ 1 - 1 := by omega
  rw [h2]

/-! ### Scans over match-free regions -/

theorem scanG_take_drop {M : Matcher} :
    ∀ (k : Nat) (s : List Char), (∀ j, j < k → M (s.drop j) = none) → k ≤ s.length →
      scanG M s = s.take k ++ scanG M (s.drop k) := by
  intro k
  induction k with
  | zero => simp
  | succ k ih =>
    intro s h hk
    cases s with
    | nil => simp at hk
    | cons c t =>
      have h0 : M (c :: t) = none := h 0 (Nat.succ_pos k)
      rw [scanG_cons_none h0,
        ih t (fun j hj => by simpa using h (j + 1) (by omega)) (by simpa using hk)]
      simp

theorem scanF_take_drop {M : Matcher} :
    ∀ (k : Nat) (s : List Char), (∀ j, j < k → M (s.drop j) = none) → k ≤ s.length →
      scanF M s = s.take k ++ scanF M (s.drop k) := by
  intro k
  induction k with
  | zero => simp
  | succ k ih =>
    intro s h hk
    cases s with
    | nil => simp at hk
    | cons c t =>
      have h0 : M (c :: t) = none := h 0 (Nat.succ_pos k)
      rw [scanF_cons_none h0,
        ih t (fun j hj => by simpa using h (j + 1) (by omega)) (by simpa using hk)]
      simp

theorem scanG_of_matchCount_zero {M : Matcher} :
    ∀ (s : List Char), matchCount M s = 0 → scanG M s = s := by
  intro s
  induction s with
  | nil => intro _; rfl
  | cons c t ih =>
    intro h
    cases hM : M (c :: t) with
    | none =>
      rw [matchCount_cons_none hM] at h
      rw [scanG_cons_none hM, ih h]
    | some son =>
      obtain ⟨o, n⟩ := son
      rw [matchCount_cons_some hM] at h
      omega

theorem scanF_of_matchCount_zero {M : Matcher} :
    ∀ (s : List Char), matchCount M s = 0 → scanF M s = s := by
  intro s
  induction s with
  | nil => intro _; rfl
  | cons c t ih =>
    intro h
    cases hM : M (c :: t) with
    | none =>
      rw [matchCount_cons_none hM] at h
      rw [scanF_cons_none hM, ih h]
    | some son =>
      obtain ⟨o, n⟩ := son
      rw [matchCount_cons_some hM] at h
      omega

/-! ### Splitting a list-valued `IsPrefix` across an append -/

theorem eq_app_of_pre {a s : List Char} (h : a <+: s) :
    s = a ++ s.drop a.length := by
  conv_lhs => rw [← List.take_append_drop a.length s,
    ← List.prefix_iff_eq_take.mp h]

theorem prefix_split {m a b : List Char} (h : m <+: a ++ b) :
    m <+: a ∨ (a <+: m ∧ m.drop a.length <+: b) := by
  by_cases hl : m.length ≤ a.length
  · exact Or.inl ((List.isPrefix_append_of_length hl).mp h)
  · right
    have hm := List.prefix_iff_eq_take.mp h
    rw [List.take_append_eq_append_take] at hm
    have ha : (a ++ b).take m.length = a ++ b.take (m.length - a.length) := by
      rw [List.take_append_eq_append_take, List.take_of_length_le (by omega)]
    rw [List.prefix_iff_eq_take.mp h, ha]
    constructor
    · exact ⟨b.take (m.length - a.length), rfl⟩
    · rw [List.drop_append_eq_append_drop, List.drop_of_length_le (by omega)]
      simpa using List.take_prefix _ _

/-! ### Tracking a string through a scan

`NoStartIn m M`: no match can begin at any offset inside an occurrence of
`m`.  `NoOccIn m M`: no occurrence of `m` can begin inside the region
consumed by a match.  Together these make a scan preserve occurrences of
`m`. -/

def NoStartIn (m : List Char) (M : Matcher) : Prop :=
  ∀ j, j < m.length → ∀ y, M (m.drop j ++ y) = none

def NoOccIn (m : List Char) (M : Matcher) : Prop :=
  ∀ s o n, M s = some (o, n) → ∀ j, j < max n 1 → ¬ m <+: s.drop j

/-- Weakening of `NoOccIn`: an occurrence of `m` may begin at offset `j`
inside a consumed block provided the block tail from `j` on is re-emitted
as a suffix of the output block (as the literal replacement of the
end-of-section marker does). -/
def NoOccSuf (m : List Char) (M : Matcher) : Prop :=
  ∀ s o n, M s = some (o, n) → ∀ j, j < max n 1 → m <+: s.drop j →
    ∃ X, o = X ++ (s.take (max n 1)).drop j

theorem noOccSuf_of_noOcc {m : List Char} {M : Matcher} (h : NoOccIn m M) :
    NoOccSuf m M :=
  fun s o n hM j hj hpre => absurd hpre (h s o n hM j hj)


theorem drop_append_of_lt {a b : List Char} {j : Nat} (h : j ≤ a.length) :
    (a ++ b).drop j = a.drop j ++ b := by
  rw [List.drop_append_eq_append_drop, Nat.sub_eq_zero_of_le h, List.drop_zero]

theorem take_drop_glue {s : List Char} {j k : Nat} (hj : j ≤ k) (hs : j ≤ s.length) :
    (s.take k).drop j ++ s.drop k = s.drop j := by
  conv_rhs => rw [← List.take_append_drop k s]
  rw [drop_append_of_lt]
  simp
  omega

theorem scanG_keep_head {M : Matcher} {m s : List Char}
    (h1 : NoStartIn m M) (h : m <+: s) :
    scanG M s = m ++ scanG M (s.drop m.length) := by
  obtain ⟨r, hr⟩ := h
  have := scanG_take_drop m.length s
    (fun j hj => by rw [← hr, drop_append_of_lt (le_of_lt hj)]; exact h1 j hj r)
    (by rw [← hr]; simp)
  rw [this, ← hr]
  simp

theorem scanF_keep_head {M : Matcher} {m s : List Char}
    (h1 : NoStartIn m M) (h : m <+: s) :
    scanF M s = m ++ scanF M (s.drop m.length) := by
  obtain ⟨r, hr⟩ := h
  have := scanF_take_drop m.length s
    (fun j hj => by rw [← hr, drop_append_of_lt (le_of_lt hj)]; exact h1 j hj r)
    (by rw [← hr]; simp)
  rw [this, ← hr]
  simp

theorem scanG_keeps {M : Matcher} {m : List Char} (hm : m ≠ [])
    (h1 : NoStartIn m M) (h2 : NoOccSuf m M) :
    ∀ (L : Nat) (s : List Char), s.length ≤ L → m <:+: s → m <:+: scanG M s := by
  intro L
  induction L with
  | zero =>
    intro s hs hinf
    have : s = [] := List.length_eq_zero.mp (Nat.le_zero.mp hs)
    subst this
    exact absurd (List.infix_nil.mp hinf) hm
  | succ L ih =>
    intro s hs hinf
    by_cases hp : m <+: s
    · rw [scanG_keep_head h1 hp]
      exact ((List.prefix_append m _).isInfix)
    · cases s with
      | nil => exact absurd (List.infix_nil.mp hinf) hm
      | cons c t =>
        rcases List.infix_cons_iff.mp hinf with hc | hc
        · exact absurd hc hp
        · cases hM : M (c :: t) with
          | none =>
            rw [scanG_cons_none hM]
            exact (ih t (by simp at hs; omega) hc).trans
              (List.suffix_cons c (scanG M t)).isInfix
          | some son =>
            obtain ⟨o, n⟩ := son
            rw [scanG_cons_some hM]
            obtain ⟨x, y, hxy⟩ := hc
            by_cases hj : x.length + 1 < max n 1
            · have hd : (c :: t).drop (x.length + 1) = m ++ y := by
                rw [List.drop_succ_cons, ← hxy, List.append_assoc,
                  List.drop_append_eq_append_drop]
                simp
              obtain ⟨X, hX⟩ := h2 _ _ _ hM (x.length + 1) hj
                (by rw [hd]; exact List.prefix_append m y)
              have hjlen : x.length + 1 ≤ (c :: t).length := by
                rw [← hxy]
                simp only [List.length_cons, List.length_append]
                omega
              have hglue : ((c :: t).take (max n 1)).drop (x.length + 1) ++
                  (c :: t).drop (max n 1) = m ++ y := by
                rw [take_drop_glue (le_of_lt hj) hjlen, hd]
              set bt := ((c :: t).take (max n 1)).drop (x.length + 1) with hbt
              have hmbt : m <+: bt ++ (c :: t).drop (max n 1) := by
                rw [hglue]
                exact List.prefix_append m y
              rcases prefix_split hmbt with hp | ⟨hp, hp2⟩
              · obtain ⟨z, hz⟩ := hp
                refine ⟨X, z ++ scanG M ((c :: t).drop (max n 1)), ?_⟩
                rw [hX, ← hz]
                simp
              · set m2 := m.drop bt.length with hm2
                have hy2 : (c :: t).drop (max n 1) =
                    m2 ++ ((c :: t).drop (max n 1)).drop m2.length :=
                  eq_app_of_pre hp2
                have htk := List.prefix_iff_eq_take.mp hp2
                have hsurv0 : scanG M ((c :: t).drop (max n 1)) =
                    ((c :: t).drop (max n 1)).take m2.length ++
                      scanG M (((c :: t).drop (max n 1)).drop m2.length) := by
                  apply scanG_take_drop m2.length
                  · intro i hi
                    have hdi : ((c :: t).drop (max n 1)).drop i =
                        m.drop (bt.length + i) ++
                          ((c :: t).drop (max n 1)).drop m2.length := by
                      conv_lhs => rw [hy2]
                      rw [drop_append_of_lt (le_of_lt hi), hm2, List.drop_drop]
                    rw [hdi]
                    apply h1
                    have hle : bt.length ≤ m.length := hp.length_le
                    simp [hm2] at hi
                    omega
                  · exact hp2.length_le
                have hsurv : scanG M ((c :: t).drop (max n 1)) =
                    m2 ++ scanG M (((c :: t).drop (max n 1)).drop m2.length) := by
                  rw [hsurv0, ← htk]
                have hmeq : bt ++ m2 = m := (eq_app_of_pre hp).symm
                refine ⟨X, scanG M (((c :: t).drop (max n 1)).drop m2.length), ?_⟩
                rw [hX, hsurv, ← hmeq]
                simp
            · have hinf2 : m <:+: (c :: t).drop (max n 1) := by
                refine ⟨(c :: x).drop (max n 1), y, ?_⟩
                have hcx : (c :: t) = (c :: x) ++ (m ++ y) := by
                  rw [← hxy]; simp
                rw [hcx, drop_append_of_lt (by simp; omega)]
                simp
              have hlen : ((c :: t).drop (max n 1)).length ≤ L := by
                simp at hs ⊢
                omega
              exact (ih _ hlen hinf2).trans
                (List.suffix_append o _).isInfix

theorem scanF_keeps {M : Matcher} {m : List Char} (hm : m ≠ [])
    (h1 : NoStartIn m M) (h2 : NoOccSuf m M) :
    ∀ (s : List Char), m <:+: s → m <:+: scanF M s := by
  intro s
  induction s with
  | nil => intro hinf; exact absurd (List.infix_nil.mp hinf) hm
  | cons c t ih =>
    intro hinf
    by_cases hp : m <+: c :: t
    · rw [scanF_keep_head h1 hp]
      exact (List.prefix_append m _).isInfix
    · rcases List.infix_cons_iff.mp hinf with hc | hc
      · exact absurd hc hp
      · cases hM : M (c :: t) with
        | none =>
          rw [scanF_cons_none hM]
          exact (ih hc).trans (List.suffix_cons c (scanF M t)).isInfix
        | some son =>
          obtain ⟨o, n⟩ := son
          rw [scanF_cons_some hM]
          obtain ⟨x, y, hxy⟩ := hc
          by_cases hj : x.length + 1 < max n 1
          · have hd : (c :: t).drop (x.length + 1) = m ++ y := by
              rw [List.drop_succ_cons, ← hxy, List.append_assoc,
                List.drop_append_eq_append_drop]
              simp
            obtain ⟨X, hX⟩ := h2 _ _ _ hM (x.length + 1) hj
              (by rw [hd]; exact List.prefix_append m y)
            have hjlen : x.length + 1 ≤ (c :: t).length := by
              rw [← hxy]
              simp only [List.length_cons, List.length_append]
              omega
            have hglue : ((c :: t).take (max n 1)).drop (x.length + 1) ++
                (c :: t).drop (max n 1) = m ++ y := by
              rw [take_drop_glue (le_of_lt hj) hjlen, hd]
            refine ⟨X, y, ?_⟩
            rw [hX]
            simp only [List.append_assoc]
            rw [hglue]
          · have hinf2 : m <:+: (c :: t).drop (max n 1) := by
              refine ⟨(c :: x).drop (max n 1), y, ?_⟩
              have hcx : (c :: t) = (c :: x) ++ (m ++ y) := by
                rw [← hxy]; simp
              rw [hcx, drop_append_of_lt (by simp; omega)]
              simp
            exact hinf2.trans (List.suffix_append o _).isInfix

/-! ### A firing scan emits its block; a scan only inserts -/

theorem scanG_block {M : Matcher} :
    ∀ (L : Nat) (s : List Char), s.length ≤ L → matchCount M s ≠ 0 →
      ∃ s' o n, M s' = some (o, n) ∧ o <:+: scanG M s := by
  intro L
  induction L with
  | zero =>
    intro s hs h
    have : s = [] := List.length_eq_zero.mp (Nat.le_zero.mp hs)
    subst this
    exact absurd rfl h
  | succ L ih =>
    intro s hs h
    cases s with
    | nil => exact absurd rfl h
    | cons c t =>
      cases hM : M (c :: t) with
      | none =>
        rw [matchCount_cons_none hM] at h
        obtain ⟨s', o, n, h1, h2⟩ := ih t (by simp at hs; omega) h
        exact ⟨s', o, n, h1, by
          rw [scanG_cons_none hM]
          exact h2.trans (List.suffix_cons c (scanG M t)).isInfix⟩
      | some son =>
        obtain ⟨o, n⟩ := son
        refine ⟨c :: t, o, n, hM, ?_⟩
        rw [scanG_cons_some hM]
        exact (List.prefix_append o _).isInfix

theorem scanF_block {M : Matcher} :
    ∀ (s : List Char), matchCount M s ≠ 0 →
      ∃ s' o n, M s' = some (o, n) ∧ o <:+: scanF M s := by
  intro s
  induction s with
  | nil => intro h; exact absurd rfl h
  | cons c t ih =>
    intro h
    cases hM : M (c :: t) with
    | none =>
      rw [matchCount_cons_none hM] at h
      obtain ⟨s', o, n, h1, h2⟩ := ih h
      exact ⟨s', o, n, h1, by
        rw [scanF_cons_none hM]
        exact h2.trans (List.suffix_cons c (scanF M t)).isInfix⟩
    | some son =>
      obtain ⟨o, n⟩ := son
      refine ⟨c :: t, o, n, hM, ?_⟩
      rw [scanF_cons_some hM]
      exact (List.prefix_append o _).isInfix

theorem scanG_sub {M : Matcher}
    (hM : ∀ s' o n, M s' = some (o, n) → List.Sublist (s'.take (max n 1)) o) :
    ∀ (L : Nat) (s : List Char), s.length ≤ L → List.Sublist s (scanG M s) := by
  intro L
  induction L with
  | zero =>
    intro s hs
    have : s = [] := List.length_eq_zero.mp (Nat.le_zero.mp hs)
    subst this
    simp
  | succ L ih =>
    intro s hs
    cases s with
    | nil => simp
    | cons c t =>
      cases hM2 : M (c :: t) with
      | none =>
        rw [scanG_cons_none hM2]
        exact (ih t (by simp at hs; omega)).cons₂ c
      | some son =>
        obtain ⟨o, n⟩ := son
        rw [scanG_cons_some hM2]
        have h1 : List.Sublist ((c :: t).take (max n 1) ++ (c :: t).drop (max n 1))
            (o ++ scanG M ((c :: t).drop (max n 1))) :=
          List.Sublist.append (hM _ _ _ hM2) (ih _ (by simp at hs ⊢; omega))
        simpa using h1

theorem scanF_sub {M : Matcher}
    (hM : ∀ s' o n, M s' = some (o, n) → List.Sublist (s'.take (max n 1)) o) :
    ∀ (s : List Char), List.Sublist s (scanF M s) := by
  intro s
  induction s with
  | nil => simp [scanF]
  | cons c t ih =>
    cases hM2 : M (c :: t) with
    | none =>
      rw [scanF_cons_none hM2]
      exact ih.cons₂ c
    | some son =>
      obtain ⟨o, n⟩ := son
      rw [scanF_cons_some hM2]
      have h1 : List.Sublist ((c :: t).take (max n 1) ++ (c :: t).drop (max n 1))
          (o ++ (c :: t).drop (max n 1)) :=
        List.Sublist.append (hM _ _ _ hM2) (List.Sublist.refl _)
      simpa using h1

/-! ### Side conditions relating a tracked string to the matcher literals -/

/-- No occurrence of `m` can begin inside the literal segment `L`
(neither contained in it nor running past its end). -/
def SegCond (m L : List Char) : Prop :=
  ∀ j, j < L.length → ¬ m <+: L.drop j ∧ ¬ L.drop j <+: m

/-- The pattern-opening literal `L` cannot begin at any offset inside `m`. -/
def NoAlign (m L : List Char) : Prop :=
  ∀ j, j < m.length → ¬ L <+: m.drop j ∧ ¬ m.drop j <+: L

/-- If `m` starts with whitespace, its non-whitespace tail must exist and
be incomparable with the literal `nxt` that follows a whitespace run. -/
def WsOK (m nxt : List Char) : Prop :=
  isJSWS m.headI = true →
    (m.dropWhile isJSWS ≠ [] ∧
      ¬ m.dropWhile isJSWS <+: nxt ∧ ¬ nxt <+: m.dropWhile isJSWS)

instance (m L : List Char) : Decidable (SegCond m L) := by
  unfold SegCond; infer_instance

instance (m L : List Char) : Decidable (NoAlign m L) := by
  unfold NoAlign; infer_instance

instance (m nxt : List Char) : Decidable (WsOK m nxt) := by
  unfold WsOK; infer_instance

/-- Every suffix of `m` starting strictly inside `m`, and `m` itself, is
incomparable with the literal `L`. -/
def DropCond (m L : List Char) : Prop :=
  ∀ k, k < m.length → ¬ m.drop k <+: L ∧ ¬ L <+: m.drop k

instance (m L : List Char) : Decidable (DropCond m L) := by
  unfold DropCond; infer_instance

/-- `SegCond` restricted to positive offsets (used when `m` itself opens the
segment, so offset `0` must be excluded). -/
def SegCondPos (m L : List Char) : Prop :=
  ∀ j, j < L.length → 0 < j → ¬ m <+: L.drop j ∧ ¬ L.drop j <+: m

instance (m L : List Char) : Decidable (SegCondPos m L) := by
  unfold SegCondPos; infer_instance

/-- `m` has no non-trivial border: no proper suffix of `m` is a prefix of
`m`. -/
def BorderFree (m : List Char) : Prop :=
  ∀ k, k < m.length → 0 < k → ¬ m.drop k <+: m

instance (m : List Char) : Decidable (BorderFree m) := by
  unfold BorderFree; infer_instance

theorem headI_append_left {a b : List Char} (h : a ≠ []) :
    (a ++ b).headI = a.headI := by
  cases a with
  | nil => exact absurd rfl h
  | cons x l => rfl

theorem headI_mem_self {a : List Char} (h : a ≠ []) : a.headI ∈ a := by
  cases a with
  | nil => exact absurd rfl h
  | cons x l => simp

theorem headI_of_pre {m x : List Char} (hm : m ≠ []) (h : m <+: x) :
    m.headI = x.headI := by
  cases m with
  | nil => exact absurd rfl hm
  | cons a m' =>
    cases x with
    | nil => simpa using h.length_le
    | cons b x' =>
      have := (List.cons_prefix_cons.mp h).1
      simp [this]

theorem no_occ_in_seg {m L rest : List Char} (hSC : SegCond m L) {j : Nat}
    (hj : j < L.length) : ¬ m <+: L.drop j ++ rest := by
  intro h
  rcases prefix_split h with h | ⟨h, -⟩
  · exact (hSC j hj).1 h
  · exact (hSC j hj).2 h

theorem no_occ_in_ws {m nxt ws' r : List Char}
    (hm : m ≠ []) (hws : ws' ≠ []) (hall : ∀ c ∈ ws', isJSWS c = true)
    (hnxt : nxt ≠ []) (hnh : isJSWS nxt.headI = false)
    (hW : WsOK m nxt) : ¬ m <+: ws' ++ (nxt ++ r) := by
  intro h
  have hmh : isJSWS m.headI = true := by
    rw [headI_of_pre hm h, headI_append_left hws]
    exact hall _ (headI_mem_self hws)
  obtain ⟨hT, h1, h2⟩ := hW hmh
  rcases prefix_split h with h | ⟨hws2, hdrop⟩
  · refine hT (List.dropWhile_eq_nil_iff.mpr fun c hc => ?_)
    exact hall c (h.subset hc)
  · have hmeq : m = ws' ++ m.drop ws'.length := by
      conv_lhs => rw [← List.take_append_drop ws'.length m]
      rw [← List.prefix_iff_eq_take.mp hws2]
    have hm2ne : m.drop ws'.length ≠ [] := by
      intro hnil
      refine hT (List.dropWhile_eq_nil_iff.mpr fun c hc => ?_)
      rw [hmeq, hnil, List.append_nil] at hc
      exact hall c hc
    have hm2h : isJSWS (m.drop ws'.length).headI = false := by
      rw [headI_of_pre hm2ne hdrop, headI_append_left hnxt]
      exact hnh
    have hdw : m.dropWhile isJSWS = m.drop ws'.length := by
      conv_lhs => rw [hmeq]
      rw [List.dropWhile_append]
      have hws0 : ws'.dropWhile isJSWS = [] :=
        List.dropWhile_eq_nil_iff.mpr fun c hc => hall c hc
      rw [hws0]
      simp only [List.isEmpty_nil, if_true]
      cases hc : m.drop ws'.length with
      | nil => exact absurd hc hm2ne
      | cons a l =>
        rw [hc] at hm2h
        simp at hm2h
        simp [List.dropWhile_cons, hm2h]
    rcases prefix_split hdrop with h3 | ⟨h3, -⟩
    · exact h1 (hdw ▸ h3)
    · exact h2 (hdw ▸ h3)

/-! ### Matcher characterisations -/


theorem litM_eq_some {pat repl s o : List Char} {n : Nat}
    (h : litM pat repl s = some (o, n)) :
    pat <+: s ∧ o = repl ∧ n = pat.length := by
  unfold litM at h
  split at h
  · obtain ⟨h1, h2⟩ := Prod.mk.injEq .. ▸ Option.some.injEq .. ▸ h
    exact ⟨by assumption, by injection h with h3; exact (Prod.mk.injEq .. ▸ h3).1.symm,
      by injection h with h3; exact (Prod.mk.injEq .. ▸ h3).2.symm⟩
  · exact absurd h (by simp)

theorem bundleM_eq_some {lit1 a1 a2 ins s o : List Char} {n : Nat}
    (h : bundleM lit1 a1 a2 ins s = some (o, n)) :
    ∃ ws alt r, s = lit1 ++ (ws ++ (alt ++ r)) ∧ ws ≠ [] ∧
      (∀ c ∈ ws, isJSWS c = true) ∧ (alt = a1 ∨ alt = a2) ∧
      o = lit1 ++ ws ++ ins ++ ws ++ alt ∧
      n = lit1.length + ws.length + alt.length := by
  unfold bundleM at h
  split at h <;> rename_i h1
  case isFalse => exact absurd h (by simp)
  simp only at h
  split at h <;> rename_i h2
  · exact absurd h (by simp)
  split at h <;> rename_i h3
  · injection h with h4
    obtain ⟨ho, hn⟩ := Prod.mk.injEq .. ▸ h4
    refine ⟨(s.drop lit1.length).takeWhile isJSWS, a1,
      ((s.drop lit1.length).dropWhile isJSWS).drop a1.length, ?_, h2, ?_, Or.inl rfl,
      ho.symm, hn.symm⟩
    · have hgoal : lit1 ++ ((s.drop lit1.length).takeWhile isJSWS ++
          (a1 ++ ((s.drop lit1.length).dropWhile isJSWS).drop a1.length)) = s := by
        rw [← eq_app_of_pre h3, List.takeWhile_append_dropWhile]
        exact (eq_app_of_pre h1).symm
      exact hgoal.symm
    · exact fun c hc => List.mem_takeWhile_imp hc
  split at h <;> rename_i h4
  · injection h with h5
    obtain ⟨ho, hn⟩ := Prod.mk.injEq .. ▸ h5
    refine ⟨(s.drop lit1.length).takeWhile isJSWS, a2,
      ((s.drop lit1.length).dropWhile isJSWS).drop a2.length, ?_, h2, ?_, Or.inr rfl,
      ho.symm, hn.symm⟩
    · have hgoal : lit1 ++ ((s.drop lit1.length).takeWhile isJSWS ++
          (a2 ++ ((s.drop lit1.length).dropWhile isJSWS).drop a2.length)) = s := by
        rw [← eq_app_of_pre h4, List.takeWhile_append_dropWhile]
        exact (eq_app_of_pre h1).symm
      exact hgoal.symm
    · exact fun c hc => List.mem_takeWhile_imp hc
  · exact absurd h (by simp)

theorem groupM_eq_some {glit ins s o : List Char} {n : Nat}
    (h : groupM glit ins s = some (o, n)) :
    ∃ ws1 ws2 r, s = glit ++ (ws1 ++ (isaLit ++ (ws2 ++ (childrenLit ++ r)))) ∧
      (∀ c ∈ ws1, isJSWS c = true) ∧ (∀ c ∈ ws2, isJSWS c = true) ∧
      o = glit ++ ws1 ++ isaLit ++ ws2 ++ childrenLit ++ ins ∧
      n = glit.length + ws1.length + isaLit.length
        + ws2.length + childrenLit.length := by
  unfold groupM at h
  split at h <;> rename_i h1
  case isFalse => exact absurd h (by simp)
  simp only at h
  split at h <;> rename_i h2
  case isFalse => exact absurd h (by simp)
  split at h <;> rename_i h3
  case isFalse => exact absurd h (by simp)
  injection h with h4
  obtain ⟨ho, hn⟩ := Prod.mk.injEq .. ▸ h4
  refine ⟨(s.drop glit.length).takeWhile isJSWS,
    (((s.drop glit.length).dropWhile isJSWS).drop isaLit.length).takeWhile isJSWS,
    ((((s.drop glit.length).dropWhile isJSWS).drop isaLit.length).dropWhile
        isJSWS).drop childrenLit.length,
    ?_, fun c hc => List.mem_takeWhile_imp hc, fun c hc => List.mem_takeWhile_imp hc,
    ho.symm, hn.symm⟩
  have hgoal : glit ++ ((s.drop glit.length).takeWhile isJSWS ++
      (isaLit ++ ((((s.drop glit.length).dropWhile isJSWS).drop
          isaLit.length).takeWhile isJSWS ++
        (childrenLit ++ ((((s.drop glit.length).dropWhile isJSWS).drop
            isaLit.length).dropWhile isJSWS).drop childrenLit.length)))) = s := by
    rw [← eq_app_of_pre h3, List.takeWhile_append_dropWhile,
      ← eq_app_of_pre h2, List.takeWhile_append_dropWhile]
    exact (eq_app_of_pre h1).symm
  exact hgoal.symm

theorem litM_fire {pat repl s o : List Char} {n : Nat}
    (h : litM pat repl s = some (o, n)) : pat <+: s :=
  (litM_eq_some h).1

theorem bundleM_fire {lit1 a1 a2 ins s o : List Char} {n : Nat}
    (h : bundleM lit1 a1 a2 ins s = some (o, n)) : lit1 <+: s := by
  unfold bundleM at h
  split at h <;> rename_i h1
  · exact h1
  · exact absurd h (by simp)

theorem groupM_fire {glit ins s o : List Char} {n : Nat}
    (h : groupM glit ins s = some (o, n)) : glit <+: s := by
  unfold groupM at h
  split at h <;> rename_i h1
  · exact h1
  · exact absurd h (by simp)

theorem noStart_of_noAlign {m L : List Char} {M : Matcher}
    (hfire : ∀ s o n, M s = some (o, n) → L <+: s) (hNA : NoAlign m L) :
    NoStartIn m M := by
  intro j hj y
  cases hM : M (m.drop j ++ y) with
  | none => rfl
  | some son =>
    obtain ⟨o, n⟩ := son
    rcases prefix_split (hfire _ _ _ hM) with h | ⟨h, -⟩
    · exact absurd h (hNA j hj).1
    · exact absurd h (hNA j hj).2

theorem drop_append_mid {A B : List Char} {j : Nat} (h : A.length ≤ j) :
    (A ++ B).drop j = B.drop (j - A.length) := by
  rw [List.drop_append_eq_append_drop, List.drop_eq_nil_of_le h, List.nil_append]

theorem litM_noOcc {m pat repl : List Char} (hp : pat ≠ [])
    (hSC : SegCond m pat) : NoOccIn m (litM pat repl) := by
  intro s o n h j hj hpre
  obtain ⟨h1, -, hn⟩ := litM_eq_some h
  have hppos : 0 < pat.length := List.length_pos.mpr hp
  have hj' : j < pat.length := by omega
  rw [eq_app_of_pre h1, drop_append_of_lt (le_of_lt hj')] at hpre
  exact no_occ_in_seg hSC hj' hpre

/-- For a literal replacement whose output ends with the pattern itself
(as `fileRefAddition` ends with the end-of-section marker), any occurrence
overlapping the consumed pattern keeps its block tail in the output. -/
theorem litM_noOccSuf {m pat repl : List Char} (hp : pat ≠ [])
    (hsuf : pat <:+ repl) : NoOccSuf m (litM pat repl) := by
  intro s o n h j hj _
  obtain ⟨h1, ho, hn⟩ := litM_eq_some h
  have hppos : 0 < pat.length := List.length_pos.mpr hp
  have hmax : max n 1 = pat.length := by omega
  have htake : s.take (max n 1) = pat := by
    rw [hmax, ← List.prefix_iff_eq_take.mp h1]
  rw [htake, ho]
  obtain ⟨w, hw⟩ := hsuf
  exact ⟨w ++ pat.take j, by
    rw [← hw]
    conv_lhs => rw [← List.take_append_drop j pat]
    simp⟩

theorem bundleM_noOcc {m lit1 a1 a2 ins : List Char} (hm : m ≠ [])
    (hL : SegCond m lit1) (hA1 : SegCond m a1) (hA2 : SegCond m a2)
    (hW1 : WsOK m a1) (hW2 : WsOK m a2)
    (ha1 : a1 ≠ []) (ha2 : a2 ≠ [])
    (hh1 : isJSWS a1.headI = false) (hh2 : isJSWS a2.headI = false) :
    NoOccIn m (bundleM lit1 a1 a2 ins) := by
  intro s o n h j hj hpre
  obtain ⟨ws, alt, r, hs, hwne, hwall, halt, -, hn⟩ := bundleM_eq_some h
  have hwpos : 0 < ws.length := List.length_pos.mpr hwne
  have hjn : j < lit1.length + ws.length + alt.length := by omega
  by_cases j1 : j < lit1.length
  · rw [hs, drop_append_of_lt (le_of_lt j1)] at hpre
    exact no_occ_in_seg hL j1 hpre
  · push_neg at j1
    by_cases j2 : j < lit1.length + ws.length
    · have hj' : j - lit1.length < ws.length := by omega
      rw [hs, drop_append_mid j1, drop_append_of_lt (le_of_lt hj')] at hpre
      have hwsne : ws.drop (j - lit1.length) ≠ [] := by
        intro hx
        have := congrArg List.length hx
        simp at this
        omega
      have hwall' : ∀ c ∈ ws.drop (j - lit1.length), isJSWS c = true :=
        fun c hc => hwall c (List.mem_of_mem_drop hc)
      rcases halt with rfl | rfl
      · exact no_occ_in_ws hm hwsne hwall' ha1 hh1 hW1 hpre
      · exact no_occ_in_ws hm hwsne hwall' ha2 hh2 hW2 hpre
    · push_neg at j2
      have hj'' : j - lit1.length - ws.length < alt.length := by omega
      have hws' : ws.length ≤ j - lit1.length := by omega
      rw [hs, drop_append_mid j1, drop_append_mid hws',
        drop_append_of_lt (le_of_lt hj'')] at hpre
      exact hj'' |> fun hj'' => by
        rcases halt with rfl | rfl
        · exact no_occ_in_seg hA1 hj'' hpre
        · exact no_occ_in_seg hA2 hj'' hpre

theorem groupM_noOcc {m glit ins : List Char} (hm : m ≠ [])
    (hG : SegCond m glit) (hI : SegCond m isaLit) (hC : SegCond m childrenLit)
    (hWI : WsOK m isaLit) (hWC : WsOK m childrenLit) :
    NoOccIn m (groupM glit ins) := by
  intro s o n h j hj hpre
  obtain ⟨ws1, ws2, r, hs, hw1, hw2, -, hn⟩ := groupM_eq_some h
  have hcpos : 0 < childrenLit.length := by decide
  have hipos : 0 < isaLit.length := by decide
  have hjn : j < glit.length + ws1.length + isaLit.length
      + ws2.length + childrenLit.length := by omega
  by_cases j1 : j < glit.length
  · rw [hs, drop_append_of_lt (le_of_lt j1)] at hpre
    exact no_occ_in_seg hG j1 hpre
  · push_neg at j1
    by_cases j2 : j < glit.length + ws1.length
    · have hj' : j - glit.length < ws1.length := by omega
      rw [hs, drop_append_mid j1, drop_append_of_lt (le_of_lt hj')] at hpre
      have hwsne : ws1.drop (j - glit.length) ≠ [] := by
        intro hx
        have := congrArg List.length hx
        simp at this
        omega
      have hwall' : ∀ c ∈ ws1.drop (j - glit.length), isJSWS c = true :=
        fun c hc => hw1 c (List.mem_of_mem_drop hc)
      exact no_occ_in_ws hm hwsne hwall' (by decide) (by decide) hWI hpre
    · push_neg at j2
      have hd1 : ws1.length ≤ j - glit.length := by omega
      by_cases j3 : j < glit.length + ws1.length + isaLit.length
      · have hj' : j - glit.length - ws1.length < isaLit.length := by omega
        rw [hs, drop_append_mid j1, drop_append_mid hd1,
          drop_append_of_lt (le_of_lt hj')] at hpre
        exact no_occ_in_seg hI hj' hpre
      · push_neg at j3
        have hd2 : isaLit.length ≤ j - glit.length - ws1.length := by omega
        by_cases j4 : j < glit.length + ws1.length + isaLit.length + ws2.length
        · have hj' : j - glit.length - ws1.length - isaLit.length < ws2.length := by
            omega
          rw [hs, drop_append_mid j1, drop_append_mid hd1, drop_append_mid hd2,
            drop_append_of_lt (le_of_lt hj')] at hpre
          have hwsne : ws2.drop (j - glit.length - ws1.length - isaLit.length) ≠ [] := by
            intro hx
            have := congrArg List.length hx
            simp at this
            omega
          have hwall' : ∀ c ∈ ws2.drop (j - glit.length - ws1.length - isaLit.length),
              isJSWS c = true := fun c hc => hw2 c (List.mem_of_mem_drop hc)
          exact no_occ_in_ws hm hwsne hwall' (by decide) (by decide) hWC hpre
        · push_neg at j4
          have hd3 : ws2.length ≤ j - glit.length - ws1.length - isaLit.length := by
            omega
          have hj' : j - glit.length - ws1.length - isaLit.length - ws2.length
              < childrenLit.length := by omega
          rw [hs, drop_append_mid j1, drop_append_mid hd1, drop_append_mid hd2,
            drop_append_mid hd3, drop_append_of_lt (le_of_lt hj')] at hpre
          exact no_occ_in_seg hC hj' hpre

/-! ### A position where the matcher fires makes the match count positive -/

theorem matchCount_pos {M : Matcher} :
    ∀ (s : List Char) (j : Nat), j < s.length → M (s.drop j) ≠ none →
      matchCount M s ≠ 0 := by
  intro s
  induction s with
  | nil => intro j hj; simp at hj
  | cons c t ih =>
    intro j hj hM
    cases j with
    | zero =>
      simp only [List.drop_zero] at hM
      cases hMc : M (c :: t) with
      | none => exact absurd hMc hM
      | some son =>
        obtain ⟨o, n⟩ := son
        rw [matchCount_cons_some hMc]
        omega
    | succ j =>
      rw [List.drop_succ_cons] at hM
      have hj' : j < t.length := by simp at hj; omega
      have := ih j hj' hM
      cases hMc : M (c :: t) with
      | none => rw [matchCount_cons_none hMc]; exact this
      | some son =>
        obtain ⟨o, n⟩ := son
        rw [matchCount_cons_some hMc]
        omega

/-! ### The marker survives every stage after the file-reference insertion -/

theorem marker_noStart_bundle_app :
    NoStartIn marker (bundleM appLit1 pnLit ragLit appIns) :=
  noStart_of_noAlign (fun _ _ _ => bundleM_fire) (by decide)

theorem marker_noOcc_bundle_app :
    NoOccIn marker (bundleM appLit1 pnLit ragLit appIns) :=
  bundleM_noOcc (by decide) (by decide) (by decide) (by decide) (by decide)
    (by decide) (by decide) (by decide) (by decide) (by decide)

theorem marker_noStart_bundle_ext :
    NoStartIn marker (bundleM extLit1 pnLit siLit extIns) :=
  noStart_of_noAlign (fun _ _ _ => bundleM_fire) (by decide)

theorem marker_noOcc_bundle_ext :
    NoOccIn marker (bundleM extLit1 pnLit siLit extIns) :=
  bundleM_noOcc (by decide) (by decide) (by decide) (by decide) (by decide)
    (by decide) (by decide) (by decide) (by decide) (by decide)

theorem marker_noStart_group_app (u1 : List Char) :
    NoStartIn marker (groupM glitApp (clApp u1)) :=
  noStart_of_noAlign (fun _ _ _ => groupM_fire) (by decide)

theorem marker_noOcc_group_app (u1 : List Char) :
    NoOccIn marker (groupM glitApp (clApp u1)) :=
  groupM_noOcc (by decide) (by decide) (by decide) (by decide) (by decide)
    (by decide)

theorem marker_noStart_group_ext (u2 : List Char) :
    NoStartIn marker (groupM glitExt (clExt u2)) :=
  noStart_of_noAlign (fun _ _ _ => groupM_fire) (by decide)

theorem marker_noOcc_group_ext (u2 : List Char) :
    NoOccIn marker (groupM glitExt (clExt u2)) :=
  groupM_noOcc (by decide) (by decide) (by decide) (by decide) (by decide)
    (by decide)

theorem marker_in_fileRefAddition (u1 u2 : List Char) :
    marker <:+: fileRefAddition u1 u2 := by
  have h1 : marker <:+: js " /* BewlyCat.entitlements */ = \x7bisa = PBXFileReference; lastKnownFileType = text.plist.entitlements; path = BewlyCat.entitlements; sourceTree = \"<group>\"; \x7d;\n\t\t" := by
    decide
  refine h1.trans ⟨js "\t\t" ++ u1, ?_, ?_⟩
  · exact u2 ++ js " /* BewlyCat Extension.entitlements */ = \x7bisa = PBXFileReference; lastKnownFileType = text.plist.entitlements; path = \"BewlyCat Extension.entitlements\"; sourceTree = \"<group>\"; \x7d;\n" ++ fileRefEndMarker
  · simp [fileRefAddition]

theorem marker_in_updBody (u1 u2 c : List Char)
    (hend : fileRefEndMarker <:+: c) : marker <:+: updBody u1 u2 c := by
  unfold updBody
  apply scanF_keeps (by decide) (marker_noStart_group_ext u2)
    (noOccSuf_of_noOcc (marker_noOcc_group_ext u2))
  apply scanF_keeps (by decide) (marker_noStart_group_app u1)
    (noOccSuf_of_noOcc (marker_noOcc_group_app u1))
  apply scanG_keeps (by decide) marker_noStart_bundle_ext
    (noOccSuf_of_noOcc marker_noOcc_bundle_ext) _ _ le_rfl
  apply scanG_keeps (by decide) marker_noStart_bundle_app
    (noOccSuf_of_noOcc marker_noOcc_bundle_app) _ _ le_rfl
  obtain ⟨x, y, hxy⟩ := hend
  have hj : x.length < c.length := by
    rw [← hxy]
    simp [fileRefEndMarker, js]
  have hfires : litM fileRefEndMarker (fileRefAddition u1 u2) (c.drop x.length) ≠ none := by
    have hd : c.drop x.length = fileRefEndMarker ++ y := by
      rw [← hxy, List.append_assoc, List.drop_append_eq_append_drop]
      simp
    rw [hd]
    simp [litM, List.prefix_append]
  have hmc := matchCount_pos c x.length hj hfires
  obtain ⟨s', o, n, hf, hinf⟩ := scanF_block c hmc
  obtain ⟨-, ho, -⟩ := litM_eq_some hf
  subst ho
  exact (marker_in_fileRefAddition u1 u2).trans hinf

set_option maxRecDepth 100000 in
/-- Counterexample to claim C1: on a descriptor content whose only anchor is
the extension group header, the output of one application does not contain
the marker `'BewlyCat.entitlements'`, and a second application (with the
same generated identifiers, here those of the all-zero draws) changes the
content again, so applying the patch twice differs from applying it once. -/
theorem patch_not_idempotent_on_ext_only_content :
    ¬ marker <:+:
        updatePbxprojContent (generateUUID fun _ => 0) (generateUUID fun _ => 0)
          (js "X/* BewlyCat Extension */ = \x7bisa = PBXGroup;children = (Y") ∧
    updatePbxprojContent (generateUUID fun _ => 0) (generateUUID fun _ => 0)
        (updatePbxprojContent (generateUUID fun _ => 0) (generateUUID fun _ => 0)
          (js "X/* BewlyCat Extension */ = \x7bisa = PBXGroup;children = (Y"))
      ≠ updatePbxprojContent (generateUUID fun _ => 0) (generateUUID fun _ => 0)
          (js "X/* BewlyCat Extension */ = \x7bisa = PBXGroup;children = (Y") := by
  constructor
  · decide
  · decide

/-- Claim C1 (amended): content already containing the marker
`'BewlyCat.entitlements'` is returned unmodified, and for every content
containing the `PBXFileReference` end-of-section marker (true of every real
descriptor) the output of one application contains the marker, so a second
application — with any identifiers — is a no-op.  (Without the
end-of-section marker the patch may not insert the marker and need not be
idempotent.) -/
theorem updatePbxproj_idempotent :
    (∀ c u1 u2 : List Char, marker <:+: c → updatePbxprojContent u1 u2 c = c) ∧
    (∀ c u1 u2 u3 u4 : List Char, fileRefEndMarker <:+: c →
      marker <:+: updatePbxprojContent u1 u2 c ∧
      updatePbxprojContent u3 u4 (updatePbxprojContent u1 u2 c) =
        updatePbxprojContent u1 u2 c) := by
  have hguard : ∀ c u1 u2 : List Char, marker <:+: c →
      updatePbxprojContent u1 u2 c = c := by
    intro c u1 u2 hc
    simp [updatePbxprojContent, hc]
  refine ⟨hguard, fun c u1 u2 u3 u4 hend => ?_⟩
  have hmark : marker <:+: updatePbxprojContent u1 u2 c := by
    unfold updatePbxprojContent
    split
    · assumption
    · exact marker_in_updBody u1 u2 c hend
  exact ⟨hmark, hguard _ u3 u4 hmark⟩

set_option maxRecDepth 100000 in
/-- Witness for the amended claim C1 at concrete inputs: a content that is
just the end-of-section marker, and the identifiers of the all-zero draws. -/
theorem updatePbxproj_idempotent_witness :
    marker <:+:
      updatePbxprojContent (generateUUID fun _ => 0) (generateUUID fun _ => 0)
        fileRefEndMarker ∧
    updatePbxprojContent (generateUUID fun _ => 1) (generateUUID fun _ => 2)
        (updatePbxprojContent (generateUUID fun _ => 0) (generateUUID fun _ => 0)
          fileRefEndMarker) =
      updatePbxprojContent (generateUUID fun _ => 0) (generateUUID fun _ => 0)
        fileRefEndMarker ∧
    updatePbxprojContent (generateUUID fun _ => 0) (generateUUID fun _ => 0)
        marker = marker := by
  refine ⟨(updatePbxproj_idempotent.2 fileRefEndMarker
      (generateUUID fun _ => 0) (generateUUID fun _ => 0)
      (generateUUID fun _ => 1) (generateUUID fun _ => 2)
      (by decide)).1,
    (updatePbxproj_idempotent.2 fileRefEndMarker
      (generateUUID fun _ => 0) (generateUUID fun _ => 0)
      (generateUUID fun _ => 1) (generateUUID fun _ => 2)
      (by decide)).2,
    updatePbxproj_idempotent.1 marker (generateUUID fun _ => 0)
      (generateUUID fun _ => 0) (by decide)⟩

/-! ### Anchor-free content is rewritten unchanged -/

theorem litM_matchCount_zero {pat repl : List Char} :
    ∀ c : List Char, ¬ pat <:+: c → matchCount (litM pat repl) c = 0 := by
  intro c
  induction c with
  | nil => intro _; rfl
  | cons a t ih =>
    intro h
    have hp : ¬ pat <+: a :: t := fun hp => h hp.isInfix
    have hnone : litM pat repl (a :: t) = none := by simp [litM, hp]
    rw [matchCount_cons_none hnone]
    exact ih fun hc => h (List.infix_cons_iff.mpr (Or.inr hc))

theorem updBody_id (u1 u2 c : List Char) (hend : ¬ fileRefEndMarker <:+: c)
    (hb1 : matchCount (bundleM appLit1 pnLit ragLit appIns) c = 0)
    (hb2 : matchCount (bundleM extLit1 pnLit siLit extIns) c = 0)
    (hg1 : matchCount (groupM glitApp (clApp u1)) c = 0)
    (hg2 : matchCount (groupM glitExt (clExt u2)) c = 0) :
    updBody u1 u2 c = c := by
  unfold updBody
  rw [scanF_of_matchCount_zero c (litM_matchCount_zero c hend),
    scanG_of_matchCount_zero c hb1, scanG_of_matchCount_zero c hb2,
    scanF_of_matchCount_zero c hg1, scanF_of_matchCount_zero c hg2]

/-- Claim C10: when the content contains neither the marker nor any of the
five insertion anchors (no end-of-section marker, no matching
bundle-identifier context, no matching group header), the run still
rewrites the descriptor file — with content byte-for-byte equal to the
input — and exits with code 0; the absence of anchors is not an error. -/
theorem no_anchor_still_rewrites (c : List Char) (r : Nat → Fin 16)
    (hm : ¬ marker <:+: c) (hend : ¬ fileRefEndMarker <:+: c)
    (hb1 : matchCount (bundleM appLit1 pnLit ragLit appIns) c = 0)
    (hb2 : matchCount (bundleM extLit1 pnLit siLit extIns) c = 0)
    (hg1 : matchCount (groupM glitApp (clApp (generateUUID fun i => r i))) c = 0)
    (hg2 : matchCount (groupM glitExt (clExt (generateUUID fun i => r (24 + i)))) c = 0) :
    (runMain true c r).1 = 0 ∧ (pbxprojPath, c) ∈ (runMain true c r).2 := by
  refine ⟨rfl, ?_⟩
  have hbody := updBody_id (generateUUID fun i => r i)
    (generateUUID fun i => r (24 + i)) c hend hb1 hb2 hg1 hg2
  simp [runMain, hm, hbody]

set_option maxRecDepth 40000 in
/-- Witness for claim C10: the anchor-free content `"hello"` with the
all-zero random stream is rewritten unchanged with exit code 0. -/
theorem no_anchor_still_rewrites_witness :
    (runMain true (js "hello") fun _ => 0).1 = 0 ∧
    (pbxprojPath, js "hello") ∈ (runMain true (js "hello") fun _ => 0).2 :=
  no_anchor_still_rewrites (js "hello") (fun _ => 0) (by decide) (by decide)
    (by decide) (by decide) (by decide) (by decide)

/-! ### First-match substitutions rewrite only the first occurrence -/

theorem scanF_first {M : Matcher} {s o : List Char} {k n : Nat}
    (hnone : ∀ j, j < k → M (s.drop j) = none)
    (hfire : M (s.drop k) = some (o, n)) (hk : k < s.length) :
    scanF M s = s.take k ++ o ++ s.drop (k + max n 1) := by
  rw [scanF_take_drop k s hnone (le_of_lt hk)]
  cases hd : s.drop k with
  | nil =>
    have := congrArg List.length hd
    simp at this
    omega
  | cons a t =>
    rw [hd] at hfire
    rw [scanF_cons_some hfire, ← hd, List.drop_drop, List.append_assoc]

/-- Claim C4: each of the two group-membership substitutions uses the first
match of its pattern only: the output is the input with the matched region
replaced by itself followed by the new child entry (inserted immediately
after the `children = (` token), and everything after the first match —
including any further textually-identical group header — is copied
verbatim. -/
theorem group_insertion_first_match_only :
    (∀ (u s o : List Char) (k n : Nat),
      (∀ j, j < k → groupM glitApp (clApp u) (s.drop j) = none) →
      groupM glitApp (clApp u) (s.drop k) = some (o, n) → k < s.length →
      scanF (groupM glitApp (clApp u)) s = s.take k ++ o ++ s.drop (k + n) ∧
      ∃ ws1 ws2, o = glitApp ++ ws1 ++ isaLit ++ ws2 ++ childrenLit ++ clApp u) ∧
    (∀ (u s o : List Char) (k n : Nat),
      (∀ j, j < k → groupM glitExt (clExt u) (s.drop j) = none) →
      groupM glitExt (clExt u) (s.drop k) = some (o, n) → k < s.length →
      scanF (groupM glitExt (clExt u)) s = s.take k ++ o ++ s.drop (k + n) ∧
      ∃ ws1 ws2, o = glitExt ++ ws1 ++ isaLit ++ ws2 ++ childrenLit ++ clExt u) := by
  constructor
  all_goals
    intro u s o k n hnone hfire hk
    obtain ⟨ws1, ws2, r, -, -, -, ho, hn⟩ := groupM_eq_some hfire
    have hmax : max n 1 = n := by
      have : 0 < childrenLit.length := by decide
      omega
    rw [← hmax]
    exact ⟨scanF_first hnone hfire hk, ws1, ws2, ho⟩

set_option maxRecDepth 100000 in
/-- Witness for claim C4: on contents with two textually-identical group
headers, only the first occurrence receives the inserted child entry; the
second header is copied verbatim in the tail. -/
theorem group_insertion_first_match_only_witness :
    scanF (groupM glitApp (clApp (generateUUID fun _ => 0)))
        (js "A/* BewlyCat */ = \x7bisa = PBXGroup;children = (/* BewlyCat */ = \x7bisa = PBXGroup;children = (") =
      (js "A/* BewlyCat */ = \x7bisa = PBXGroup;children = (/* BewlyCat */ = \x7bisa = PBXGroup;children = (").take 1 ++
        (glitApp ++ isaLit ++ childrenLit ++ clApp (generateUUID fun _ => 0)) ++
        (js "A/* BewlyCat */ = \x7bisa = PBXGroup;children = (/* BewlyCat */ = \x7bisa = PBXGroup;children = (").drop (1 + 45) ∧
    scanF (groupM glitExt (clExt (generateUUID fun _ => 0)))
        (js "B/* BewlyCat Extension */ = \x7bisa = PBXGroup;children = (/* BewlyCat Extension */ = \x7bisa = PBXGroup;children = (") =
      (js "B/* BewlyCat Extension */ = \x7bisa = PBXGroup;children = (/* BewlyCat Extension */ = \x7bisa = PBXGroup;children = (").take 1 ++
        (glitExt ++ isaLit ++ childrenLit ++ clExt (generateUUID fun _ => 0)) ++
        (js "B/* BewlyCat Extension */ = \x7bisa = PBXGroup;children = (/* BewlyCat Extension */ = \x7bisa = PBXGroup;children = (").drop (1 + 55) :=
  ⟨(group_insertion_first_match_only.1 (generateUUID fun _ => 0)
      (js "A/* BewlyCat */ = \x7bisa = PBXGroup;children = (/* BewlyCat */ = \x7bisa = PBXGroup;children = (")
      (glitApp ++ isaLit ++ childrenLit ++ clApp (generateUUID fun _ => 0))
      1 45 (by decide) (by decide) (by decide)).1,
    (group_insertion_first_match_only.2 (generateUUID fun _ => 0)
      (js "B/* BewlyCat Extension */ = \x7bisa = PBXGroup;children = (/* BewlyCat Extension */ = \x7bisa = PBXGroup;children = (")
      (glitExt ++ isaLit ++ childrenLit ++ clExt (generateUUID fun _ => 0))
      1 55 (by decide) (by decide) (by decide)).1⟩

/-! ### Side conditions for segmented tracked strings

The strings tracked through the pipeline in the frame claim are built from
concrete literals joined by arbitrary whitespace runs; the conditions of
the preservation lemmas reduce to decidable checks on the literals. -/

theorem segCond_of_head {m L : List Char} (hm : m ≠ []) (hh : m.headI ∉ L) :
    SegCond m L := by
  intro j hj
  have hd : L.drop j ≠ [] := by
    intro hx
    have := congrArg List.length hx
    simp at this
    omega
  constructor
  · intro h
    exact hh (by
      rw [headI_of_pre hm h]
      exact List.mem_of_mem_drop (headI_mem_self hd))
  · intro h
    exact hh (by
      rw [← headI_of_pre hd h]
      exact List.mem_of_mem_drop (headI_mem_self hd))

theorem segCond_gen {m A L : List Char} (hA : A <+: m)
    (h1 : ∀ j, j < L.length → ¬ m <+: L.drop j)
    (h2 : ∀ j, j < L.length → ¬ L.drop j <+: A ∧ ¬ A <+: L.drop j) :
    SegCond m L := by
  intro j hj
  refine ⟨h1 j hj, fun h => ?_⟩
  rcases List.prefix_or_prefix_of_prefix h hA with h3 | h3
  · exact (h2 j hj).1 h3
  · exact (h2 j hj).2 h3

theorem not_pre_of_len {m L : List Char} (hlen : L.length < m.length) :
    ∀ j, j < L.length → ¬ m <+: L.drop j := by
  intro j hj h
  have := h.length_le
  simp at this
  omega

theorem not_pre_of_head {m L : List Char} (hm : m ≠ []) (hh : m.headI ∉ L) :
    ∀ j, j < L.length → ¬ m <+: L.drop j := by
  intro j hj h
  have hd : L.drop j ≠ [] := by
    intro hx
    have := congrArg List.length hx
    simp at this
    omega
  exact hh (by
    rw [headI_of_pre hm h]
    exact List.mem_of_mem_drop (headI_mem_self hd))

theorem incompat_of_heads {a b : List Char} (ha : a ≠ []) (hb : b ≠ [])
    (h : a.headI ≠ b.headI) : ¬ a <+: b ∧ ¬ b <+: a :=
  ⟨fun hp => h (headI_of_pre ha hp), fun hp => h (headI_of_pre hb hp).symm⟩

/-- `NoAlign` for a three-segment tracked string `A ++ (ws ++ B)`. -/
theorem noAlign_seg3 {A ws B L : List Char}
    (hws : ∀ c ∈ ws, isJSWS c = true)
    (hL : L ≠ []) (hLh : isJSWS L.headI = false)
    (hA : ∀ j, j < A.length → ¬ L <+: A.drop j ∧ ¬ A.drop j <+: L)
    (hB : ∀ j, j < B.length → ¬ L <+: B.drop j ∧ ¬ B.drop j <+: L) :
    NoAlign (A ++ (ws ++ B)) L := by
  intro j hj
  simp only [List.length_append] at hj
  by_cases j1 : j < A.length
  · rw [drop_append_of_lt (le_of_lt j1)]
    constructor
    · intro h
      rcases prefix_split h with h | ⟨h, -⟩
      · exact (hA j j1).1 h
      · exact (hA j j1).2 h
    · intro h
      exact (hA j j1).2 (((A.drop j).prefix_append (ws ++ B)).trans h)
  · push_neg at j1
    rw [drop_append_mid j1]
    by_cases j2 : j - A.length < ws.length
    · rw [drop_append_of_lt (le_of_lt j2)]
      have hwne : ws.drop (j - A.length) ≠ [] := by
        intro hx
        have := congrArg List.length hx
        simp at this
        omega
      have hwh : isJSWS (ws.drop (j - A.length) ++ B).headI = true := by
        rw [headI_append_left hwne]
        exact hws _ (List.mem_of_mem_drop (headI_mem_self hwne))
      constructor
      · intro h
        rw [headI_of_pre hL h, hwh] at hLh
        simp at hLh
      · intro h
        have hne : ws.drop (j - A.length) ++ B ≠ [] := by
          intro hx
          exact hwne (List.append_eq_nil.mp hx).1
        rw [← headI_of_pre hne h, hwh] at hLh
        simp at hLh
    · push_neg at j2
      rw [drop_append_mid j2]
      have hj3 : j - A.length - ws.length < B.length := by omega
      exact hB _ hj3

/-- `NoAlign` for a five-segment tracked string
`A ++ (ws1 ++ (C ++ (ws2 ++ B)))`. -/
theorem noAlign_seg5 {A ws1 C ws2 B L : List Char}
    (hws1 : ∀ c ∈ ws1, isJSWS c = true) (hws2 : ∀ c ∈ ws2, isJSWS c = true)
    (hL : L ≠ []) (hLh : isJSWS L.headI = false)
    (hA : ∀ j, j < A.length → ¬ L <+: A.drop j ∧ ¬ A.drop j <+: L)
    (hC : ∀ j, j < C.length → ¬ L <+: C.drop j ∧ ¬ C.drop j <+: L)
    (hB : ∀ j, j < B.length → ¬ L <+: B.drop j ∧ ¬ B.drop j <+: L) :
    NoAlign (A ++ (ws1 ++ (C ++ (ws2 ++ B)))) L := by
  have h3 := noAlign_seg3 hws2 hL hLh hC hB
  intro j hj
  simp only [List.length_append] at hj
  by_cases j1 : j < A.length
  · rw [drop_append_of_lt (le_of_lt j1)]
    constructor
    · intro h
      rcases prefix_split h with h | ⟨h, -⟩
      · exact (hA j j1).1 h
      · exact (hA j j1).2 h
    · intro h
      exact (hA j j1).2 (((A.drop j).prefix_append _).trans h)
  · push_neg at j1
    rw [drop_append_mid j1]
    by_cases j2 : j - A.length < ws1.length
    · rw [drop_append_of_lt (le_of_lt j2)]
      have hwne : ws1.drop (j - A.length) ≠ [] := by
        intro hx
        have := congrArg List.length hx
        simp at this
        omega
      have hwh : isJSWS (ws1.drop (j - A.length) ++ (C ++ (ws2 ++ B))).headI = true := by
        rw [headI_append_left hwne]
        exact hws1 _ (List.mem_of_mem_drop (headI_mem_self hwne))
      constructor
      · intro h
        rw [headI_of_pre hL h, hwh] at hLh
        simp at hLh
      · intro h
        have hne : ws1.drop (j - A.length) ++ (C ++ (ws2 ++ B)) ≠ [] := by
          intro hx
          exact hwne (List.append_eq_nil.mp hx).1
        rw [← headI_of_pre hne h, hwh] at hLh
        simp at hLh
    · push_neg at j2
      rw [drop_append_mid j2]
      have hj3 : j - A.length - ws1.length < (C ++ (ws2 ++ B)).length := by
        simp
        omega
      exact h3 _ hj3

/-! ### Context occurrences make the matchers fire -/

theorem takeWhile_append_all {p : Char → Bool} :
    ∀ {ws rest : List Char}, (∀ c ∈ ws, p c = true) → rest ≠ [] →
      p rest.headI = false →
      (ws ++ rest).takeWhile p = ws ∧ (ws ++ rest).dropWhile p = rest := by
  intro ws
  induction ws with
  | nil =>
    intro rest hws hr hrh
    cases rest with
    | nil => exact absurd rfl hr
    | cons a t =>
      simp only [List.headI] at hrh
      simp [List.takeWhile_cons, List.dropWhile_cons, hrh]
  | cons b ws ih =>
    intro rest hws hr hrh
    have hb : p b = true := hws b (List.mem_cons_self b ws)
    obtain ⟨h1, h2⟩ := ih (fun c hc => hws c (List.mem_cons_of_mem b hc)) hr hrh
    simp [List.takeWhile_cons, List.dropWhile_cons, hb, h1, h2]

theorem bundleM_fires {lit1 a1 a2 ins ws alt y : List Char}
    (hwsne : ws ≠ []) (hwall : ∀ ch ∈ ws, isJSWS ch = true)
    (haltne : alt ≠ []) (hh : isJSWS alt.headI = false)
    (hpre : a1 <+: alt ++ y ∨ a2 <+: alt ++ y) :
    bundleM lit1 a1 a2 ins (lit1 ++ (ws ++ (alt ++ y))) ≠ none := by
  have hne : alt ++ y ≠ [] := by
    intro hx
    exact haltne (List.append_eq_nil.mp hx).1
  obtain ⟨htw, hdw⟩ := takeWhile_append_all hwall hne
    (by rw [headI_append_left haltne]; exact hh)
  unfold bundleM
  rw [if_pos (List.prefix_append _ _)]
  simp only [List.drop_left, htw, hdw]
  rw [if_neg (by simpa using hwsne)]
  rcases hpre with h | h
  · rw [if_pos h]
    simp
  · by_cases h1 : a1 <+: alt ++ y
    · rw [if_pos h1]
      simp
    · rw [if_neg h1, if_pos h]
      simp

theorem groupM_fires {glit ins ws1 ws2 y : List Char}
    (hw1 : ∀ ch ∈ ws1, isJSWS ch = true) (hw2 : ∀ ch ∈ ws2, isJSWS ch = true) :
    groupM glit ins
      (glit ++ (ws1 ++ (isaLit ++ (ws2 ++ (childrenLit ++ y))))) ≠ none := by
  have hne1 : isaLit ++ (ws2 ++ (childrenLit ++ y)) ≠ [] := by
    intro hx
    exact absurd (List.append_eq_nil.mp hx).1 (by decide)
  obtain ⟨htw1, hdw1⟩ := takeWhile_append_all hw1 hne1
    (by rw [headI_append_left (by decide : isaLit ≠ [])]; decide)
  have hne2 : childrenLit ++ y ≠ [] := by
    intro hx
    exact absurd (List.append_eq_nil.mp hx).1 (by decide)
  obtain ⟨htw2, hdw2⟩ := takeWhile_append_all hw2 hne2
    (by rw [headI_append_left (by decide : childrenLit ≠ [])]; decide)
  unfold groupM
  rw [if_pos (List.prefix_append _ _)]
  simp only [List.drop_left, htw1, hdw1]
  rw [if_pos (List.prefix_append _ _)]
  simp only [List.drop_left, htw2, hdw2]
  rw [if_pos (List.prefix_append _ _)]
  simp

/-! ### The patch only inserts: the input is a sublist of the output -/

theorem litM_take_sub {pat repl : List Char} (hp : pat ≠ [])
    (hsub : List.Sublist pat repl) :
    ∀ s' o n, litM pat repl s' = some (o, n) →
      List.Sublist (s'.take (max n 1)) o := by
  intro s' o n h
  obtain ⟨h1, ho, hn⟩ := litM_eq_some h
  have hppos : 0 < pat.length := List.length_pos.mpr hp
  have : max n 1 = pat.length := by omega
  rw [this, ← List.prefix_iff_eq_take.mp h1, ho]
  exact hsub

theorem bundleM_take_sub {lit1 a1 a2 ins : List Char} :
    ∀ s' o n, bundleM lit1 a1 a2 ins s' = some (o, n) →
      List.Sublist (s'.take (max n 1)) o := by
  intro s' o n h
  obtain ⟨ws, alt, r, hs, hwne, -, -, ho, hn⟩ := bundleM_eq_some h
  have hwpos : 0 < ws.length := List.length_pos.mpr hwne
  have hmax : max n 1 = n := by omega
  have htake : s'.take n = (lit1 ++ ws) ++ alt := by
    have : s' = ((lit1 ++ ws) ++ alt) ++ r := by rw [hs]; simp
    rw [this]
    have hlen : ((lit1 ++ ws) ++ alt).length = n := by simp [hn]; omega
    rw [← hlen, List.take_left]
  rw [hmax, htake, ho]
  have h1 : List.Sublist ((lit1 ++ ws) ++ alt) ((lit1 ++ ws) ++ ((ins ++ ws) ++ alt)) :=
    List.Sublist.append (List.Sublist.refl (lit1 ++ ws))
      (List.sublist_append_right (ins ++ ws) alt)
  simp only [List.append_assoc] at h1 ⊢
  exact h1

theorem groupM_take_sub {glit ins : List Char} :
    ∀ s' o n, groupM glit ins s' = some (o, n) →
      List.Sublist (s'.take (max n 1)) o := by
  intro s' o n h
  obtain ⟨ws1, ws2, r, hs, -, -, ho, hn⟩ := groupM_eq_some h
  have hcpos : 0 < childrenLit.length := by decide
  have hmax : max n 1 = n := by omega
  have htake : s'.take n = (glit ++ ws1 ++ isaLit ++ ws2 ++ childrenLit) := by
    have : s' = (glit ++ ws1 ++ isaLit ++ ws2 ++ childrenLit) ++ r := by
      rw [hs]; simp
    rw [this]
    have hlen : (glit ++ ws1 ++ isaLit ++ ws2 ++ childrenLit).length = n := by
      simp [hn]; omega
    rw [← hlen, List.take_left]
  rw [hmax, htake, ho]
  exact List.sublist_append_left _ ins

theorem updBody_sub (u1 u2 c : List Char) :
    List.Sublist c (updBody u1 u2 c) := by
  unfold updBody
  have hend : fileRefEndMarker ≠ [] := by decide
  have hsub1 : List.Sublist fileRefEndMarker (fileRefAddition u1 u2) := by
    unfold fileRefAddition
    exact List.sublist_append_right _ fileRefEndMarker
  refine List.Sublist.trans (scanF_sub (litM_take_sub hend hsub1) c) ?_
  refine List.Sublist.trans
    (@scanG_sub (bundleM appLit1 pnLit ragLit appIns) bundleM_take_sub _ _ le_rfl) ?_
  refine List.Sublist.trans
    (@scanG_sub (bundleM extLit1 pnLit siLit extIns) bundleM_take_sub _ _ le_rfl) ?_
  refine List.Sublist.trans
    (@scanF_sub (groupM glitApp (clApp u1)) groupM_take_sub _) ?_
  exact @scanF_sub (groupM glitExt (clExt u2)) groupM_take_sub _

/-! ### Helper: vacuous whitespace condition; blocks contain their insert -/

theorem wsOK_of_head {m nxt : List Char} (h : isJSWS m.headI = false) :
    WsOK m nxt := by
  intro hh
  rw [h] at hh
  exact absurd hh (by simp)

theorem bundleM_ins_in_block {lit1 a1 a2 ins s' o : List Char} {n : Nat}
    (h : bundleM lit1 a1 a2 ins s' = some (o, n)) : ins <:+: o := by
  obtain ⟨ws, alt, r, -, -, -, -, ho, -⟩ := bundleM_eq_some h
  rw [ho]
  exact ⟨lit1 ++ ws, ws ++ alt, by simp⟩

theorem groupM_ins_in_block {glit ins s' o : List Char} {n : Nat}
    (h : groupM glit ins s' = some (o, n)) : ins <:+: o := by
  obtain ⟨ws1, ws2, r, -, -, -, ho, -⟩ := groupM_eq_some h
  rw [ho]
  exact ⟨glit ++ ws1 ++ isaLit ++ ws2 ++ childrenLit, [], by simp⟩

theorem bundle_fire_of_ctx {lit1 a1 a2 ins ws alt s : List Char}
    (hwsne : ws ≠ []) (hwall : ∀ ch ∈ ws, isJSWS ch = true)
    (haltne : alt ≠ []) (hh : isJSWS alt.headI = false)
    (halt : alt = a1 ∨ alt = a2)
    (h : (lit1 ++ (ws ++ alt)) <:+: s) :
    matchCount (bundleM lit1 a1 a2 ins) s ≠ 0 := by
  obtain ⟨x, y, hxy⟩ := h
  have haltpos : 0 < alt.length := List.length_pos.mpr haltne
  apply matchCount_pos s x.length
  · rw [← hxy]
    simp only [List.length_append]
    omega
  · have hd : s.drop x.length = lit1 ++ (ws ++ (alt ++ y)) := by
      rw [← hxy, List.append_assoc, List.drop_left]
      simp
    rw [hd]
    refine bundleM_fires hwsne hwall haltne hh ?_
    rcases halt with rfl | rfl
    · exact Or.inl (List.prefix_append alt y)
    · exact Or.inr (List.prefix_append alt y)

theorem group_fire_of_ctx {glit ins ws1 ws2 s : List Char}
    (hw1 : ∀ ch ∈ ws1, isJSWS ch = true) (hw2 : ∀ ch ∈ ws2, isJSWS ch = true)
    (h : (glit ++ (ws1 ++ (isaLit ++ (ws2 ++ childrenLit)))) <:+: s) :
    matchCount (groupM glit ins) s ≠ 0 := by
  obtain ⟨x, y, hxy⟩ := h
  have hcpos : 0 < childrenLit.length := by decide
  apply matchCount_pos s x.length
  · rw [← hxy]
    simp only [List.length_append]
    omega
  · have hd : s.drop x.length =
        glit ++ (ws1 ++ (isaLit ++ (ws2 ++ (childrenLit ++ y)))) := by
      rw [← hxy, List.append_assoc, List.drop_left]
      simp
    rw [hd]
    exact groupM_fires hw1 hw2

/-! ### Bundle contexts survive the earlier stages -/

theorem ctxApp_noStart_M1 {ws alt u1 u2 : List Char}
    (hws : ∀ c ∈ ws, isJSWS c = true) (halt : alt = pnLit ∨ alt = ragLit) :
    NoStartIn (appLit1 ++ (ws ++ alt))
      (litM fileRefEndMarker (fileRefAddition u1 u2)) := by
  refine noStart_of_noAlign (fun _ _ _ => litM_fire) ?_
  rcases halt with rfl | rfl <;>
    exact noAlign_seg3 hws (by decide) (by decide) (by decide) (by decide)


theorem ctxExt_noStart_M1 {ws alt u1 u2 : List Char}
    (hws : ∀ c ∈ ws, isJSWS c = true) (halt : alt = pnLit ∨ alt = siLit) :
    NoStartIn (extLit1 ++ (ws ++ alt))
      (litM fileRefEndMarker (fileRefAddition u1 u2)) := by
  refine noStart_of_noAlign (fun _ _ _ => litM_fire) ?_
  rcases halt with rfl | rfl <;>
    exact noAlign_seg3 hws (by decide) (by decide) (by decide) (by decide)


theorem ctxExt_noStart_M2 {ws alt : List Char}
    (hws : ∀ c ∈ ws, isJSWS c = true) (halt : alt = pnLit ∨ alt = siLit) :
    NoStartIn (extLit1 ++ (ws ++ alt)) (bundleM appLit1 pnLit ragLit appIns) := by
  refine noStart_of_noAlign (fun _ _ _ => bundleM_fire) ?_
  rcases halt with rfl | rfl <;>
    exact noAlign_seg3 hws (by decide) (by decide) (by decide) (by decide)

theorem ctxExt_noOcc_M2 {ws alt : List Char}
    (halt : alt = pnLit ∨ alt = siLit) :
    NoOccIn (extLit1 ++ (ws ++ alt)) (bundleM appLit1 pnLit ragLit appIns) := by
  have hlen : ∀ L : List Char, L.length ≤ 48 →
      ∀ j, j < L.length → ¬ (extLit1 ++ (ws ++ alt)) <+: L.drop j := by
    intro L hL
    apply not_pre_of_len
    have h2 : extLit1.length = 58 := by decide
    simp only [List.length_append]
    omega
  have hhead : isJSWS (extLit1 ++ (ws ++ alt)).headI = false := by
    rw [headI_append_left (by decide)]
    decide
  refine bundleM_noOcc (by simp [extLit1, js]) ?_ ?_ ?_
    (wsOK_of_head hhead) (wsOK_of_head hhead)
    (by decide) (by decide) (by decide) (by decide)
  · exact segCond_gen (List.prefix_append _ _) (hlen _ (by decide)) (by decide)
  · exact segCond_gen (List.prefix_append _ _) (hlen _ (by decide)) (by decide)
  · exact segCond_gen (List.prefix_append _ _) (hlen _ (by decide)) (by decide)

/-! ### Group contexts survive the earlier stages -/

theorem grp_headI {glit rest : List Char} (hg : glit = glitApp ∨ glit = glitExt) :
    isJSWS (glit ++ rest).headI = false := by
  rcases hg with rfl | rfl <;>
    (rw [headI_append_left (by decide)]; decide)

theorem grp_ne {glit rest : List Char} (hg : glit = glitApp ∨ glit = glitExt) :
    glit ++ rest ≠ [] := by
  rcases hg with rfl | rfl <;>
    (intro hx; exact absurd (List.append_eq_nil.mp hx).1 (by decide))

theorem grpApp_noStart_M1 {ws1 ws2 u1 u2 : List Char}
    (hw1 : ∀ c ∈ ws1, isJSWS c = true) (hw2 : ∀ c ∈ ws2, isJSWS c = true) :
    NoStartIn (glitApp ++ (ws1 ++ (isaLit ++ (ws2 ++ childrenLit))))
      (litM fileRefEndMarker (fileRefAddition u1 u2)) :=
  noStart_of_noAlign (fun _ _ _ => litM_fire)
    (noAlign_seg5 hw1 hw2 (by decide) (by decide) (by decide) (by decide) (by decide))


theorem grpExt_noStart_M1 {ws1 ws2 u1 u2 : List Char}
    (hw1 : ∀ c ∈ ws1, isJSWS c = true) (hw2 : ∀ c ∈ ws2, isJSWS c = true) :
    NoStartIn (glitExt ++ (ws1 ++ (isaLit ++ (ws2 ++ childrenLit))))
      (litM fileRefEndMarker (fileRefAddition u1 u2)) :=
  noStart_of_noAlign (fun _ _ _ => litM_fire)
    (noAlign_seg5 hw1 hw2 (by decide) (by decide) (by decide) (by decide) (by decide))


theorem grp_noStart_bundle {glit ws1 ws2 lit1 b1 b2 bins : List Char}
    (hg : glit = glitApp ∨ glit = glitExt)
    (hw1 : ∀ c ∈ ws1, isJSWS c = true) (hw2 : ∀ c ∈ ws2, isJSWS c = true)
    (hlit : lit1 = appLit1 ∨ lit1 = extLit1)
    (hb1 : b1 = pnLit) (hb2 : b2 = ragLit ∨ b2 = siLit) :
    NoStartIn (glit ++ (ws1 ++ (isaLit ++ (ws2 ++ childrenLit))))
      (bundleM lit1 b1 b2 bins) := by
  refine noStart_of_noAlign (fun _ _ _ => bundleM_fire) ?_
  rcases hg with rfl | rfl <;> rcases hlit with rfl | rfl <;>
    exact noAlign_seg5 hw1 hw2 (by decide) (by decide) (by decide) (by decide)
      (by decide)

theorem grp_noOcc_bundle {glit ws1 ws2 lit1 b1 b2 bins : List Char}
    (hg : glit = glitApp ∨ glit = glitExt)
    (hlit : lit1 = appLit1 ∨ lit1 = extLit1)
    (hb1 : b1 = pnLit) (hb2 : b2 = ragLit ∨ b2 = siLit) :
    NoOccIn (glit ++ (ws1 ++ (isaLit ++ (ws2 ++ childrenLit))))
      (bundleM lit1 b1 b2 bins) := by
  have hhd := @grp_headI glit (ws1 ++ (isaLit ++ (ws2 ++ childrenLit))) hg
  have hne := @grp_ne glit (ws1 ++ (isaLit ++ (ws2 ++ childrenLit))) hg
  have hh : (glit ++ (ws1 ++ (isaLit ++ (ws2 ++ childrenLit)))).headI = '/' := by
    rcases hg with rfl | rfl <;> (rw [headI_append_left (by decide)]; decide)
  refine bundleM_noOcc hne ?_ ?_ ?_ (wsOK_of_head hhd) (wsOK_of_head hhd)
    ?_ ?_ ?_ ?_
  case _ =>
    refine segCond_gen (List.prefix_append _ _) (not_pre_of_head hne ?_) ?_
    · rw [hh]
      rcases hlit with rfl | rfl <;> decide
    · rcases hg with rfl | rfl <;> rcases hlit with rfl | rfl <;> decide
  case _ =>
    refine segCond_gen (List.prefix_append _ _) (not_pre_of_head hne ?_) ?_
    · rw [hh]
      rcases hb1 with rfl <;> decide
    · rcases hg with rfl | rfl <;> rcases hb1 with rfl <;> decide
  case _ =>
    refine segCond_gen (List.prefix_append _ _) (not_pre_of_head hne ?_) ?_
    · rw [hh]
      rcases hb2 with rfl | rfl <;> decide
    · rcases hg with rfl | rfl <;> rcases hb2 with rfl | rfl <;> decide
  case _ => rcases hb1 with rfl; decide
  case _ => rcases hb2 with rfl | rfl <;> decide
  case _ => rcases hb1 with rfl; decide
  case _ => rcases hb2 with rfl | rfl <;> decide

theorem grpExt_noStart_M4 {ws1 ws2 u1 : List Char}
    (hw1 : ∀ c ∈ ws1, isJSWS c = true) (hw2 : ∀ c ∈ ws2, isJSWS c = true) :
    NoStartIn (glitExt ++ (ws1 ++ (isaLit ++ (ws2 ++ childrenLit))))
      (groupM glitApp (clApp u1)) :=
  noStart_of_noAlign (fun _ _ _ => groupM_fire)
    (noAlign_seg5 hw1 hw2 (by decide) (by decide) (by decide) (by decide) (by decide))

theorem grpExt_noOcc_M4 {ws1 ws2 u1 : List Char} :
    NoOccIn (glitExt ++ (ws1 ++ (isaLit ++ (ws2 ++ childrenLit))))
      (groupM glitApp (clApp u1)) := by
  have hne := @grp_ne glitExt (ws1 ++ (isaLit ++ (ws2 ++ childrenLit)))
    (Or.inr rfl)
  have hlen : ∀ L : List Char, L.length ≤ 28 →
      ∀ j, j < L.length →
        ¬ (glitExt ++ (ws1 ++ (isaLit ++ (ws2 ++ childrenLit)))) <+: L.drop j := by
    intro L hL
    apply not_pre_of_len
    have h2 : glitExt.length = 28 := by decide
    have h3 : isaLit.length = 15 := by decide
    have h4 : childrenLit.length = 12 := by decide
    simp only [List.length_append]
    omega
  have hhd := @grp_headI glitExt (ws1 ++ (isaLit ++ (ws2 ++ childrenLit)))
    (Or.inr rfl)
  refine groupM_noOcc hne ?_ ?_ ?_ (wsOK_of_head hhd) (wsOK_of_head hhd)
  · exact segCond_gen (List.prefix_append _ _) (hlen _ (by decide)) (by decide)
  · exact segCond_gen (List.prefix_append _ _) (hlen _ (by decide)) (by decide)
  · exact segCond_gen (List.prefix_append _ _) (hlen _ (by decide)) (by decide)

/-! ### The inserted build-setting lines survive the later stages -/

theorem appIns_noStart_M3 : NoStartIn appIns (bundleM extLit1 pnLit siLit extIns) :=
  noStart_of_noAlign (fun _ _ _ => bundleM_fire) (by decide)

theorem appIns_noOcc_M3 : NoOccIn appIns (bundleM extLit1 pnLit siLit extIns) :=
  bundleM_noOcc (by decide) (by decide) (by decide) (by decide) (by decide)
    (by decide) (by decide) (by decide) (by decide) (by decide)

theorem appIns_noStart_M4 (u1 : List Char) :
    NoStartIn appIns (groupM glitApp (clApp u1)) :=
  noStart_of_noAlign (fun _ _ _ => groupM_fire) (by decide)

theorem appIns_noOcc_M4 (u1 : List Char) :
    NoOccIn appIns (groupM glitApp (clApp u1)) :=
  groupM_noOcc (by decide) (by decide) (by decide) (by decide) (by decide)
    (by decide)

theorem appIns_noStart_M5 (u2 : List Char) :
    NoStartIn appIns (groupM glitExt (clExt u2)) :=
  noStart_of_noAlign (fun _ _ _ => groupM_fire) (by decide)

theorem appIns_noOcc_M5 (u2 : List Char) :
    NoOccIn appIns (groupM glitExt (clExt u2)) :=
  groupM_noOcc (by decide) (by decide) (by decide) (by decide) (by decide)
    (by decide)

theorem extIns_noStart_M4 (u1 : List Char) :
    NoStartIn extIns (groupM glitApp (clApp u1)) :=
  noStart_of_noAlign (fun _ _ _ => groupM_fire) (by decide)

theorem extIns_noOcc_M4 (u1 : List Char) :
    NoOccIn extIns (groupM glitApp (clApp u1)) :=
  groupM_noOcc (by decide) (by decide) (by decide) (by decide) (by decide)
    (by decide)

theorem extIns_noStart_M5 (u2 : List Char) :
    NoStartIn extIns (groupM glitExt (clExt u2)) :=
  noStart_of_noAlign (fun _ _ _ => groupM_fire) (by decide)

theorem extIns_noOcc_M5 (u2 : List Char) :
    NoOccIn extIns (groupM glitExt (clExt u2)) :=
  groupM_noOcc (by decide) (by decide) (by decide) (by decide) (by decide)
    (by decide)

/-! ### The app group child line (containing the first token) survives the
final stage; its conditions depend only on the token being hexadecimal -/

theorem hexTable_explicit :
    hexTable = ['0', '1', '2', '3', '4', '5', '6', '7', '8', '9',
      'A', 'B', 'C', 'D', 'E', 'F'] := by decide

theorem hex_ne_ws {ch : Char} (h : ch ∈ hexTable) : isJSWS ch = false := by
  rw [hexTable_explicit] at h
  simp at h
  rcases h with rfl|rfl|rfl|rfl|rfl|rfl|rfl|rfl|rfl|rfl|rfl|rfl|rfl|rfl|rfl|rfl <;>
    decide

theorem hex_ne {ch : Char} (h : ch ∈ hexTable) : ch ≠ '/' ∧ ch ≠ 'i' := by
  rw [hexTable_explicit] at h
  simp at h
  rcases h with rfl|rfl|rfl|rfl|rfl|rfl|rfl|rfl|rfl|rfl|rfl|rfl|rfl|rfl|rfl|rfl <;>
    decide

theorem pair_hex_tail {u L tail : List Char}
    (hu : ∀ ch ∈ u, ch ∈ hexTable)
    (hL : L ≠ []) (hLh : L.headI = '/')
    (htail : ∀ j, j < tail.length → ¬ L <+: tail.drop j ∧ ¬ tail.drop j <+: L) :
    ∀ j, j < (u ++ tail).length → ¬ L <+: (u ++ tail).drop j ∧
      ¬ (u ++ tail).drop j <+: L := by
  intro j hj
  simp only [List.length_append] at hj
  by_cases j1 : j < u.length
  · rw [drop_append_of_lt (le_of_lt j1)]
    have hne : u.drop j ≠ [] := by
      intro hx
      have := congrArg List.length hx
      simp at this
      omega
    have hhd : (u.drop j ++ tail).headI ≠ '/' := by
      rw [headI_append_left hne]
      exact (hex_ne (hu _ (List.mem_of_mem_drop (headI_mem_self hne)))).1
    have hne2 : u.drop j ++ tail ≠ [] := by
      intro hx
      exact hne (List.append_eq_nil.mp hx).1
    constructor
    · intro h
      exact hhd (by rw [← headI_of_pre hL h, hLh])
    · intro h
      exact hhd (by rw [headI_of_pre hne2 h, hLh])
  · push_neg at j1
    rw [drop_append_mid j1]
    exact htail _ (by omega)

theorem clApp_eq (u1 : List Char) :
    clApp u1 = [] ++ (js "\n\t\t\t\t" ++ (u1 ++ js " /* BewlyCat.entitlements */,")) := by
  simp [clApp]

theorem clApp_ne (u1 : List Char) : clApp u1 ≠ [] := by
  intro hx
  unfold clApp at hx
  exact absurd (List.append_eq_nil.mp (List.append_eq_nil.mp hx).1).1 (by decide)

theorem clApp_headI (u1 : List Char) : (clApp u1).headI = '\n' := by
  unfold clApp
  rw [List.append_assoc, headI_append_left (by decide)]
  decide

theorem clApp_noStart_M5 {u1 u2 : List Char}
    (hu : ∀ ch ∈ u1, ch ∈ hexTable) :
    NoStartIn (clApp u1) (groupM glitExt (clExt u2)) := by
  refine noStart_of_noAlign (fun _ _ _ => groupM_fire) ?_
  rw [clApp_eq]
  exact noAlign_seg3 (by decide) (by decide) (by decide) (by simp)
    (pair_hex_tail hu (by decide) (by decide) (by decide))

theorem clApp_dropWhile {u1 : List Char} (hu1 : u1 ≠ [])
    (hu : ∀ ch ∈ u1, ch ∈ hexTable) :
    (clApp u1).dropWhile isJSWS = u1 ++ js " /* BewlyCat.entitlements */," := by
  have hne : u1 ++ js " /* BewlyCat.entitlements */," ≠ [] := by
    intro hx
    exact hu1 (List.append_eq_nil.mp hx).1
  have hh : isJSWS (u1 ++ js " /* BewlyCat.entitlements */,").headI = false := by
    rw [headI_append_left hu1]
    exact hex_ne_ws (hu _ (headI_mem_self hu1))
  have := (@takeWhile_append_all isJSWS (js "\n\t\t\t\t") _
    (by decide) hne hh).2
  rw [← this]
  unfold clApp
  rw [List.append_assoc]

theorem clApp_noOcc_M5 {u1 u2 : List Char} (hu1 : u1 ≠ [])
    (hu : ∀ ch ∈ u1, ch ∈ hexTable) :
    NoOccIn (clApp u1) (groupM glitExt (clExt u2)) := by
  have hW : ∀ nxt : List Char, nxt ≠ [] → nxt.headI ∉ hexTable →
      WsOK (clApp u1) nxt := by
    intro nxt hne hni _
    have hmT := clApp_dropWhile hu1 hu
    have hmem : u1.headI ∈ hexTable := hu _ (headI_mem_self hu1)
    have hne2 : u1 ++ js " /* BewlyCat.entitlements */," ≠ [] := by
      intro hx
      exact hu1 (List.append_eq_nil.mp hx).1
    refine ⟨by rw [hmT]; exact hne2, ?_, ?_⟩
    · rw [hmT]
      intro h
      have h3 := headI_of_pre hne2 h
      rw [headI_append_left hu1] at h3
      exact hni (h3 ▸ hmem)
    · rw [hmT]
      intro h
      have h3 := headI_of_pre hne h
      rw [headI_append_left hu1] at h3
      exact hni (h3.symm ▸ hmem)
  refine groupM_noOcc (clApp_ne u1)
    (segCond_of_head (clApp_ne u1) (by rw [clApp_headI]; decide))
    (segCond_of_head (clApp_ne u1) (by rw [clApp_headI]; decide))
    (segCond_of_head (clApp_ne u1) (by rw [clApp_headI]; decide))
    (hW isaLit (by decide) (by decide)) (hW childrenLit (by decide) (by decide))

/-! ### Assembly: a full run inserts every block and loses nothing -/

theorem app_ne_left {a b : List Char} (h : a ≠ []) : a ++ b ≠ [] := by
  intro hx
  exact h (List.append_eq_nil.mp hx).1

theorem endM_suffix_FRA (u1 u2 : List Char) :
    fileRefEndMarker <:+ fileRefAddition u1 u2 :=
  ⟨_, rfl⟩

theorem generateUUID_ne (d : Nat → Fin 16) : generateUUID d ≠ [] := by
  intro hx
  have := congrArg List.length hx
  simp [generateUUID] at this

theorem hexTable_getD_mem2 (k : Fin 16) : hexTable.getD k.val '0' ∈ hexTable := by
  revert k
  decide

theorem generateUUID_hex (d : Nat → Fin 16) :
    ∀ ch ∈ generateUUID d, ch ∈ hexTable := by
  intro ch h
  simp only [generateUUID, List.mem_map] at h
  obtain ⟨i, -, rfl⟩ := h
  exact hexTable_getD_mem2 (d i)

theorem updBody_inserts (u1 u2 c : List Char)
    (hu1ne : u1 ≠ []) (hu1 : ∀ ch ∈ u1, ch ∈ hexTable)
    (hend : fileRefEndMarker <:+: c)
    (hctxa : ∃ ws alt, ws ≠ [] ∧ (∀ ch ∈ ws, isJSWS ch = true) ∧
      (alt = pnLit ∨ alt = ragLit) ∧ (appLit1 ++ (ws ++ alt)) <:+: c)
    (hctxe : ∃ ws alt, ws ≠ [] ∧ (∀ ch ∈ ws, isJSWS ch = true) ∧
      (alt = pnLit ∨ alt = siLit) ∧ (extLit1 ++ (ws ++ alt)) <:+: c)
    (hgrpa : ∃ ws1 ws2, (∀ ch ∈ ws1, isJSWS ch = true) ∧
      (∀ ch ∈ ws2, isJSWS ch = true) ∧
      (glitApp ++ (ws1 ++ (isaLit ++ (ws2 ++ childrenLit)))) <:+: c)
    (hgrpe : ∃ ws1 ws2, (∀ ch ∈ ws1, isJSWS ch = true) ∧
      (∀ ch ∈ ws2, isJSWS ch = true) ∧
      (glitExt ++ (ws1 ++ (isaLit ++ (ws2 ++ childrenLit)))) <:+: c) :
    u1 <:+: updBody u1 u2 c ∧ u2 <:+: updBody u1 u2 c ∧
    appIns <:+: updBody u1 u2 c ∧ extIns <:+: updBody u1 u2 c ∧
    clApp u1 <:+: updBody u1 u2 c ∧ clExt u2 <:+: updBody u1 u2 c ∧
    List.Sublist c (updBody u1 u2 c) := by
  have hsufFRA := endM_suffix_FRA u1 u2
  have hocc1 : ∀ m : List Char,
      NoOccSuf m (litM fileRefEndMarker (fileRefAddition u1 u2)) :=
    fun m => litM_noOccSuf (by decide) hsufFRA
  set c1 := scanF (litM fileRefEndMarker (fileRefAddition u1 u2)) c with hc1
  set c2 := scanG (bundleM appLit1 pnLit ragLit appIns) c1 with hc2
  set c3 := scanG (bundleM extLit1 pnLit siLit extIns) c2 with hc3
  set c4 := scanF (groupM glitApp (clApp u1)) c3 with hc4
  have hout : updBody u1 u2 c = scanF (groupM glitExt (clExt u2)) c4 := rfl
  -- the app build-setting line is inserted at stage 2 and survives 3, 4, 5
  obtain ⟨wsa, alta, hwsa, hwalla, halta, hina⟩ := hctxa
  have haltane : alta ≠ [] := by rcases halta with rfl | rfl <;> decide
  have haltah : isJSWS alta.headI = false := by rcases halta with rfl | rfl <;> decide
  have h1a : (appLit1 ++ (wsa ++ alta)) <:+: c1 :=
    scanF_keeps (app_ne_left (by decide)) (ctxApp_noStart_M1 hwalla halta)
      (hocc1 _) c hina
  have hfirea : matchCount (bundleM appLit1 pnLit ragLit appIns) c1 ≠ 0 :=
    bundle_fire_of_ctx hwsa hwalla haltane haltah halta h1a
  obtain ⟨sA, oA, nA, hfA, hinfA⟩ := scanG_block c1.length c1 le_rfl hfirea
  have hApp2 : appIns <:+: c2 := (bundleM_ins_in_block hfA).trans hinfA
  have hApp3 : appIns <:+: c3 :=
    scanG_keeps (by decide) appIns_noStart_M3 (noOccSuf_of_noOcc appIns_noOcc_M3)
      _ _ le_rfl hApp2
  have hApp4 : appIns <:+: c4 :=
    scanF_keeps (by decide) (appIns_noStart_M4 u1)
      (noOccSuf_of_noOcc (appIns_noOcc_M4 u1)) _ hApp3
  have hApp5 : appIns <:+: updBody u1 u2 c := by
    rw [hout]
    exact scanF_keeps (by decide) (appIns_noStart_M5 u2)
      (noOccSuf_of_noOcc (appIns_noOcc_M5 u2)) _ hApp4
  -- the extension build-setting line is inserted at stage 3 and survives 4, 5
  obtain ⟨wse, alte, hwse, hwalle, halte, hine⟩ := hctxe
  have haltene : alte ≠ [] := by rcases halte with rfl | rfl <;> decide
  have halteh : isJSWS alte.headI = false := by rcases halte with rfl | rfl <;> decide
  have h1e : (extLit1 ++ (wse ++ alte)) <:+: c1 :=
    scanF_keeps (app_ne_left (by decide)) (ctxExt_noStart_M1 hwalle halte)
      (hocc1 _) c hine
  have h2e : (extLit1 ++ (wse ++ alte)) <:+: c2 :=
    scanG_keeps (app_ne_left (by decide)) (ctxExt_noStart_M2 hwalle halte)
      (noOccSuf_of_noOcc (ctxExt_noOcc_M2 halte)) _ _ le_rfl h1e
  have hfiree : matchCount (bundleM extLit1 pnLit siLit extIns) c2 ≠ 0 :=
    bundle_fire_of_ctx hwse hwalle haltene halteh halte h2e
  obtain ⟨sE, oE, nE, hfE, hinfE⟩ := scanG_block c2.length c2 le_rfl hfiree
  have hExt3 : extIns <:+: c3 := (bundleM_ins_in_block hfE).trans hinfE
  have hExt4 : extIns <:+: c4 :=
    scanF_keeps (by decide) (extIns_noStart_M4 u1)
      (noOccSuf_of_noOcc (extIns_noOcc_M4 u1)) _ hExt3
  have hExt5 : extIns <:+: updBody u1 u2 c := by
    rw [hout]
    exact scanF_keeps (by decide) (extIns_noStart_M5 u2)
      (noOccSuf_of_noOcc (extIns_noOcc_M5 u2)) _ hExt4
  -- the app group child line is inserted at stage 4 and survives 5
  obtain ⟨gw1, gw2, hgw1, hgw2, hing⟩ := hgrpa
  have hg1 : (glitApp ++ (gw1 ++ (isaLit ++ (gw2 ++ childrenLit)))) <:+: c1 :=
    scanF_keeps (app_ne_left (by decide)) (grpApp_noStart_M1 hgw1 hgw2)
      (hocc1 _) c hing
  have hg2 : (glitApp ++ (gw1 ++ (isaLit ++ (gw2 ++ childrenLit)))) <:+: c2 :=
    scanG_keeps (app_ne_left (by decide))
      (grp_noStart_bundle (Or.inl rfl) hgw1 hgw2 (Or.inl rfl) rfl (Or.inl rfl))
      (noOccSuf_of_noOcc
        (grp_noOcc_bundle (Or.inl rfl) (Or.inl rfl) rfl (Or.inl rfl)))
      _ _ le_rfl hg1
  have hg3 : (glitApp ++ (gw1 ++ (isaLit ++ (gw2 ++ childrenLit)))) <:+: c3 :=
    scanG_keeps (app_ne_left (by decide))
      (grp_noStart_bundle (Or.inl rfl) hgw1 hgw2 (Or.inr rfl) rfl (Or.inr rfl))
      (noOccSuf_of_noOcc
        (grp_noOcc_bundle (Or.inl rfl) (Or.inr rfl) rfl (Or.inr rfl)))
      _ _ le_rfl hg2
  have hfiregA : matchCount (groupM glitApp (clApp u1)) c3 ≠ 0 :=
    group_fire_of_ctx hgw1 hgw2 hg3
  obtain ⟨sG, oG, nG, hfG, hinfG⟩ := scanF_block c3 hfiregA
  have hCl4 : clApp u1 <:+: c4 := (groupM_ins_in_block hfG).trans hinfG
  have hCl5 : clApp u1 <:+: updBody u1 u2 c := by
    rw [hout]
    exact scanF_keeps (clApp_ne u1) (clApp_noStart_M5 hu1)
      (noOccSuf_of_noOcc (clApp_noOcc_M5 hu1ne hu1)) _ hCl4
  -- the extension group child line is inserted at the final stage
  obtain ⟨ew1, ew2, hew1, hew2, hineg⟩ := hgrpe
  have he1 : (glitExt ++ (ew1 ++ (isaLit ++ (ew2 ++ childrenLit)))) <:+: c1 :=
    scanF_keeps (app_ne_left (by decide)) (grpExt_noStart_M1 hew1 hew2)
      (hocc1 _) c hineg
  have he2 : (glitExt ++ (ew1 ++ (isaLit ++ (ew2 ++ childrenLit)))) <:+: c2 :=
    scanG_keeps (app_ne_left (by decide))
      (grp_noStart_bundle (Or.inr rfl) hew1 hew2 (Or.inl rfl) rfl (Or.inl rfl))
      (noOccSuf_of_noOcc
        (grp_noOcc_bundle (Or.inr rfl) (Or.inl rfl) rfl (Or.inl rfl)))
      _ _ le_rfl he1
  have he3 : (glitExt ++ (ew1 ++ (isaLit ++ (ew2 ++ childrenLit)))) <:+: c3 :=
    scanG_keeps (app_ne_left (by decide))
      (grp_noStart_bundle (Or.inr rfl) hew1 hew2 (Or.inr rfl) rfl (Or.inr rfl))
      (noOccSuf_of_noOcc
        (grp_noOcc_bundle (Or.inr rfl) (Or.inr rfl) rfl (Or.inr rfl)))
      _ _ le_rfl he2
  have he4 : (glitExt ++ (ew1 ++ (isaLit ++ (ew2 ++ childrenLit)))) <:+: c4 :=
    scanF_keeps (app_ne_left (by decide)) (grpExt_noStart_M4 hew1 hew2)
      (noOccSuf_of_noOcc grpExt_noOcc_M4) _ he3
  have hfiregE : matchCount (groupM glitExt (clExt u2)) c4 ≠ 0 :=
    group_fire_of_ctx hew1 hew2 he4
  obtain ⟨sH, oH, nH, hfH, hinfH⟩ := scanF_block c4 hfiregE
  have hCle : clExt u2 <:+: updBody u1 u2 c := by
    rw [hout]
    exact (groupM_ins_in_block hfH).trans hinfH
  -- the tokens sit inside the child lines
  have hu1in : u1 <:+: clApp u1 :=
    ⟨js "\n\t\t\t\t", js " /* BewlyCat.entitlements */,", by simp [clApp]⟩
  have hu2in : u2 <:+: clExt u2 :=
    ⟨js "\n\t\t\t\t", js " /* BewlyCat Extension.entitlements */,", by simp [clExt]⟩
  exact ⟨hu1in.trans hCl5, hu2in.trans hCle, hApp5, hExt5, hCl5, hCle,
    updBody_sub u1 u2 c⟩

/-- Claim C7: for every descriptor content that contains the required
markers — the `PBXFileReference` end-of-section marker, a bundle-identifier
context for the app and one for the extension, and the two group headers
with their `children = (` tokens — and does not contain the idempotence
marker, one run exits 0 and writes a descriptor that contains both
generated reference tokens, both injected build-setting lines, and both
injected group-children lines, while every byte of the original content is
preserved in order (the patch only inserts). -/
theorem run_patches_descriptor (c : List Char) (r : Nat → Fin 16)
    (hm : ¬ marker <:+: c)
    (hend : fileRefEndMarker <:+: c)
    (hctxa : ∃ ws alt, ws ≠ [] ∧ (∀ ch ∈ ws, isJSWS ch = true) ∧
      (alt = pnLit ∨ alt = ragLit) ∧ (appLit1 ++ (ws ++ alt)) <:+: c)
    (hctxe : ∃ ws alt, ws ≠ [] ∧ (∀ ch ∈ ws, isJSWS ch = true) ∧
      (alt = pnLit ∨ alt = siLit) ∧ (extLit1 ++ (ws ++ alt)) <:+: c)
    (hgrpa : ∃ ws1 ws2, (∀ ch ∈ ws1, isJSWS ch = true) ∧
      (∀ ch ∈ ws2, isJSWS ch = true) ∧
      (glitApp ++ (ws1 ++ (isaLit ++ (ws2 ++ childrenLit)))) <:+: c)
    (hgrpe : ∃ ws1 ws2, (∀ ch ∈ ws1, isJSWS ch = true) ∧
      (∀ ch ∈ ws2, isJSWS ch = true) ∧
      (glitExt ++ (ws1 ++ (isaLit ++ (ws2 ++ childrenLit)))) <:+: c) :
    (runMain true c r).1 = 0 ∧
    (pbxprojPath, updBody (generateUUID fun i => r i)
        (generateUUID fun i => r (24 + i)) c) ∈ (runMain true c r).2 ∧
    (generateUUID fun i => r i) <:+:
      updBody (generateUUID fun i => r i) (generateUUID fun i => r (24 + i)) c ∧
    (generateUUID fun i => r (24 + i)) <:+:
      updBody (generateUUID fun i => r i) (generateUUID fun i => r (24 + i)) c ∧
    appIns <:+:
      updBody (generateUUID fun i => r i) (generateUUID fun i => r (24 + i)) c ∧
    extIns <:+:
      updBody (generateUUID fun i => r i) (generateUUID fun i => r (24 + i)) c ∧
    clApp (generateUUID fun i => r i) <:+:
      updBody (generateUUID fun i => r i) (generateUUID fun i => r (24 + i)) c ∧
    clExt (generateUUID fun i => r (24 + i)) <:+:
      updBody (generateUUID fun i => r i) (generateUUID fun i => r (24 + i)) c ∧
    List.Sublist c
      (updBody (generateUUID fun i => r i) (generateUUID fun i => r (24 + i)) c) := by
  obtain ⟨h1, h2, h3, h4, h5, h6, h7⟩ :=
    updBody_inserts (generateUUID fun i => r i) (generateUUID fun i => r (24 + i))
      c (generateUUID_ne _) (generateUUID_hex _) hend hctxa hctxe hgrpa hgrpe
  refine ⟨rfl, ?_, h1, h2, h3, h4, h5, h6, h7⟩
  simp [runMain, hm]

set_option maxRecDepth 400000 in
/-- Witness for claim C7 at a concrete synthetic descriptor containing all
required markers, with the all-zero random stream. -/
theorem run_patches_descriptor_witness :
    appIns <:+: updBody (generateUUID fun _ => 0) (generateUUID fun _ => 0)
      (js "/* BewlyCat */ = \x7bisa = PBXGroup;children = (A/* BewlyCat Extension */ = \x7bisa = PBXGroup;children = (B/* End PBXFileReference section */CPRODUCT_BUNDLE_IDENTIFIER = com.hankun.BewlyCat; PRODUCT_NAME = n;PRODUCT_BUNDLE_IDENTIFIER = com.hankun.BewlyCat.Extension; SKIP_INSTALL = YES;") ∧
    clExt (generateUUID fun _ => 0) <:+:
      updBody (generateUUID fun _ => 0) (generateUUID fun _ => 0)
        (js "/* BewlyCat */ = \x7bisa = PBXGroup;children = (A/* BewlyCat Extension */ = \x7bisa = PBXGroup;children = (B/* End PBXFileReference section */CPRODUCT_BUNDLE_IDENTIFIER = com.hankun.BewlyCat; PRODUCT_NAME = n;PRODUCT_BUNDLE_IDENTIFIER = com.hankun.BewlyCat.Extension; SKIP_INSTALL = YES;") ∧
    List.Sublist (js "/* BewlyCat */ = \x7bisa = PBXGroup;children = (A/* BewlyCat Extension */ = \x7bisa = PBXGroup;children = (B/* End PBXFileReference section */CPRODUCT_BUNDLE_IDENTIFIER = com.hankun.BewlyCat; PRODUCT_NAME = n;PRODUCT_BUNDLE_IDENTIFIER = com.hankun.BewlyCat.Extension; SKIP_INSTALL = YES;")
      (updBody (generateUUID fun _ => 0) (generateUUID fun _ => 0)
        (js "/* BewlyCat */ = \x7bisa = PBXGroup;children = (A/* BewlyCat Extension */ = \x7bisa = PBXGroup;children = (B/* End PBXFileReference section */CPRODUCT_BUNDLE_IDENTIFIER = com.hankun.BewlyCat; PRODUCT_NAME = n;PRODUCT_BUNDLE_IDENTIFIER = com.hankun.BewlyCat.Extension; SKIP_INSTALL = YES;")) := by
  have h := run_patches_descriptor
    (js "/* BewlyCat */ = \x7bisa = PBXGroup;children = (A/* BewlyCat Extension */ = \x7bisa = PBXGroup;children = (B/* End PBXFileReference section */CPRODUCT_BUNDLE_IDENTIFIER = com.hankun.BewlyCat; PRODUCT_NAME = n;PRODUCT_BUNDLE_IDENTIFIER = com.hankun.BewlyCat.Extension; SKIP_INSTALL = YES;")
    (fun _ => 0) (by decide) (by decide)
    ⟨js " ", pnLit, by decide, by decide, Or.inl rfl, by decide⟩
    ⟨js " ", siLit, by decide, by decide, Or.inr rfl, by decide⟩
    ⟨[], [], by decide, by decide, by decide⟩
    ⟨[], [], by decide, by decide, by decide⟩
  exact ⟨h.2.2.2.2.1, h.2.2.2.2.2.2.2.1, h.2.2.2.2.2.2.2.2⟩

/-! ### Position-wise fire counting: basic equations -/

theorem fireCount_append {N : Matcher} :
    ∀ a b : List Char, fireCount N (a ++ b) = fireCross N a b + fireCount N b := by
  intro a b
  induction a with
  | nil => simp [fireCount, fireCross]
  | cons c a ih =>
    simp only [List.cons_append, fireCount, fireCross, List.append_eq, ih]
    omega

theorem fireCross_zero {N : Matcher} :
    ∀ a b : List Char, (∀ j, j < a.length → N (a.drop j ++ b) = none) →
      fireCross N a b = 0 := by
  intro a
  induction a with
  | nil => intro b _; rfl
  | cons c a ih =>
    intro b h
    have h0 : N (c :: (a ++ b)) = none := by
      simpa using h 0 (by simp)
    rw [fireCross, h0]
    simp only [Option.isSome_none, Bool.false_eq_true, if_false, Nat.zero_add]
    exact ih b fun j hj => by simpa using h (j + 1) (by simpa using hj)

theorem fireCross_append {N : Matcher} :
    ∀ a b z : List Char,
      fireCross N (a ++ b) z = fireCross N a (b ++ z) + fireCross N b z := by
  intro a
  induction a with
  | nil => simp [fireCross]
  | cons c a ih =>
    intro b z
    simp only [List.cons_append, fireCross, List.append_assoc, List.append_eq, ih]
    omega

theorem fireCount_drop_of_none {M : Matcher} :
    ∀ (k : Nat) (t : List Char), (∀ j, j < k → M (t.drop j) = none) →
      fireCount M t = fireCount M (t.drop k) := by
  intro k
  induction k with
  | zero => simp
  | succ k ih =>
    intro t h
    cases t with
    | nil => simp
    | cons c t =>
      have h0 : M (c :: t) = none := by simpa using h 0 (Nat.succ_pos k)
      rw [fireCount, h0]
      simp only [Option.isSome_none, Bool.false_eq_true, if_false, Nat.zero_add,
        List.drop_succ_cons]
      exact ih t fun j hj => by simpa using h (j + 1) (by omega)

theorem fireCount_break {M : Matcher} {c : Char} {t o : List Char} {n : Nat}
    (hM : M (c :: t) = some (o, n))
    (hNOM : ∀ j, 0 < j → j < max n 1 → M ((c :: t).drop j) = none) :
    fireCount M (c :: t) = 1 + fireCount M ((c :: t).drop (max n 1)) := by
  rw [fireCount, hM]
  simp only [Option.isSome_some, if_true]
  have h1 : max n 1 = (max n 1 - 1) + 1 := by omega
  rw [h1, List.drop_succ_cons, ← fireCount_drop_of_none (max n 1 - 1) t
    fun j hj => by simpa [List.drop_succ_cons] using hNOM (j + 1) (by omega) (by omega)]

theorem occCount_eq_fireCount {m r : List Char} :
    ∀ s, occCount m s = fireCount (litM m r) s := by
  intro s
  induction s with
  | nil => rfl
  | cons c t ih =>
    rw [occCount, fireCount, ih, litM]
    by_cases h : m <+: c :: t
    · simp [h]
    · simp [h]

theorem matchCount_eq_fireCount {M : Matcher}
    (hNOM : ∀ s o n, M s = some (o, n) → ∀ j, 0 < j → j < max n 1 →
      M (s.drop j) = none) :
    ∀ (L : Nat) (s : List Char), s.length ≤ L → matchCount M s = fireCount M s := by
  intro L
  induction L with
  | zero =>
    intro s hs
    have h0 : s = [] := List.eq_nil_of_length_eq_zero (Nat.le_zero.mp hs)
    subst h0
    rfl
  | succ L ih =>
    intro s hs
    cases s with
    | nil => rfl
    | cons c t =>
      cases hM : M (c :: t) with
      | none =>
        rw [matchCount_cons_none hM, fireCount, hM]
        simp only [Option.isSome_none, Bool.false_eq_true, if_false, Nat.zero_add]
        exact ih t (by simpa using hs)
      | some son =>
        obtain ⟨o, n⟩ := son
        rw [matchCount_cons_some hM, fireCount_break hM (hNOM _ _ _ hM)]
        have hlen : ((c :: t).drop (max n 1)).length ≤ L := by
          simp only [List.length_drop, List.length_cons]
          simp only [List.length_cons] at hs
          omega
        rw [ih _ hlen]

/-! ### First fire position and head decompositions of the scans -/

theorem firstFire {M : Matcher} :
    ∀ u : List Char, (∀ j, j < u.length → M (u.drop j) = none) ∨
      ∃ k o n, k < u.length ∧ (∀ j, j < k → M (u.drop j) = none) ∧
        M (u.drop k) = some (o, n) := by
  intro u
  induction u with
  | nil =>
    left
    intro j hj
    simp at hj
  | cons c t ih =>
    cases hM : M (c :: t) with
    | some son =>
      obtain ⟨o, n⟩ := son
      right
      exact ⟨0, o, n, by simp, fun j hj => absurd hj (by omega), by simpa using hM⟩
    | none =>
      rcases ih with h | ⟨k, o, n, hk, hnone, hfire⟩
      · left
        intro j hj
        cases j with
        | zero => simpa using hM
        | succ j => simpa using h j (by simpa using hj)
      · right
        refine ⟨k + 1, o, n, by simpa using hk, ?_, by simpa using hfire⟩
        intro j hj
        cases j with
        | zero => simpa using hM
        | succ j => simpa using hnone j (by omega)

theorem scanG_id_of_nofire {M : Matcher} {u : List Char}
    (h : ∀ j, j < u.length → M (u.drop j) = none) : scanG M u = u := by
  have h1 := scanG_take_drop u.length u h le_rfl
  simpa [scanG, scanGo] using h1

theorem scanF_id_of_nofire {M : Matcher} {u : List Char}
    (h : ∀ j, j < u.length → M (u.drop j) = none) : scanF M u = u := by
  have h1 := scanF_take_drop u.length u h le_rfl
  simpa [scanF] using h1

theorem scanG_decomp {M : Matcher} {u o : List Char} {k n : Nat}
    (hk : k < u.length) (hnone : ∀ j, j < k → M (u.drop j) = none)
    (hfire : M (u.drop k) = some (o, n)) :
    scanG M u = u.take k ++ (o ++ scanG M ((u.drop k).drop (max n 1))) := by
  rw [scanG_take_drop k u hnone (le_of_lt hk)]
  congr 1
  cases hd : u.drop k with
  | nil =>
    have := congrArg List.length hd
    simp at this
    omega
  | cons c t =>
    rw [hd] at hfire
    rw [scanG_cons_some hfire]

theorem scanF_decomp {M : Matcher} {u o : List Char} {k n : Nat}
    (hk : k < u.length) (hnone : ∀ j, j < k → M (u.drop j) = none)
    (hfire : M (u.drop k) = some (o, n)) :
    scanF M u = u.take k ++ (o ++ (u.drop k).drop (max n 1)) := by
  rw [scanF_take_drop k u hnone (le_of_lt hk)]
  congr 1
  cases hd : u.drop k with
  | nil =>
    have := congrArg List.length hd
    simp at this
    omega
  | cons c t =>
    rw [hd] at hfire
    rw [scanF_cons_some hfire]

/-! ### Transport of a tracker across one scan step

`fireHead_congr`: modifying the input only from the first `M`-match onwards
(replacing the consumed block and everything after it) does not change
whether the tracking matcher `N` fires at the head, provided `N`-matches
cannot overlap `M`-matches or `M`-output blocks. -/

theorem fireHead_congr {M N : Matcher}
    (hMex : ∀ t, M t ≠ none → N t = none)
    (hNlen : ∀ t o n, N t = some (o, n) → 0 < n ∧ n ≤ t.length)
    (hDet : ∀ a b b' o n, N (a ++ b) = some (o, n) → n ≤ a.length →
      N (a ++ b') = some (o, n))
    (hInt : ∀ t o n, N t = some (o, n) → ∀ j, 0 < j → j < n → M (t.drop j) = none)
    (hExt : ∀ s' o n, M s' = some (o, n) → ∀ (p z o' : List Char) (n' : Nat),
      N (p ++ (o ++ z)) = some (o', n') → n' ≤ p.length)
    {u S R o : List Char} {k n : Nat} (hk : k < u.length)
    (hnone : ∀ j, j < k → M (u.drop j) = none)
    (hfire : M (u.drop k) = some (o, n))
    (hS : S = u.take k ++ (o ++ R)) :
    (N S).isSome = (N u).isSome := by
  have hkle : k ≤ u.length := le_of_lt hk
  cases hNu : N u with
  | some son =>
    obtain ⟨oN, nN⟩ := son
    obtain ⟨hnpos, hnle⟩ := hNlen u oN nN hNu
    have hnNk : nN ≤ k := by
      by_contra hgt
      push_neg at hgt
      rcases Nat.eq_zero_or_pos k with rfl | hkpos
      · have hMu : M u ≠ none := by
          intro hx
          rw [List.drop_zero] at hfire
          rw [hfire] at hx
          exact absurd hx (by simp)
        rw [hMex u hMu] at hNu
        exact absurd hNu (by simp)
      · have h2 := hInt u oN nN hNu k hkpos hgt
        rw [hfire] at h2
        exact absurd h2 (by simp)
    have h1 : N (u.take nN ++ u.drop nN) = some (oN, nN) := by
      rw [List.take_append_drop]
      exact hNu
    have hlen1 : nN ≤ (u.take nN).length := by
      rw [List.length_take]
      omega
    have h2 := hDet _ _ ((u.take k).drop nN ++ (o ++ R)) oN nN h1 hlen1
    have hSe : S = u.take nN ++ ((u.take k).drop nN ++ (o ++ R)) := by
      rw [hS]
      conv_lhs => rw [← List.take_append_drop nN (u.take k)]
      rw [List.take_take, min_eq_left hnNk, List.append_assoc]
    rw [hSe, h2]
  | none =>
    cases hNS : N S with
    | none => simp
    | some son =>
      obtain ⟨oN, nN⟩ := son
      obtain ⟨hnpos, hnle⟩ := hNlen S oN nN hNS
      have hnNk : nN ≤ k := by
        by_contra hgt
        push_neg at hgt
        have h2 := hExt _ _ _ hfire (u.take k) R oN nN (by rw [← hS]; exact hNS)
        rw [List.length_take] at h2
        omega
      have hSk : S.take nN = u.take nN := by
        rw [hS, List.take_append_eq_append_take, List.length_take,
          min_eq_left hkle, Nat.sub_eq_zero_of_le hnNk, List.take_zero,
          List.append_nil, List.take_take, min_eq_left hnNk]
      have h1 : N (S.take nN ++ S.drop nN) = some (oN, nN) := by
        rw [List.take_append_drop]
        exact hNS
      have hlen2 : nN ≤ (S.take nN).length := by
        rw [hSk, List.length_take]
        omega
      have h2 := hDet _ _ (u.drop nN) oN nN h1 hlen2
      rw [hSk, List.take_append_drop] at h2
      rw [h2] at hNu
      exact absurd hNu (by simp)

theorem fire_isSome_scanG {M N : Matcher}
    (hMex : ∀ t, M t ≠ none → N t = none)
    (hNlen : ∀ t o n, N t = some (o, n) → 0 < n ∧ n ≤ t.length)
    (hDet : ∀ a b b' o n, N (a ++ b) = some (o, n) → n ≤ a.length →
      N (a ++ b') = some (o, n))
    (hInt : ∀ t o n, N t = some (o, n) → ∀ j, 0 < j → j < n → M (t.drop j) = none)
    (hExt : ∀ s' o n, M s' = some (o, n) → ∀ (p z o' : List Char) (n' : Nat),
      N (p ++ (o ++ z)) = some (o', n') → n' ≤ p.length)
    (u : List Char) : (N (scanG M u)).isSome = (N u).isSome := by
  rcases firstFire (M := M) u with h | ⟨k, o, n, hk, hnone, hfire⟩
  · rw [scanG_id_of_nofire h]
  · exact fireHead_congr hMex hNlen hDet hInt hExt hk hnone hfire
      (scanG_decomp hk hnone hfire)

theorem fire_isSome_scanF {M N : Matcher}
    (hMex : ∀ t, M t ≠ none → N t = none)
    (hNlen : ∀ t o n, N t = some (o, n) → 0 < n ∧ n ≤ t.length)
    (hDet : ∀ a b b' o n, N (a ++ b) = some (o, n) → n ≤ a.length →
      N (a ++ b') = some (o, n))
    (hInt : ∀ t o n, N t = some (o, n) → ∀ j, 0 < j → j < n → M (t.drop j) = none)
    (hExt : ∀ s' o n, M s' = some (o, n) → ∀ (p z o' : List Char) (n' : Nat),
      N (p ++ (o ++ z)) = some (o', n') → n' ≤ p.length)
    (u : List Char) : (N (scanF M u)).isSome = (N u).isSome := by
  rcases firstFire (M := M) u with h | ⟨k, o, n, hk, hnone, hfire⟩
  · rw [scanF_id_of_nofire h]
  · exact fireHead_congr hMex hNlen hDet hInt hExt hk hnone hfire
      (scanF_decomp hk hnone hfire)

/-! ### The fire count of a tracker is preserved by a scan -/

theorem fireCount_scanG {M N : Matcher}
    (hMex : ∀ t, M t ≠ none → N t = none)
    (hNlen : ∀ t o n, N t = some (o, n) → 0 < n ∧ n ≤ t.length)
    (hDet : ∀ a b b' o n, N (a ++ b) = some (o, n) → n ≤ a.length →
      N (a ++ b') = some (o, n))
    (hInt : ∀ t o n, N t = some (o, n) → ∀ j, 0 < j → j < n → M (t.drop j) = none)
    (hExt : ∀ s' o n, M s' = some (o, n) → ∀ (p z o' : List Char) (n' : Nat),
      N (p ++ (o ++ z)) = some (o', n') → n' ≤ p.length)
    (hCons : ∀ s' o n, M s' = some (o, n) → ∀ j, 0 < j → j < max n 1 →
      N (s'.drop j) = none)
    (hBlock : ∀ s' o n, M s' = some (o, n) → ∀ j, j < o.length →
      ∀ z, N (o.drop j ++ z) = none) :
    ∀ (L : Nat) (u : List Char), u.length ≤ L →
      fireCount N (scanG M u) = fireCount N u := by
  intro L
  induction L with
  | zero =>
    intro u hu
    have h0 : u = [] := List.eq_nil_of_length_eq_zero (Nat.le_zero.mp hu)
    subst h0
    rfl
  | succ L ih =>
    intro u hu
    cases u with
    | nil => rfl
    | cons c t =>
      cases hM : M (c :: t) with
      | none =>
        rw [scanG_cons_none hM, fireCount, fireCount]
        have hhead : (N (c :: scanG M t)).isSome = (N (c :: t)).isSome := by
          rw [← scanG_cons_none hM]
          exact fire_isSome_scanG hMex hNlen hDet hInt hExt (c :: t)
        rw [hhead, ih t (by simpa [Nat.succ_le_succ_iff] using hu)]
      | some son =>
        obtain ⟨o, n⟩ := son
        rw [scanG_cons_some hM, fireCount_append]
        have hz : fireCross N o (scanG M ((c :: t).drop (max n 1))) = 0 :=
          fireCross_zero _ _ fun j hj => hBlock _ _ _ hM j hj _
        have hlen : ((c :: t).drop (max n 1)).length ≤ L := by
          simp only [List.length_drop, List.length_cons]
          simp only [List.length_cons] at hu
          omega
        rw [hz, ih _ hlen]
        conv_rhs => rw [← List.take_append_drop (max n 1) (c :: t), fireCount_append]
        have hz2 : fireCross N ((c :: t).take (max n 1)) ((c :: t).drop (max n 1)) = 0 := by
          apply fireCross_zero
          intro j hj
          have hj1 : j ≤ max n 1 := by
            rw [List.length_take] at hj
            omega
          have hj2 : j ≤ (c :: t).length := by
            rw [List.length_take] at hj
            omega
          rw [take_drop_glue hj1 hj2]
          cases j with
          | zero =>
            rw [List.drop_zero]
            exact hMex _ (by rw [hM]; simp)
          | succ j =>
            refine hCons _ _ _ hM (j + 1) (Nat.succ_pos j) ?_
            rw [List.length_take] at hj
            omega
        rw [hz2]

theorem fireCount_scanF {M N : Matcher}
    (hMex : ∀ t, M t ≠ none → N t = none)
    (hNlen : ∀ t o n, N t = some (o, n) → 0 < n ∧ n ≤ t.length)
    (hDet : ∀ a b b' o n, N (a ++ b) = some (o, n) → n ≤ a.length →
      N (a ++ b') = some (o, n))
    (hInt : ∀ t o n, N t = some (o, n) → ∀ j, 0 < j → j < n → M (t.drop j) = none)
    (hExt : ∀ s' o n, M s' = some (o, n) → ∀ (p z o' : List Char) (n' : Nat),
      N (p ++ (o ++ z)) = some (o', n') → n' ≤ p.length)
    (hCons : ∀ s' o n, M s' = some (o, n) → ∀ j, 0 < j → j < max n 1 →
      N (s'.drop j) = none)
    (hBlock : ∀ s' o n, M s' = some (o, n) → ∀ j, j < o.length →
      ∀ z, N (o.drop j ++ z) = none) :
    ∀ u : List Char, fireCount N (scanF M u) = fireCount N u := by
  intro u
  induction u with
  | nil => rfl
  | cons c t ih =>
    cases hM : M (c :: t) with
    | none =>
      rw [scanF_cons_none hM, fireCount, fireCount]
      have hhead : (N (c :: scanF M t)).isSome = (N (c :: t)).isSome := by
        rw [← scanF_cons_none hM]
        exact fire_isSome_scanF hMex hNlen hDet hInt hExt (c :: t)
      rw [hhead, ih]
    | some son =>
      obtain ⟨o, n⟩ := son
      rw [scanF_cons_some hM, fireCount_append]
      have hz : fireCross N o ((c :: t).drop (max n 1)) = 0 :=
        fireCross_zero _ _ fun j hj => hBlock _ _ _ hM j hj _
      rw [hz]
      conv_rhs => rw [← List.take_append_drop (max n 1) (c :: t), fireCount_append]
      have hz2 : fireCross N ((c :: t).take (max n 1)) ((c :: t).drop (max n 1)) = 0 := by
        apply fireCross_zero
        intro j hj
        have hj1 : j ≤ max n 1 := by
          rw [List.length_take] at hj
          omega
        have hj2 : j ≤ (c :: t).length := by
          rw [List.length_take] at hj
          omega
        rw [take_drop_glue hj1 hj2]
        cases j with
        | zero =>
          rw [List.drop_zero]
          exact hMex _ (by rw [hM]; simp)
        | succ j =>
          refine hCons _ _ _ hM (j + 1) (Nat.succ_pos j) ?_
          rw [List.length_take] at hj
          omega
      rw [hz2]

/-! ### The global insert stage adds one tracked occurrence per match -/

theorem fireCount_scanG_ins {M N : Matcher}
    (hMex : ∀ t, M t ≠ none → N t = none)
    (hNlen : ∀ t o n, N t = some (o, n) → 0 < n ∧ n ≤ t.length)
    (hDet : ∀ a b b' o n, N (a ++ b) = some (o, n) → n ≤ a.length →
      N (a ++ b') = some (o, n))
    (hInt : ∀ t o n, N t = some (o, n) → ∀ j, 0 < j → j < n → M (t.drop j) = none)
    (hExt : ∀ s' o n, M s' = some (o, n) → ∀ (p z o' : List Char) (n' : Nat),
      N (p ++ (o ++ z)) = some (o', n') → n' ≤ p.length)
    (hCons : ∀ s' o n, M s' = some (o, n) → ∀ j, 0 < j → j < max n 1 →
      N (s'.drop j) = none)
    (hNOM : ∀ s o n, M s = some (o, n) → ∀ j, 0 < j → j < max n 1 →
      M (s.drop j) = none)
    (hOne : ∀ s' o n, M s' = some (o, n) → ∀ z, fireCross N o z = 1) :
    ∀ (L : Nat) (u : List Char), u.length ≤ L →
      fireCount N (scanG M u) = fireCount M u + fireCount N u := by
  intro L
  induction L with
  | zero =>
    intro u hu
    have h0 : u = [] := List.eq_nil_of_length_eq_zero (Nat.le_zero.mp hu)
    subst h0
    rfl
  | succ L ih =>
    intro u hu
    cases u with
    | nil => rfl
    | cons c t =>
      cases hM : M (c :: t) with
      | none =>
        rw [scanG_cons_none hM]
        have hhead : (N (c :: scanG M t)).isSome = (N (c :: t)).isSome := by
          rw [← scanG_cons_none hM]
          exact fire_isSome_scanG hMex hNlen hDet hInt hExt (c :: t)
        rw [fireCount, hhead, ih t (by simpa [Nat.succ_le_succ_iff] using hu)]
        conv_rhs => rw [fireCount, fireCount, hM]
        simp only [Option.isSome_none, Bool.false_eq_true, if_false, Nat.zero_add]
        omega
      | some son =>
        obtain ⟨o, n⟩ := son
        rw [scanG_cons_some hM, fireCount_append, hOne _ _ _ hM]
        have hlen : ((c :: t).drop (max n 1)).length ≤ L := by
          simp only [List.length_drop, List.length_cons]
          simp only [List.length_cons] at hu
          omega
        rw [ih _ hlen]
        have hMc : fireCount M (c :: t) = 1 + fireCount M ((c :: t).drop (max n 1)) :=
          fireCount_break hM (hNOM _ _ _ hM)
        have hNc : fireCount N (c :: t) =
            fireCross N ((c :: t).take (max n 1)) ((c :: t).drop (max n 1)) +
              fireCount N ((c :: t).drop (max n 1)) := by
          conv_lhs => rw [← List.take_append_drop (max n 1) (c :: t)]
          rw [fireCount_append]
        rw [hMc, hNc]
        have hz2 : fireCross N ((c :: t).take (max n 1)) ((c :: t).drop (max n 1)) = 0 := by
          apply fireCross_zero
          intro j hj
          have hj1 : j ≤ max n 1 := by
            rw [List.length_take] at hj
            omega
          have hj2 : j ≤ (c :: t).length := by
            rw [List.length_take] at hj
            omega
          rw [take_drop_glue hj1 hj2]
          cases j with
          | zero =>
            rw [List.drop_zero]
            exact hMex _ (by rw [hM]; simp)
          | succ j =>
            refine hCons _ _ _ hM (j + 1) (Nat.succ_pos j) ?_
            rw [List.length_take] at hj
            omega
        rw [hz2]
        omega

/-! ### Discharging the overlap conditions for the script's matchers -/

theorem mex_openers {M N : Matcher} {LM LN : List Char}
    (hfM : ∀ s o n, M s = some (o, n) → LM <+: s)
    (hfN : ∀ s o n, N s = some (o, n) → LN <+: s)
    (h1 : ¬ LM <+: LN) (h2 : ¬ LN <+: LM) :
    ∀ t, M t ≠ none → N t = none := by
  intro t hM
  cases hN : N t with
  | none => rfl
  | some son =>
    obtain ⟨o2, n2⟩ := son
    cases hMt : M t with
    | none => exact absurd hMt hM
    | some son2 =>
      obtain ⟨o1, n1⟩ := son2
      rcases List.prefix_or_prefix_of_prefix (hfM _ _ _ hMt) (hfN _ _ _ hN) with h | h
      · exact absurd h h1
      · exact absurd h h2

theorem litM_none {pat repl x : List Char} (h : ¬ pat <+: x) :
    litM pat repl x = none := by
  simp [litM, h]

theorem litM_len {pat repl : List Char} (hp : pat ≠ []) :
    ∀ t o n, litM pat repl t = some (o, n) → 0 < n ∧ n ≤ t.length := by
  intro t o n h
  obtain ⟨h1, -, rfl⟩ := litM_eq_some h
  exact ⟨List.length_pos.mpr hp, h1.length_le⟩

theorem litM_det {pat repl : List Char} :
    ∀ (a b b' o : List Char) (n : Nat), litM pat repl (a ++ b) = some (o, n) →
      n ≤ a.length → litM pat repl (a ++ b') = some (o, n) := by
  intro a b b' o n h hn
  obtain ⟨h1, rfl, rfl⟩ := litM_eq_some h
  have hpa : pat <+: a := (List.isPrefix_append_of_length hn).mp h1
  unfold litM
  rw [if_pos (hpa.trans (List.prefix_append a b'))]

theorem bundleM_len {lit1 a1 a2 bins : List Char} (hlit : lit1 ≠ []) :
    ∀ t o n, bundleM lit1 a1 a2 bins t = some (o, n) → 0 < n ∧ n ≤ t.length := by
  intro t o n h
  obtain ⟨ws, alt, r, hs, hwne, -, -, -, hn⟩ := bundleM_eq_some h
  subst hn
  constructor
  · have := List.length_pos.mpr hlit
    omega
  · rw [hs]
    simp [List.length_append]
    omega

theorem bundleM_eval {lit1 a1 a2 bins ws alt y : List Char}
    (hwne : ws ≠ []) (hwall : ∀ ch ∈ ws, isJSWS ch = true)
    (haltne : alt ≠ []) (hh : isJSWS alt.headI = false)
    (hbr : alt = a1 ∨ (alt = a2 ∧ ¬ a1 <+: alt ++ y)) :
    bundleM lit1 a1 a2 bins (lit1 ++ (ws ++ (alt ++ y)))
      = some (lit1 ++ ws ++ bins ++ ws ++ alt,
          lit1.length + ws.length + alt.length) := by
  have hne : alt ++ y ≠ [] := fun hx => haltne (List.append_eq_nil.mp hx).1
  obtain ⟨htw, hdw⟩ := takeWhile_append_all hwall hne
    (by rw [headI_append_left haltne]; exact hh)
  unfold bundleM
  rw [if_pos (List.prefix_append _ _)]
  simp only [List.drop_left, htw, hdw]
  rw [if_neg (by simpa using hwne)]
  rcases hbr with rfl | ⟨rfl, hna1⟩
  · rw [if_pos (List.prefix_append _ _)]
  · rw [if_neg hna1, if_pos (List.prefix_append _ _)]

theorem bundleM_det {lit1 a1 a2 bins : List Char}
    (ha1 : a1 ≠ []) (ha2 : a2 ≠ [])
    (hh1 : isJSWS a1.headI = false) (hh2 : isJSWS a2.headI = false)
    (hheads : a1.headI ≠ a2.headI) :
    ∀ (p b b' o : List Char) (n : Nat),
      bundleM lit1 a1 a2 bins (p ++ b) = some (o, n) → n ≤ p.length →
      bundleM lit1 a1 a2 bins (p ++ b') = some (o, n) := by
  intro p b b' o n h hn
  obtain ⟨ws, alt, r, hs, hwne, hwall, halt, ho, hneq⟩ := bundleM_eq_some h
  have hLpre : lit1 ++ (ws ++ alt) <+: p := by
    have h1 : lit1 ++ (ws ++ alt) <+: p ++ b := by
      rw [hs]
      exact ⟨r, by simp [List.append_assoc]⟩
    rcases List.prefix_or_prefix_of_prefix h1 (List.prefix_append p b) with hc | hc
    · exact hc
    · have hle := hc.length_le
      simp only [List.length_append] at hle
      have heq : p = lit1 ++ (ws ++ alt) :=
        hc.eq_of_length (by simp only [List.length_append]; omega)
      rw [heq]
  have hp2 := eq_app_of_pre hLpre
  have hform : p ++ b' = lit1 ++ (ws ++ (alt ++
      (p.drop (lit1 ++ (ws ++ alt)).length ++ b'))) := by
    conv_lhs => rw [hp2]
    simp [List.append_assoc]
  have haltne : alt ≠ [] := by
    rcases halt with rfl | rfl
    · exact ha1
    · exact ha2
  have halth : isJSWS alt.headI = false := by
    rcases halt with rfl | rfl
    · exact hh1
    · exact hh2
  have hbr : alt = a1 ∨ (alt = a2 ∧
      ¬ a1 <+: alt ++ (p.drop (lit1 ++ (ws ++ alt)).length ++ b')) := by
    rcases halt with rfl | rfl
    · exact Or.inl rfl
    · refine Or.inr ⟨rfl, ?_⟩
      intro hpre
      have h3 := headI_of_pre ha1 hpre
      rw [headI_append_left ha2] at h3
      exact hheads h3
  rw [hform, bundleM_eval hwne hwall haltne halth hbr, ho, hneq]

theorem int_of_noStart {m rm : List Char} {M : Matcher} (hNS : NoStartIn m M) :
    ∀ t o n, litM m rm t = some (o, n) → ∀ j, 0 < j → j < n →
      M (t.drop j) = none := by
  intro t o n h j hj0 hjn
  obtain ⟨h1, -, rfl⟩ := litM_eq_some h
  rw [eq_app_of_pre h1, drop_append_of_lt (le_of_lt hjn)]
  exact hNS j hjn _

theorem int_of_noOcc {LM : List Char} {M N : Matcher}
    (hfM : ∀ s o n, M s = some (o, n) → LM <+: s)
    (hOcc : NoOccIn LM N) :
    ∀ t o n, N t = some (o, n) → ∀ j, 0 < j → j < n → M (t.drop j) = none := by
  intro t o n h j hj0 hjn
  cases hM : M (t.drop j) with
  | none => rfl
  | some son =>
    obtain ⟨o', n'⟩ := son
    exact absurd (hfM _ _ _ hM) (hOcc t o n h j (by omega))

theorem cons_of_noOcc {LN : List Char} {M N : Matcher}
    (hfN : ∀ s o n, N s = some (o, n) → LN <+: s)
    (hOcc : NoOccIn LN M) :
    ∀ s' o n, M s' = some (o, n) → ∀ j, 0 < j → j < max n 1 →
      N (s'.drop j) = none := by
  intro s' o n h j hj0 hj
  cases hN : N (s'.drop j) with
  | none => rfl
  | some son =>
    obtain ⟨o', n'⟩ := son
    exact absurd (hfN _ _ _ hN) (hOcc s' o n h j hj)

theorem nom_of_noPre {L : List Char} {M : Matcher}
    (hf : ∀ s o n, M s = some (o, n) → L <+: s)
    (hp : ∀ s o n, M s = some (o, n) → ∀ j, j < max n 1 → 0 < j →
      ¬ L <+: s.drop j) :
    ∀ s o n, M s = some (o, n) → ∀ j, 0 < j → j < max n 1 →
      M (s.drop j) = none := by
  intro s o n h j h0 hj
  cases hM : M (s.drop j) with
  | none => rfl
  | some son =>
    obtain ⟨o', n'⟩ := son
    exact absurd (hf _ _ _ hM) (hp s o n h j hj h0)

theorem occCount_zero_of_not_infix {m : List Char} :
    ∀ {c : List Char}, ¬ m <:+: c → occCount m c = 0 := by
  intro c
  induction c with
  | nil => intro _; rfl
  | cons x t ih =>
    intro h
    rw [occCount]
    have h1 : ¬ m <+: x :: t := fun hp => h hp.isInfix
    rw [if_neg h1, ih fun hi => h (hi.trans (List.suffix_cons x t).isInfix)]

/-! ### Regions of blocks in which no tracked occurrence can begin -/

theorem no_pre_in_wsrun {m : List Char} (hm : m ≠ [])
    (hmh : isJSWS m.headI = false) {W : List Char}
    (hall : ∀ c ∈ W, isJSWS c = true) :
    ∀ (i : Nat) (X : List Char), i < W.length → ¬ m <+: W.drop i ++ X := by
  intro i X hi h
  have hne : W.drop i ≠ [] := by
    intro hx
    have := congrArg List.length hx
    simp at this
    omega
  have h1 := headI_of_pre hm h
  rw [headI_append_left hne] at h1
  have h2 : isJSWS (W.drop i).headI = true :=
    hall _ (List.mem_of_mem_drop (headI_mem_self hne))
  rw [← h1, hmh] at h2
  exact Bool.false_ne_true h2

theorem no_pre_in_hexrun {m u tail : List Char} (hm : m ≠ [])
    (hu : ∀ ch ∈ u, ch ∈ hexTable) (htne : tail ≠ []) (hth : tail.headI = ' ')
    (hhex : m.headI ∉ hexTable ∨
      ∃ c0 c1 mr, m = c0 :: c1 :: mr ∧ c1 ∉ hexTable ∧ c1 ≠ ' ') :
    ∀ i, i < u.length → ¬ m <+: u.drop i ++ tail := by
  intro i hi h
  have hne : u.drop i ≠ [] := by
    intro hx
    have := congrArg List.length hx
    simp at this
    omega
  obtain ⟨a, rest, hd⟩ : ∃ a rest, u.drop i = a :: rest := by
    cases hc : u.drop i with
    | nil => exact absurd hc hne
    | cons a rest => exact ⟨a, rest, rfl⟩
  have ha : a ∈ hexTable := hu a (List.mem_of_mem_drop (by rw [hd]; simp))
  rcases hhex with hch | ⟨c0, c1, mr, hmeq, hc1, hct⟩
  · have h1 := headI_of_pre hm h
    rw [hd, List.cons_append, List.headI_cons] at h1
    exact hch (h1 ▸ ha)
  · rw [hmeq, hd, List.cons_append] at h
    obtain ⟨h0, h1⟩ := List.cons_prefix_cons.mp h
    cases rest with
    | nil =>
      simp only [List.nil_append] at h1
      have h2 := headI_of_pre (List.cons_ne_nil c1 mr) h1
      rw [List.headI_cons, hth] at h2
      exact hct h2
    | cons b rb =>
      rw [List.cons_append] at h1
      obtain ⟨hb, -⟩ := List.cons_prefix_cons.mp h1
      have hbmem : b ∈ hexTable := hu b (List.mem_of_mem_drop (by rw [hd]; simp))
      exact hc1 (hb ▸ hbmem)

theorem noPre_app_seg {m A B : List Char}
    (hA : ∀ i, i < A.length → ∀ z2 : List Char, ¬ m <+: A.drop i ++ z2)
    (hB : ∀ i, i < B.length → ∀ z2 : List Char, ¬ m <+: B.drop i ++ z2) :
    ∀ j, j < (A ++ B).length → ∀ z : List Char, ¬ m <+: (A ++ B).drop j ++ z := by
  intro j hj z
  by_cases j1 : j < A.length
  · rw [drop_append_of_lt (le_of_lt j1), List.append_assoc]
    exact hA j j1 (B ++ z)
  · push_neg at j1
    rw [drop_append_mid j1]
    refine hB (j - A.length) ?_ z
    rw [List.length_append] at hj
    omega

theorem noPre_hexseg {m u tl : List Char} (hm : m ≠ [])
    (hu : ∀ ch ∈ u, ch ∈ hexTable) (htlne : tl ≠ []) (hth : tl.headI = ' ')
    (hT : SegCond m tl)
    (hhex : m.headI ∉ hexTable ∨
      ∃ c0 c1 mr, m = c0 :: c1 :: mr ∧ c1 ∉ hexTable ∧ c1 ≠ ' ') :
    ∀ i, i < (u ++ tl).length → ∀ z2 : List Char,
      ¬ m <+: (u ++ tl).drop i ++ z2 := by
  intro i hi z2
  by_cases i1 : i < u.length
  · rw [drop_append_of_lt (le_of_lt i1), List.append_assoc]
    refine no_pre_in_hexrun hm hu (app_ne_left htlne) ?_ hhex i i1
    rw [headI_append_left htlne]
    exact hth
  · push_neg at i1
    rw [drop_append_mid i1]
    refine no_occ_in_seg hT ?_
    rw [List.length_append] at hi
    omega

theorem noPre_of_seg {m L : List Char} (hSC : SegCond m L) :
    ∀ i, i < L.length → ∀ z2 : List Char, ¬ m <+: L.drop i ++ z2 :=
  fun i hi z2 => no_occ_in_seg hSC hi

theorem fileRefAddition_seg (u1 u2 : List Char) :
    fileRefAddition u1 u2 =
      js "\t\t" ++ ((u1 ++ fraB1) ++ ((u2 ++ fraB2) ++ fileRefEndMarker)) := by
  simp only [fileRefAddition, fraB1, fraB2, List.append_assoc]

theorem FRA_noPre {m u1 u2 : List Char} (hm : m ≠ [])
    (hu1 : ∀ ch ∈ u1, ch ∈ hexTable) (hu2 : ∀ ch ∈ u2, ch ∈ hexTable)
    (hT : SegCond m (js "\t\t")) (hB1 : SegCond m fraB1) (hB2 : SegCond m fraB2)
    (hE : SegCond m fileRefEndMarker)
    (hhex : m.headI ∉ hexTable ∨
      ∃ c0 c1 mr, m = c0 :: c1 :: mr ∧ c1 ∉ hexTable ∧ c1 ≠ ' ') :
    ∀ j, j < (fileRefAddition u1 u2).length → ∀ z : List Char,
      ¬ m <+: (fileRefAddition u1 u2).drop j ++ z := by
  intro j hj z
  rw [fileRefAddition_seg] at hj ⊢
  exact noPre_app_seg (noPre_of_seg hT)
    (noPre_app_seg (noPre_hexseg hm hu1 (by decide) (by decide) hB1 hhex)
      (noPre_app_seg (noPre_hexseg hm hu2 (by decide) (by decide) hB2 hhex)
        (noPre_of_seg hE))) j hj z

theorem bundleM_noPreBlock {m lit1 a1 a2 bins : List Char} (hm : m ≠ [])
    (hmh : isJSWS m.headI = false)
    (hL : SegCond m lit1) (hIns : SegCond m bins)
    (hA1 : SegCond m a1) (hA2 : SegCond m a2) :
    ∀ s' o n, bundleM lit1 a1 a2 bins s' = some (o, n) →
      ∀ j, j < o.length → ∀ z : List Char, ¬ m <+: o.drop j ++ z := by
  intro s' o n h j hj z
  obtain ⟨ws, alt, r, hs, hwne, hwall, halt, ho, hn⟩ := bundleM_eq_some h
  subst ho
  simp only [List.append_assoc] at hj ⊢
  have halts : ∀ i, i < alt.length → ∀ z2 : List Char, ¬ m <+: alt.drop i ++ z2 := by
    rcases halt with rfl | rfl
    · exact noPre_of_seg hA1
    · exact noPre_of_seg hA2
  exact noPre_app_seg (noPre_of_seg hL)
    (noPre_app_seg (fun i hi z2 => no_pre_in_wsrun hm hmh hwall i z2 hi)
      (noPre_app_seg (noPre_of_seg hIns)
        (noPre_app_seg (fun i hi z2 => no_pre_in_wsrun hm hmh hwall i z2 hi)
          halts))) j hj z

theorem groupM_noPreBlock {m glit u tl : List Char} (hm : m ≠ [])
    (hmh : isJSWS m.headI = false)
    (hu : ∀ ch ∈ u, ch ∈ hexTable)
    (hG : SegCond m glit) (hI : SegCond m isaLit) (hC : SegCond m childrenLit)
    (hT : SegCond m tl) (htlne : tl ≠ []) (hth : tl.headI = ' ')
    (hhex : m.headI ∉ hexTable ∨
      ∃ c0 c1 mr, m = c0 :: c1 :: mr ∧ c1 ∉ hexTable ∧ c1 ≠ ' ') :
    ∀ s' o n, groupM glit (js "\n\t\t\t\t" ++ (u ++ tl)) s' = some (o, n) →
      ∀ j, j < o.length → ∀ z : List Char, ¬ m <+: o.drop j ++ z := by
  intro s' o n h j hj z
  obtain ⟨ws1, ws2, r, hs, hw1, hw2, ho, hn⟩ := groupM_eq_some h
  subst ho
  simp only [List.append_assoc] at hj ⊢
  exact noPre_app_seg (noPre_of_seg hG)
    (noPre_app_seg (fun i hi z2 => no_pre_in_wsrun hm hmh hw1 i z2 hi)
      (noPre_app_seg (noPre_of_seg hI)
        (noPre_app_seg (fun i hi z2 => no_pre_in_wsrun hm hmh hw2 i z2 hi)
          (noPre_app_seg (noPre_of_seg hC)
            (noPre_app_seg
              (fun i hi z2 => no_pre_in_wsrun hm hmh (by decide) i z2 hi)
              (noPre_hexseg hm hu htlne hth hT hhex)))))) j hj z

theorem bundleM_noOccPos {m lit1 a1 a2 bins : List Char} (hm : m ≠ [])
    (hL : SegCondPos m lit1) (hA1 : SegCond m a1) (hA2 : SegCond m a2)
    (hW1 : WsOK m a1) (hW2 : WsOK m a2)
    (ha1 : a1 ≠ []) (ha2 : a2 ≠ [])
    (hh1 : isJSWS a1.headI = false) (hh2 : isJSWS a2.headI = false) :
    ∀ s o n, bundleM lit1 a1 a2 bins s = some (o, n) →
      ∀ j, j < max n 1 → 0 < j → ¬ m <+: s.drop j := by
  intro s o n h j hj hjpos hpre
  obtain ⟨ws, alt, r, hs, hwne, hwall, halt, -, hn⟩ := bundleM_eq_some h
  have hwpos : 0 < ws.length := List.length_pos.mpr hwne
  have hjn : j < lit1.length + ws.length + alt.length := by omega
  by_cases j1 : j < lit1.length
  · rw [hs, drop_append_of_lt (le_of_lt j1)] at hpre
    rcases prefix_split hpre with hc | ⟨hc, -⟩
    · exact (hL j j1 hjpos).1 hc
    · exact (hL j j1 hjpos).2 hc
  · push_neg at j1
    by_cases j2 : j < lit1.length + ws.length
    · have hj' : j - lit1.length < ws.length := by omega
      rw [hs, drop_append_mid j1, drop_append_of_lt (le_of_lt hj')] at hpre
      have hwsne : ws.drop (j - lit1.length) ≠ [] := by
        intro hx
        have := congrArg List.length hx
        simp at this
        omega
      have hwall' : ∀ c ∈ ws.drop (j - lit1.length), isJSWS c = true :=
        fun c hc => hwall c (List.mem_of_mem_drop hc)
      rcases halt with rfl | rfl
      · exact no_occ_in_ws hm hwsne hwall' ha1 hh1 hW1 hpre
      · exact no_occ_in_ws hm hwsne hwall' ha2 hh2 hW2 hpre
    · push_neg at j2
      have hj'' : j - lit1.length - ws.length < alt.length := by omega
      have hws' : ws.length ≤ j - lit1.length := by omega
      rw [hs, drop_append_mid j1, drop_append_mid hws',
        drop_append_of_lt (le_of_lt hj'')] at hpre
      rcases halt with rfl | rfl
      · exact no_occ_in_seg hA1 hj'' hpre
      · exact no_occ_in_seg hA2 hj'' hpre

/-! ### Trackers cannot fire across the start of a replacement block -/

theorem vi_lit {m rm LB : List Char} {M : Matcher}
    (hDC : DropCond m LB)
    (hblock : ∀ s' o n, M s' = some (o, n) → ∃ rest, o = LB ++ rest) :
    ∀ s' o n, M s' = some (o, n) → ∀ (p z o' : List Char) (n' : Nat),
      litM m rm (p ++ (o ++ z)) = some (o', n') → n' ≤ p.length := by
  intro s' o n h p z o' n' hN
  obtain ⟨h1, -, rfl⟩ := litM_eq_some hN
  by_contra hgt
  push_neg at hgt
  rcases prefix_split h1 with hc | ⟨-, hdrop⟩
  · have := hc.length_le
    omega
  · obtain ⟨rest, ho⟩ := hblock _ _ _ h
    rw [ho, List.append_assoc] at hdrop
    rcases prefix_split hdrop with hd | ⟨hd, -⟩
    · exact (hDC p.length (by omega)).1 hd
    · exact (hDC p.length (by omega)).2 hd

theorem vi_bundle_nonws {lit a1 a2 bins LB : List Char} {M : Matcher}
    (ha1 : a1 ≠ []) (ha2 : a2 ≠ [])
    (hDC : DropCond lit LB) (hDa1 : DropCond a1 LB) (hDa2 : DropCond a2 LB)
    (hLBne : LB ≠ []) (hLBh : isJSWS LB.headI = false)
    (hblock : ∀ s' o n, M s' = some (o, n) → ∃ rest, o = LB ++ rest) :
    ∀ s' o n, M s' = some (o, n) → ∀ (p z o' : List Char) (n' : Nat),
      bundleM lit a1 a2 bins (p ++ (o ++ z)) = some (o', n') → n' ≤ p.length := by
  intro s' o n h p z o' n' hN
  obtain ⟨ws, alt, r, hs, hwne, hwall, halt, -, hn⟩ := bundleM_eq_some hN
  by_contra hgt
  push_neg at hgt
  subst hn
  obtain ⟨rest, ho⟩ := hblock _ _ _ h
  have hkey : (p ++ (o ++ z)).drop p.length = LB ++ (rest ++ z) := by
    rw [List.drop_left, ho, List.append_assoc]
  by_cases r1 : p.length < lit.length
  · have hd2 : (p ++ (o ++ z)).drop p.length
        = lit.drop p.length ++ (ws ++ (alt ++ r)) := by
      rw [hs, drop_append_of_lt (le_of_lt r1)]
    have hpre1 : lit.drop p.length <+: LB ++ (rest ++ z) := by
      rw [← hkey, hd2]
      exact List.prefix_append _ _
    rcases prefix_split hpre1 with hc | ⟨hc, -⟩
    · exact (hDC p.length r1).1 hc
    · exact (hDC p.length r1).2 hc
  · push_neg at r1
    by_cases r2 : p.length < lit.length + ws.length
    · have hj : p.length - lit.length < ws.length := by omega
      have hd2 : (p ++ (o ++ z)).drop p.length
          = ws.drop (p.length - lit.length) ++ (alt ++ r) := by
        rw [hs, drop_append_mid r1, drop_append_of_lt (le_of_lt hj)]
      have hWne : ws.drop (p.length - lit.length) ≠ [] := by
        intro hx
        have := congrArg List.length hx
        simp at this
        omega
      have hh := congrArg List.headI (hd2.symm.trans hkey)
      rw [headI_append_left hWne, headI_append_left hLBne] at hh
      have h2 : isJSWS (ws.drop (p.length - lit.length)).headI = true :=
        hwall _ (List.mem_of_mem_drop (headI_mem_self hWne))
      rw [hh, hLBh] at h2
      exact Bool.false_ne_true h2
    · push_neg at r2
      have hj : p.length - lit.length - ws.length < alt.length := by omega
      have hd2 : (p ++ (o ++ z)).drop p.length
          = alt.drop (p.length - lit.length - ws.length) ++ r := by
        rw [hs, drop_append_mid r1, drop_append_mid (by omega),
          drop_append_of_lt (le_of_lt hj)]
      have hpre1 : alt.drop (p.length - lit.length - ws.length) <+: LB ++ (rest ++ z) := by
        rw [← hkey, hd2]
        exact List.prefix_append _ _
      rcases halt with rfl | rfl
      · rcases prefix_split hpre1 with hc | ⟨hc, -⟩
        · exact (hDa1 _ hj).1 hc
        · exact (hDa1 _ hj).2 hc
      · rcases prefix_split hpre1 with hc | ⟨hc, -⟩
        · exact (hDa2 _ hj).1 hc
        · exact (hDa2 _ hj).2 hc

theorem vi_bundle_FRA {lit a1 a2 bins u1 u2 : List Char}
    (ha1 : a1 ≠ []) (ha2 : a2 ≠ [])
    (hu1 : ∀ ch ∈ u1, ch ∈ hexTable) (hu1ne : u1 ≠ [])
    (hDC : DropCond lit (js "\t\t")) (hDa1 : DropCond a1 (js "\t\t"))
    (hDa2 : DropCond a2 (js "\t\t"))
    (hh1 : isJSWS a1.headI = false) (hh2 : isJSWS a2.headI = false)
    (h1x : a1.headI ∉ hexTable) (h2x : a2.headI ∉ hexTable) :
    ∀ (p z o' : List Char) (n' : Nat),
      bundleM lit a1 a2 bins (p ++ (fileRefAddition u1 u2 ++ z)) = some (o', n') →
      n' ≤ p.length := by
  intro p z o' n' hN
  obtain ⟨ws, alt, r, hs, hwne, hwall, halt, -, hn⟩ := bundleM_eq_some hN
  by_contra hgt
  push_neg at hgt
  subst hn
  have haltne : alt ≠ [] := by
    rcases halt with rfl | rfl
    · exact ha1
    · exact ha2
  have halth : isJSWS alt.headI = false := by
    rcases halt with rfl | rfl
    · exact hh1
    · exact hh2
  have haltx : alt.headI ∉ hexTable := by
    rcases halt with rfl | rfl
    · exact h1x
    · exact h2x
  have hkey : (p ++ (fileRefAddition u1 u2 ++ z)).drop p.length
      = fileRefAddition u1 u2 ++ z := List.drop_left _ _
  by_cases r1 : p.length < lit.length
  · have hd2 : (p ++ (fileRefAddition u1 u2 ++ z)).drop p.length
        = lit.drop p.length ++ (ws ++ (alt ++ r)) := by
      rw [hs, drop_append_of_lt (le_of_lt r1)]
    have hpre1 : lit.drop p.length <+:
        js "\t\t" ++ (((u1 ++ fraB1) ++ ((u2 ++ fraB2) ++ fileRefEndMarker)) ++ z) := by
      rw [← List.append_assoc, ← fileRefAddition_seg, ← hkey, hd2]
      exact List.prefix_append _ _
    rcases prefix_split hpre1 with hc | ⟨hc, -⟩
    · exact (hDC p.length r1).1 hc
    · exact (hDC p.length r1).2 hc
  · push_neg at r1
    by_cases r2 : p.length < lit.length + ws.length
    · have hj : p.length - lit.length < ws.length := by omega
      have hd2 : (p ++ (fileRefAddition u1 u2 ++ z)).drop p.length
          = ws.drop (p.length - lit.length) ++ (alt ++ r) := by
        rw [hs, drop_append_mid r1, drop_append_of_lt (le_of_lt hj)]
      have hkey2 : ws.drop (p.length - lit.length) ++ (alt ++ r)
          = '\t' :: ('\t' :: (u1 ++ (fraB1 ++ ((u2 ++ fraB2) ++
              (fileRefEndMarker ++ z))))) := by
        rw [← hd2, hkey, fileRefAddition_seg]
        have ht2 : js "\t\t" = ['\t', '\t'] := by decide
        rw [ht2]
        simp [List.append_assoc]
      have hWne : ws.drop (p.length - lit.length) ≠ [] := by
        intro hx
        have := congrArg List.length hx
        simp at this
        omega
      obtain ⟨e, u1t, hu1d⟩ : ∃ e u1t, u1 = e :: u1t := by
        cases hc : u1 with
        | nil => exact absurd hc hu1ne
        | cons e t => exact ⟨e, t, rfl⟩
      have hemem : e ∈ hexTable := hu1 e (by rw [hu1d]; simp)
      cases hW : ws.drop (p.length - lit.length) with
      | nil => exact hWne hW
      | cons w1 W2 =>
        rw [hW, List.cons_append] at hkey2
        injection hkey2 with hk1 hk2
        cases W2 with
        | nil =>
          simp only [List.nil_append] at hk2
          have hh := congrArg List.headI hk2
          rw [headI_append_left haltne, List.headI_cons] at hh
          rw [hh] at halth
          exact absurd halth (by decide)
        | cons w2 W3 =>
          rw [List.cons_append] at hk2
          injection hk2 with hk3 hk4
          rw [hu1d, List.cons_append] at hk4
          cases W3 with
          | nil =>
            simp only [List.nil_append] at hk4
            have hh := congrArg List.headI hk4
            rw [headI_append_left haltne, List.headI_cons] at hh
            exact haltx (hh ▸ hemem)
          | cons w3 W4 =>
            rw [List.cons_append] at hk4
            injection hk4 with hk5 hk6
            have hw3 : w3 ∈ ws := by
              refine List.mem_of_mem_drop (l := ws) (n := p.length - lit.length) ?_
              rw [hW]
              simp
            have h2 := hwall w3 hw3
            rw [hk5, hex_ne_ws hemem] at h2
            exact Bool.false_ne_true h2
    · push_neg at r2
      have hj : p.length - lit.length - ws.length < alt.length := by omega
      have hd2 : (p ++ (fileRefAddition u1 u2 ++ z)).drop p.length
          = alt.drop (p.length - lit.length - ws.length) ++ r := by
        rw [hs, drop_append_mid r1, drop_append_mid (by omega),
          drop_append_of_lt (le_of_lt hj)]
      have hpre1 : alt.drop (p.length - lit.length - ws.length) <+:
          js "\t\t" ++ (((u1 ++ fraB1) ++ ((u2 ++ fraB2) ++ fileRefEndMarker)) ++ z) := by
        rw [← List.append_assoc, ← fileRefAddition_seg, ← hkey, hd2]
        exact List.prefix_append _ _
      rcases halt with rfl | rfl
      · rcases prefix_split hpre1 with hc | ⟨hc, -⟩
        · exact (hDa1 _ hj).1 hc
        · exact (hDa1 _ hj).2 hc
      · rcases prefix_split hpre1 with hc | ⟨hc, -⟩
        · exact (hDa2 _ hj).1 hc
        · exact (hDa2 _ hj).2 hc

/-! ### Each bundle output block holds exactly one inserted line -/

theorem bundleM_block_one {lit a1 a2 bins rins : List Char}
    (hbins : bins ≠ []) (hbinsh : isJSWS bins.headI = false)
    (hBF : BorderFree bins) (hSL : SegCond bins lit)
    (hS1 : SegCond bins a1) (hS2 : SegCond bins a2) :
    ∀ s' o n, bundleM lit a1 a2 bins s' = some (o, n) →
      ∀ z, fireCross (litM bins rins) o z = 1 := by
  intro s' o n h z
  obtain ⟨ws, alt, r, hs, hwne, hwall, halt, ho, hn⟩ := bundleM_eq_some h
  subst ho
  rw [fireCross_append, fireCross_append, fireCross_append, fireCross_append]
  have hz1 : fireCross (litM bins rins) lit
      (ws ++ (bins ++ (ws ++ (alt ++ z)))) = 0 :=
    fireCross_zero _ _ fun j hj => litM_none (no_occ_in_seg hSL hj)
  have hz2 : fireCross (litM bins rins) ws (bins ++ (ws ++ (alt ++ z))) = 0 :=
    fireCross_zero _ _ fun j hj =>
      litM_none (no_pre_in_wsrun hbins hbinsh hwall j _ hj)
  have hz4 : fireCross (litM bins rins) ws (alt ++ z) = 0 :=
    fireCross_zero _ _ fun j hj =>
      litM_none (no_pre_in_wsrun hbins hbinsh hwall j _ hj)
  have hz5 : fireCross (litM bins rins) alt z = 0 := by
    refine fireCross_zero _ _ fun j hj => litM_none ?_
    rcases halt with rfl | rfl
    · exact no_occ_in_seg hS1 hj
    · exact no_occ_in_seg hS2 hj
  have hone : fireCross (litM bins rins) bins (ws ++ (alt ++ z)) = 1 := by
    obtain ⟨c0, it, hid⟩ : ∃ c0 it, bins = c0 :: it := by
      cases hc : bins with
      | nil => exact absurd hc hbins
      | cons c0 it => exact ⟨c0, it, rfl⟩
    subst hid
    rw [fireCross]
    have hfirst : litM (c0 :: it) rins ((c0 :: it) ++ (ws ++ (alt ++ z)))
        = some (rins, (c0 :: it).length) := by
      unfold litM
      rw [if_pos (List.prefix_append _ _)]
    rw [← List.cons_append, hfirst]
    simp only [Option.isSome_some, if_true]
    have hrest : fireCross (litM (c0 :: it) rins) it (ws ++ (alt ++ z)) = 0 := by
      refine fireCross_zero _ _ fun j hj => litM_none ?_
      have hdj : it.drop j = (c0 :: it).drop (j + 1) := by
        rw [List.drop_succ_cons]
      rw [hdj]
      intro hpre
      rcases prefix_split hpre with hc | ⟨hc, -⟩
      · have hlen := hc.length_le
        rw [List.length_drop] at hlen
        simp only [List.length_cons] at hlen hj
        omega
      · refine hBF (j + 1) ?_ (Nat.succ_pos j) hc
        simp only [List.length_cons] at hj ⊢
        omega
    rw [hrest]
  rw [hz1, hz2, hz4, hz5, hone]

/-! ### Concrete incomparability facts between the script's literals -/

theorem bundleM_none {lit1 a1 a2 bins x : List Char} (h : ¬ lit1 <+: x) :
    bundleM lit1 a1 a2 bins x = none := by
  unfold bundleM
  rw [if_neg h]

theorem groupM_none {glit gins x : List Char} (h : ¬ glit <+: x) :
    groupM glit gins x = none := by
  unfold groupM
  rw [if_neg h]

theorem clApp_shape (u1 : List Char) :
    clApp u1 = js "\n\t\t\t\t" ++ (u1 ++ js " /* BewlyCat.entitlements */,") := by
  simp [clApp, List.append_assoc]

theorem clExt_shape (u2 : List Char) :
    clExt u2 = js "\n\t\t\t\t" ++ (u2 ++ js " /* BewlyCat Extension.entitlements */,") := by
  simp [clExt, List.append_assoc]

theorem hexcase_appIns : appIns.headI ∉ hexTable ∨
    ∃ c0 c1 mr, appIns = c0 :: c1 :: mr ∧ c1 ∉ hexTable ∧ c1 ≠ ' ' :=
  Or.inr ⟨'C', 'O', js "DE_SIGN_ENTITLEMENTS = BewlyCat/BewlyCat.entitlements;",
    by decide, by decide, by decide⟩

theorem hexcase_extIns : extIns.headI ∉ hexTable ∨
    ∃ c0 c1 mr, extIns = c0 :: c1 :: mr ∧ c1 ∉ hexTable ∧ c1 ≠ ' ' :=
  Or.inr ⟨'C', 'O',
    js "DE_SIGN_ENTITLEMENTS = \"BewlyCat Extension/BewlyCat Extension.entitlements\";",
    by decide, by decide, by decide⟩

theorem hexcase_appLit1 : appLit1.headI ∉ hexTable ∨
    ∃ c0 c1 mr, appLit1 = c0 :: c1 :: mr ∧ c1 ∉ hexTable ∧ c1 ≠ ' ' :=
  Or.inl (by decide)

theorem hexcase_extLit1 : extLit1.headI ∉ hexTable ∨
    ∃ c0 c1 mr, extLit1 = c0 :: c1 :: mr ∧ c1 ∉ hexTable ∧ c1 ≠ ' ' :=
  Or.inl (by decide)

set_option maxRecDepth 100000

theorem sc_appIns_endM : SegCond appIns fileRefEndMarker := by decide

theorem sc_extIns_endM : SegCond extIns fileRefEndMarker := by decide

theorem sc_appLit1_endM : SegCond appLit1 fileRefEndMarker := by decide

theorem sc_extLit1_endM : SegCond extLit1 fileRefEndMarker := by decide

theorem sc_appIns_appLit1 : SegCond appIns appLit1 := by decide

theorem sc_extIns_appLit1 : SegCond extIns appLit1 := by decide

theorem sc_extLit1_appLit1 : SegCond extLit1 appLit1 := by decide

theorem sc_appLit1_extLit1 : SegCond appLit1 extLit1 := by decide

theorem sc_appIns_extLit1 : SegCond appIns extLit1 := by decide

theorem sc_extIns_extLit1 : SegCond extIns extLit1 := by decide

theorem sc_extIns_appIns : SegCond extIns appIns := by decide

theorem sc_appIns_extIns : SegCond appIns extIns := by decide

theorem sc_endM_appLit1 : SegCond fileRefEndMarker appLit1 := by decide

theorem sc_endM_extLit1 : SegCond fileRefEndMarker extLit1 := by decide

theorem sc_endM_pn : SegCond fileRefEndMarker pnLit := by decide

theorem sc_endM_rag : SegCond fileRefEndMarker ragLit := by decide

theorem sc_endM_si : SegCond fileRefEndMarker siLit := by decide

theorem sc_appLit1_pn : SegCond appLit1 pnLit := by decide

theorem sc_appLit1_rag : SegCond appLit1 ragLit := by decide

theorem sc_appLit1_si : SegCond appLit1 siLit := by decide

theorem sc_appIns_pn : SegCond appIns pnLit := by decide

theorem sc_appIns_rag : SegCond appIns ragLit := by decide

theorem sc_appIns_si : SegCond appIns siLit := by decide

theorem sc_extIns_pn : SegCond extIns pnLit := by decide

theorem sc_extIns_rag : SegCond extIns ragLit := by decide

theorem sc_extIns_si : SegCond extIns siLit := by decide

theorem sc_appIns_glitA : SegCond appIns glitApp := by decide

theorem sc_appIns_glitE : SegCond appIns glitExt := by decide

theorem sc_appIns_isa : SegCond appIns isaLit := by decide

theorem sc_appIns_children : SegCond appIns childrenLit := by decide

theorem sc_appIns_tailA : SegCond appIns (js " /* BewlyCat.entitlements */,") := by
  decide

theorem sc_appIns_tailE : SegCond appIns
    (js " /* BewlyCat Extension.entitlements */,") := by decide

theorem sc_extIns_glitA : SegCond extIns glitApp := by decide

theorem sc_extIns_glitE : SegCond extIns glitExt := by decide

theorem sc_extIns_isa : SegCond extIns isaLit := by decide

theorem sc_extIns_children : SegCond extIns childrenLit := by decide

theorem sc_extIns_tailA : SegCond extIns (js " /* BewlyCat.entitlements */,") := by
  decide

theorem sc_extIns_tailE : SegCond extIns
    (js " /* BewlyCat Extension.entitlements */,") := by decide

theorem sc_appIns_t2 : SegCond appIns (js "\t\t") := by decide

theorem sc_extIns_t2 : SegCond extIns (js "\t\t") := by decide

theorem sc_appLit1_t2 : SegCond appLit1 (js "\t\t") := by decide

theorem sc_extLit1_t2 : SegCond extLit1 (js "\t\t") := by decide

theorem sc_appIns_B1 : SegCond appIns fraB1 := by decide

theorem sc_appIns_B2 : SegCond appIns fraB2 := by decide

theorem sc_extIns_B1 : SegCond extIns fraB1 := by decide

theorem sc_extIns_B2 : SegCond extIns fraB2 := by decide

theorem sc_appLit1_B1 : SegCond appLit1 fraB1 := by decide

theorem sc_appLit1_B2 : SegCond appLit1 fraB2 := by decide

theorem sc_extLit1_B1 : SegCond extLit1 fraB1 := by decide

theorem sc_extLit1_B2 : SegCond extLit1 fraB2 := by decide

theorem dc_appIns_t2 : DropCond appIns (js "\t\t") := by decide

theorem dc_extIns_t2 : DropCond extIns (js "\t\t") := by decide

theorem dc_appLit1_t2 : DropCond appLit1 (js "\t\t") := by decide

theorem dc_extLit1_t2 : DropCond extLit1 (js "\t\t") := by decide

theorem dc_pn_t2 : DropCond pnLit (js "\t\t") := by decide

theorem dc_rag_t2 : DropCond ragLit (js "\t\t") := by decide

theorem dc_si_t2 : DropCond siLit (js "\t\t") := by decide

theorem dc_appIns_appLit1 : DropCond appIns appLit1 := by decide

theorem dc_extIns_appLit1 : DropCond extIns appLit1 := by decide

theorem dc_extLit1_appLit1 : DropCond extLit1 appLit1 := by decide

theorem dc_pn_appLit1 : DropCond pnLit appLit1 := by decide

theorem dc_si_appLit1 : DropCond siLit appLit1 := by decide

theorem dc_appIns_extLit1 : DropCond appIns extLit1 := by decide

theorem dc_extIns_extLit1 : DropCond extIns extLit1 := by decide

theorem dc_appIns_glitA : DropCond appIns glitApp := by decide

theorem dc_appIns_glitE : DropCond appIns glitExt := by decide

theorem dc_extIns_glitA : DropCond extIns glitApp := by decide

theorem dc_extIns_glitE : DropCond extIns glitExt := by decide

theorem na_appIns_endM : NoAlign appIns fileRefEndMarker := by decide

theorem na_extIns_endM : NoAlign extIns fileRefEndMarker := by decide

theorem na_appIns_appLit1 : NoAlign appIns appLit1 := by decide

theorem na_extIns_appLit1 : NoAlign extIns appLit1 := by decide

theorem na_extIns_extLit1 : NoAlign extIns extLit1 := by decide

theorem bf_appIns : BorderFree appIns := by decide

theorem bf_extIns : BorderFree extIns := by decide

theorem scp_appLit1 : SegCondPos appLit1 appLit1 := by decide

theorem scp_extLit1 : SegCondPos extLit1 extLit1 := by decide

theorem sc_extLit1_pn : SegCond extLit1 pnLit := by decide

theorem sc_extLit1_rag : SegCond extLit1 ragLit := by decide

theorem sc_extLit1_si : SegCond extLit1 siLit := by decide

theorem sc_extLit1_appIns : SegCond extLit1 appIns := by decide

/-! ### Stage-level counting facts: the first substitution -/

theorem fc_appIns_M1 {u1 u2 : List Char}
    (hu1 : ∀ ch ∈ u1, ch ∈ hexTable) (hu2 : ∀ ch ∈ u2, ch ∈ hexTable) :
    ∀ v, fireCount (litM appIns appIns)
        (scanF (litM fileRefEndMarker (fileRefAddition u1 u2)) v)
      = fireCount (litM appIns appIns) v := by
  refine fireCount_scanF ?_ ?_ ?_ ?_ ?_ ?_ ?_
  · exact mex_openers (fun _ _ _ h => litM_fire h) (fun _ _ _ h => litM_fire h)
      (by decide) (by decide)
  · exact litM_len (by decide)
  · exact litM_det
  · exact int_of_noStart
      (noStart_of_noAlign (fun _ _ _ h => litM_fire h) na_appIns_endM)
  · refine vi_lit dc_appIns_t2 ?_
    intro s' o n h
    obtain ⟨-, ho, -⟩ := litM_eq_some h
    exact ⟨_, by rw [ho, fileRefAddition_seg]⟩
  · exact cons_of_noOcc (fun _ _ _ h => litM_fire h)
      (litM_noOcc (by decide) sc_appIns_endM)
  · intro s' o n h j hj z
    obtain ⟨-, ho, -⟩ := litM_eq_some h
    subst ho
    exact litM_none (FRA_noPre (by decide) hu1 hu2 sc_appIns_t2 sc_appIns_B1
      sc_appIns_B2 sc_appIns_endM hexcase_appIns j hj z)

theorem fc_extIns_M1 {u1 u2 : List Char}
    (hu1 : ∀ ch ∈ u1, ch ∈ hexTable) (hu2 : ∀ ch ∈ u2, ch ∈ hexTable) :
    ∀ v, fireCount (litM extIns extIns)
        (scanF (litM fileRefEndMarker (fileRefAddition u1 u2)) v)
      = fireCount (litM extIns extIns) v := by
  refine fireCount_scanF ?_ ?_ ?_ ?_ ?_ ?_ ?_
  · exact mex_openers (fun _ _ _ h => litM_fire h) (fun _ _ _ h => litM_fire h)
      (by decide) (by decide)
  · exact litM_len (by decide)
  · exact litM_det
  · exact int_of_noStart
      (noStart_of_noAlign (fun _ _ _ h => litM_fire h) na_extIns_endM)
  · refine vi_lit dc_extIns_t2 ?_
    intro s' o n h
    obtain ⟨-, ho, -⟩ := litM_eq_some h
    exact ⟨_, by rw [ho, fileRefAddition_seg]⟩
  · exact cons_of_noOcc (fun _ _ _ h => litM_fire h)
      (litM_noOcc (by decide) sc_extIns_endM)
  · intro s' o n h j hj z
    obtain ⟨-, ho, -⟩ := litM_eq_some h
    subst ho
    exact litM_none (FRA_noPre (by decide) hu1 hu2 sc_extIns_t2 sc_extIns_B1
      sc_extIns_B2 sc_extIns_endM hexcase_extIns j hj z)

theorem fc_N2_M1 {u1 u2 : List Char}
    (hu1 : ∀ ch ∈ u1, ch ∈ hexTable) (hu1ne : u1 ≠ [])
    (hu2 : ∀ ch ∈ u2, ch ∈ hexTable) :
    ∀ v, fireCount (bundleM appLit1 pnLit ragLit appIns)
        (scanF (litM fileRefEndMarker (fileRefAddition u1 u2)) v)
      = fireCount (bundleM appLit1 pnLit ragLit appIns) v := by
  refine fireCount_scanF ?_ ?_ ?_ ?_ ?_ ?_ ?_
  · exact mex_openers (fun _ _ _ h => litM_fire h) (fun _ _ _ h => bundleM_fire h)
      (by decide) (by decide)
  · exact bundleM_len (by decide)
  · exact bundleM_det (by decide) (by decide) (by decide) (by decide) (by decide)
  · exact int_of_noOcc (fun _ _ _ h => litM_fire h)
      (bundleM_noOcc (by decide) sc_endM_appLit1 sc_endM_pn sc_endM_rag
        (wsOK_of_head (by decide)) (wsOK_of_head (by decide))
        (by decide) (by decide) (by decide) (by decide))
  · intro s' o n h p z o' n' hN
    obtain ⟨-, ho, -⟩ := litM_eq_some h
    subst ho
    exact vi_bundle_FRA (by decide) (by decide) hu1 hu1ne dc_appLit1_t2 dc_pn_t2
      dc_rag_t2 (by decide) (by decide) (by decide) (by decide) p z o' n' hN
  · exact cons_of_noOcc (fun _ _ _ h => bundleM_fire h)
      (litM_noOcc (by decide) sc_appLit1_endM)
  · intro s' o n h j hj z
    obtain ⟨-, ho, -⟩ := litM_eq_some h
    subst ho
    exact bundleM_none (FRA_noPre (by decide) hu1 hu2 sc_appLit1_t2 sc_appLit1_B1
      sc_appLit1_B2 sc_appLit1_endM hexcase_appLit1 j hj z)

theorem fc_N3_M1 {u1 u2 : List Char}
    (hu1 : ∀ ch ∈ u1, ch ∈ hexTable) (hu1ne : u1 ≠ [])
    (hu2 : ∀ ch ∈ u2, ch ∈ hexTable) :
    ∀ v, fireCount (bundleM extLit1 pnLit siLit extIns)
        (scanF (litM fileRefEndMarker (fileRefAddition u1 u2)) v)
      = fireCount (bundleM extLit1 pnLit siLit extIns) v := by
  refine fireCount_scanF ?_ ?_ ?_ ?_ ?_ ?_ ?_
  · exact mex_openers (fun _ _ _ h => litM_fire h) (fun _ _ _ h => bundleM_fire h)
      (by decide) (by decide)
  · exact bundleM_len (by decide)
  · exact bundleM_det (by decide) (by decide) (by decide) (by decide) (by decide)
  · exact int_of_noOcc (fun _ _ _ h => litM_fire h)
      (bundleM_noOcc (by decide) sc_endM_extLit1 sc_endM_pn sc_endM_si
        (wsOK_of_head (by decide)) (wsOK_of_head (by decide))
        (by decide) (by decide) (by decide) (by decide))
  · intro s' o n h p z o' n' hN
    obtain ⟨-, ho, -⟩ := litM_eq_some h
    subst ho
    exact vi_bundle_FRA (by decide) (by decide) hu1 hu1ne dc_extLit1_t2 dc_pn_t2
      dc_si_t2 (by decide) (by decide) (by decide) (by decide) p z o' n' hN
  · exact cons_of_noOcc (fun _ _ _ h => bundleM_fire h)
      (litM_noOcc (by decide) sc_extLit1_endM)
  · intro s' o n h j hj z
    obtain ⟨-, ho, -⟩ := litM_eq_some h
    subst ho
    exact bundleM_none (FRA_noPre (by decide) hu1 hu2 sc_extLit1_t2 sc_extLit1_B1
      sc_extLit1_B2 sc_extLit1_endM hexcase_extLit1 j hj z)

/-! ### Stage-level counting facts: the two global substitutions -/

theorem blockM2_opens : ∀ s' o n,
    bundleM appLit1 pnLit ragLit appIns s' = some (o, n) →
    ∃ rest, o = appLit1 ++ rest := by
  intro s' o n h
  obtain ⟨ws, alt, r, -, -, -, -, ho, -⟩ := bundleM_eq_some h
  exact ⟨ws ++ (appIns ++ (ws ++ alt)), by rw [ho]; simp [List.append_assoc]⟩

theorem blockM3_opens : ∀ s' o n,
    bundleM extLit1 pnLit siLit extIns s' = some (o, n) →
    ∃ rest, o = extLit1 ++ rest := by
  intro s' o n h
  obtain ⟨ws, alt, r, -, -, -, -, ho, -⟩ := bundleM_eq_some h
  exact ⟨ws ++ (extIns ++ (ws ++ alt)), by rw [ho]; simp [List.append_assoc]⟩

theorem nomM2 : ∀ s o n, bundleM appLit1 pnLit ragLit appIns s = some (o, n) →
    ∀ j, 0 < j → j < max n 1 →
      bundleM appLit1 pnLit ragLit appIns (s.drop j) = none :=
  nom_of_noPre (fun _ _ _ h => bundleM_fire h)
    (bundleM_noOccPos (by decide) scp_appLit1 sc_appLit1_pn sc_appLit1_rag
      (wsOK_of_head (by decide)) (wsOK_of_head (by decide))
      (by decide) (by decide) (by decide) (by decide))

theorem nomM3 : ∀ s o n, bundleM extLit1 pnLit siLit extIns s = some (o, n) →
    ∀ j, 0 < j → j < max n 1 →
      bundleM extLit1 pnLit siLit extIns (s.drop j) = none :=
  nom_of_noPre (fun _ _ _ h => bundleM_fire h)
    (bundleM_noOccPos (by decide) scp_extLit1 sc_extLit1_pn sc_extLit1_si
      (wsOK_of_head (by decide)) (wsOK_of_head (by decide))
      (by decide) (by decide) (by decide) (by decide))

theorem mc_eq_fc_M2 (v : List Char) :
    matchCount (bundleM appLit1 pnLit ragLit appIns) v
      = fireCount (bundleM appLit1 pnLit ragLit appIns) v :=
  matchCount_eq_fireCount nomM2 v.length v le_rfl

theorem mc_eq_fc_M3 (v : List Char) :
    matchCount (bundleM extLit1 pnLit siLit extIns) v
      = fireCount (bundleM extLit1 pnLit siLit extIns) v :=
  matchCount_eq_fireCount nomM3 v.length v le_rfl

theorem fc_ins_appIns_M2 :
    ∀ v, fireCount (litM appIns appIns)
        (scanG (bundleM appLit1 pnLit ragLit appIns) v)
      = fireCount (bundleM appLit1 pnLit ragLit appIns) v
        + fireCount (litM appIns appIns) v := by
  have h := fireCount_scanG_ins
    (M := bundleM appLit1 pnLit ragLit appIns) (N := litM appIns appIns)
    (mex_openers (fun _ _ _ h => bundleM_fire h) (fun _ _ _ h => litM_fire h)
      (by decide) (by decide))
    (litM_len (by decide))
    litM_det
    (int_of_noStart
      (noStart_of_noAlign (fun _ _ _ h => bundleM_fire h) na_appIns_appLit1))
    (vi_lit dc_appIns_appLit1 blockM2_opens)
    (cons_of_noOcc (fun _ _ _ h => litM_fire h)
      (bundleM_noOcc (by decide) sc_appIns_appLit1 sc_appIns_pn sc_appIns_rag
        (wsOK_of_head (by decide)) (wsOK_of_head (by decide))
        (by decide) (by decide) (by decide) (by decide)))
    nomM2
    (bundleM_block_one (by decide) (by decide) bf_appIns sc_appIns_appLit1
      sc_appIns_pn sc_appIns_rag)
  exact fun v => h v.length v le_rfl

theorem fc_ins_extIns_M3 :
    ∀ v, fireCount (litM extIns extIns)
        (scanG (bundleM extLit1 pnLit siLit extIns) v)
      = fireCount (bundleM extLit1 pnLit siLit extIns) v
        + fireCount (litM extIns extIns) v := by
  have h := fireCount_scanG_ins
    (M := bundleM extLit1 pnLit siLit extIns) (N := litM extIns extIns)
    (mex_openers (fun _ _ _ h => bundleM_fire h) (fun _ _ _ h => litM_fire h)
      (by decide) (by decide))
    (litM_len (by decide))
    litM_det
    (int_of_noStart
      (noStart_of_noAlign (fun _ _ _ h => bundleM_fire h) na_extIns_extLit1))
    (vi_lit dc_extIns_extLit1 blockM3_opens)
    (cons_of_noOcc (fun _ _ _ h => litM_fire h)
      (bundleM_noOcc (by decide) sc_extIns_extLit1 sc_extIns_pn sc_extIns_si
        (wsOK_of_head (by decide)) (wsOK_of_head (by decide))
        (by decide) (by decide) (by decide) (by decide)))
    nomM3
    (bundleM_block_one (by decide) (by decide) bf_extIns sc_extIns_extLit1
      sc_extIns_pn sc_extIns_si)
  exact fun v => h v.length v le_rfl

theorem fc_extIns_M2 :
    ∀ v, fireCount (litM extIns extIns)
        (scanG (bundleM appLit1 pnLit ragLit appIns) v)
      = fireCount (litM extIns extIns) v := by
  have h := fireCount_scanG
    (M := bundleM appLit1 pnLit ragLit appIns) (N := litM extIns extIns)
    (mex_openers (fun _ _ _ h => bundleM_fire h) (fun _ _ _ h => litM_fire h)
      (by decide) (by decide))
    (litM_len (by decide))
    litM_det
    (int_of_noStart
      (noStart_of_noAlign (fun _ _ _ h => bundleM_fire h) na_extIns_appLit1))
    (vi_lit dc_extIns_appLit1 blockM2_opens)
    (cons_of_noOcc (fun _ _ _ h => litM_fire h)
      (bundleM_noOcc (by decide) sc_extIns_appLit1 sc_extIns_pn sc_extIns_rag
        (wsOK_of_head (by decide)) (wsOK_of_head (by decide))
        (by decide) (by decide) (by decide) (by decide)))
    (fun s' o n h j hj z => litM_none
      (bundleM_noPreBlock (by decide) (by decide) sc_extIns_appLit1
        sc_extIns_appIns sc_extIns_pn sc_extIns_rag s' o n h j hj z))
  exact fun v => h v.length v le_rfl

theorem fc_appIns_M3 :
    ∀ v, fireCount (litM appIns appIns)
        (scanG (bundleM extLit1 pnLit siLit extIns) v)
      = fireCount (litM appIns appIns) v := by
  have h := fireCount_scanG
    (M := bundleM extLit1 pnLit siLit extIns) (N := litM appIns appIns)
    (mex_openers (fun _ _ _ h => bundleM_fire h) (fun _ _ _ h => litM_fire h)
      (by decide) (by decide))
    (litM_len (by decide))
    litM_det
    (int_of_noStart appIns_noStart_M3)
    (vi_lit dc_appIns_extLit1 blockM3_opens)
    (cons_of_noOcc (fun _ _ _ h => litM_fire h) appIns_noOcc_M3)
    (fun s' o n h j hj z => litM_none
      (bundleM_noPreBlock (by decide) (by decide) sc_appIns_extLit1
        sc_appIns_extIns sc_appIns_pn sc_appIns_si s' o n h j hj z))
  exact fun v => h v.length v le_rfl

theorem fc_N3_M2 :
    ∀ v, fireCount (bundleM extLit1 pnLit siLit extIns)
        (scanG (bundleM appLit1 pnLit ragLit appIns) v)
      = fireCount (bundleM extLit1 pnLit siLit extIns) v := by
  have h := fireCount_scanG
    (M := bundleM appLit1 pnLit ragLit appIns)
    (N := bundleM extLit1 pnLit siLit extIns)
    (mex_openers (fun _ _ _ h => bundleM_fire h) (fun _ _ _ h => bundleM_fire h)
      (by decide) (by decide))
    (bundleM_len (by decide))
    (bundleM_det (by decide) (by decide) (by decide) (by decide) (by decide))
    (int_of_noOcc (fun _ _ _ h => bundleM_fire h)
      (bundleM_noOcc (by decide) sc_appLit1_extLit1 sc_appLit1_pn sc_appLit1_si
        (wsOK_of_head (by decide)) (wsOK_of_head (by decide))
        (by decide) (by decide) (by decide) (by decide)))
    (vi_bundle_nonws (by decide) (by decide) dc_extLit1_appLit1 dc_pn_appLit1
      dc_si_appLit1 (by decide) (by decide) blockM2_opens)
    (cons_of_noOcc (fun _ _ _ h => bundleM_fire h)
      (bundleM_noOcc (by decide) sc_extLit1_appLit1 sc_extLit1_pn sc_extLit1_rag
        (wsOK_of_head (by decide)) (wsOK_of_head (by decide))
        (by decide) (by decide) (by decide) (by decide)))
    (fun s' o n h j hj z => bundleM_none
      (bundleM_noPreBlock (by decide) (by decide) sc_extLit1_appLit1
        sc_extLit1_appIns sc_extLit1_pn sc_extLit1_rag s' o n h j hj z))
  exact fun v => h v.length v le_rfl

/-! ### Stage-level counting facts: the two group insertions -/

theorem blockM4_opens (u1 : List Char) : ∀ s' o n,
    groupM glitApp (clApp u1) s' = some (o, n) → ∃ rest, o = glitApp ++ rest := by
  intro s' o n h
  obtain ⟨ws1, ws2, r, -, -, -, ho, -⟩ := groupM_eq_some h
  exact ⟨ws1 ++ (isaLit ++ (ws2 ++ (childrenLit ++ clApp u1))),
    by rw [ho]; simp [List.append_assoc]⟩

theorem blockM5_opens (u2 : List Char) : ∀ s' o n,
    groupM glitExt (clExt u2) s' = some (o, n) → ∃ rest, o = glitExt ++ rest := by
  intro s' o n h
  obtain ⟨ws1, ws2, r, -, -, -, ho, -⟩ := groupM_eq_some h
  exact ⟨ws1 ++ (isaLit ++ (ws2 ++ (childrenLit ++ clExt u2))),
    by rw [ho]; simp [List.append_assoc]⟩

theorem fc_appIns_M4 {u1 : List Char} (hu1 : ∀ ch ∈ u1, ch ∈ hexTable) :
    ∀ v, fireCount (litM appIns appIns) (scanF (groupM glitApp (clApp u1)) v)
      = fireCount (litM appIns appIns) v := by
  refine fireCount_scanF ?_ ?_ ?_ ?_ ?_ ?_ ?_
  · exact mex_openers (fun _ _ _ h => groupM_fire h) (fun _ _ _ h => litM_fire h)
      (by decide) (by decide)
  · exact litM_len (by decide)
  · exact litM_det
  · exact int_of_noStart (appIns_noStart_M4 u1)
  · exact vi_lit dc_appIns_glitA (blockM4_opens u1)
  · exact cons_of_noOcc (fun _ _ _ h => litM_fire h) (appIns_noOcc_M4 u1)
  · intro s' o n h j hj z
    rw [clApp_shape] at h
    exact litM_none (groupM_noPreBlock (by decide) (by decide) hu1 sc_appIns_glitA
      sc_appIns_isa sc_appIns_children sc_appIns_tailA (by decide) (by decide)
      hexcase_appIns s' o n h j hj z)

theorem fc_appIns_M5 {u2 : List Char} (hu2 : ∀ ch ∈ u2, ch ∈ hexTable) :
    ∀ v, fireCount (litM appIns appIns) (scanF (groupM glitExt (clExt u2)) v)
      = fireCount (litM appIns appIns) v := by
  refine fireCount_scanF ?_ ?_ ?_ ?_ ?_ ?_ ?_
  · exact mex_openers (fun _ _ _ h => groupM_fire h) (fun _ _ _ h => litM_fire h)
      (by decide) (by decide)
  · exact litM_len (by decide)
  · exact litM_det
  · exact int_of_noStart (appIns_noStart_M5 u2)
  · exact vi_lit dc_appIns_glitE (blockM5_opens u2)
  · exact cons_of_noOcc (fun _ _ _ h => litM_fire h) (appIns_noOcc_M5 u2)
  · intro s' o n h j hj z
    rw [clExt_shape] at h
    exact litM_none (groupM_noPreBlock (by decide) (by decide) hu2 sc_appIns_glitE
      sc_appIns_isa sc_appIns_children sc_appIns_tailE (by decide) (by decide)
      hexcase_appIns s' o n h j hj z)

theorem fc_extIns_M4 {u1 : List Char} (hu1 : ∀ ch ∈ u1, ch ∈ hexTable) :
    ∀ v, fireCount (litM extIns extIns) (scanF (groupM glitApp (clApp u1)) v)
      = fireCount (litM extIns extIns) v := by
  refine fireCount_scanF ?_ ?_ ?_ ?_ ?_ ?_ ?_
  · exact mex_openers (fun _ _ _ h => groupM_fire h) (fun _ _ _ h => litM_fire h)
      (by decide) (by decide)
  · exact litM_len (by decide)
  · exact litM_det
  · exact int_of_noStart (extIns_noStart_M4 u1)
  · exact vi_lit dc_extIns_glitA (blockM4_opens u1)
  · exact cons_of_noOcc (fun _ _ _ h => litM_fire h) (extIns_noOcc_M4 u1)
  · intro s' o n h j hj z
    rw [clApp_shape] at h
    exact litM_none (groupM_noPreBlock (by decide) (by decide) hu1 sc_extIns_glitA
      sc_extIns_isa sc_extIns_children sc_extIns_tailA (by decide) (by decide)
      hexcase_extIns s' o n h j hj z)

theorem fc_extIns_M5 {u2 : List Char} (hu2 : ∀ ch ∈ u2, ch ∈ hexTable) :
    ∀ v, fireCount (litM extIns extIns) (scanF (groupM glitExt (clExt u2)) v)
      = fireCount (litM extIns extIns) v := by
  refine fireCount_scanF ?_ ?_ ?_ ?_ ?_ ?_ ?_
  · exact mex_openers (fun _ _ _ h => groupM_fire h) (fun _ _ _ h => litM_fire h)
      (by decide) (by decide)
  · exact litM_len (by decide)
  · exact litM_det
  · exact int_of_noStart (extIns_noStart_M5 u2)
  · exact vi_lit dc_extIns_glitE (blockM5_opens u2)
  · exact cons_of_noOcc (fun _ _ _ h => litM_fire h) (extIns_noOcc_M5 u2)
  · intro s' o n h j hj z
    rw [clExt_shape] at h
    exact litM_none (groupM_noPreBlock (by decide) (by decide) hu2 sc_extIns_glitE
      sc_extIns_isa sc_extIns_children sc_extIns_tailE (by decide) (by decide)
      hexcase_extIns s' o n h j hj z)

/-! ### Pipeline-level counting of the inserted build-setting lines -/

theorem occCount_appIns_updBody {u1 u2 : List Char}
    (hu1 : ∀ ch ∈ u1, ch ∈ hexTable) (hu1ne : u1 ≠ [])
    (hu2 : ∀ ch ∈ u2, ch ∈ hexTable) (c : List Char) :
    occCount appIns (updBody u1 u2 c)
      = matchCount (bundleM appLit1 pnLit ragLit appIns) c
        + occCount appIns c := by
  rw [@occCount_eq_fireCount appIns appIns (updBody u1 u2 c),
    @occCount_eq_fireCount appIns appIns c, mc_eq_fc_M2 c]
  unfold updBody
  rw [fc_appIns_M5 hu2, fc_appIns_M4 hu1, fc_appIns_M3, fc_ins_appIns_M2,
    fc_N2_M1 hu1 hu1ne hu2, fc_appIns_M1 hu1 hu2]

theorem occCount_extIns_updBody {u1 u2 : List Char}
    (hu1 : ∀ ch ∈ u1, ch ∈ hexTable) (hu1ne : u1 ≠ [])
    (hu2 : ∀ ch ∈ u2, ch ∈ hexTable) (c : List Char) :
    occCount extIns (updBody u1 u2 c)
      = matchCount (bundleM extLit1 pnLit siLit extIns) c
        + occCount extIns c := by
  rw [@occCount_eq_fireCount extIns extIns (updBody u1 u2 c),
    @occCount_eq_fireCount extIns extIns c, mc_eq_fc_M3 c]
  unfold updBody
  rw [fc_extIns_M5 hu2, fc_extIns_M4 hu1, fc_ins_extIns_M3, fc_N3_M2,
    fc_N3_M1 hu1 hu1ne hu2, fc_extIns_M2, fc_extIns_M1 hu1 hu2]

/-- Claim C3: for every initial descriptor content that does not already
contain the marker, the patched descriptor contains exactly one inserted
`CODE_SIGN_ENTITLEMENTS` build-setting line per original occurrence of each
targeted bundle-identifier context, with all matching occurrences patched:
the app line did not occur before and afterwards occurs exactly once per
`/g`-match of the app context in the original content, and the extension
line afterwards occurs exactly once per `/g`-match of the extension context
in the original content on top of any prior occurrences. -/
theorem build_setting_insertion_counts (c : List Char) (r : Nat → Fin 16)
    (hnm : ¬ marker <:+: c) :
    occCount appIns c = 0 ∧
    occCount appIns (updatePbxprojContent (generateUUID fun i => r i)
        (generateUUID fun i => r (24 + i)) c)
      = matchCount (bundleM appLit1 pnLit ragLit appIns) c ∧
    occCount extIns (updatePbxprojContent (generateUUID fun i => r i)
        (generateUUID fun i => r (24 + i)) c)
      = matchCount (bundleM extLit1 pnLit siLit extIns) c
        + occCount extIns c := by
  have hg : updatePbxprojContent (generateUUID fun i => r i)
      (generateUUID fun i => r (24 + i)) c
      = updBody (generateUUID fun i => r i) (generateUUID fun i => r (24 + i)) c := by
    rw [updatePbxprojContent, if_neg hnm]
  have h0 : occCount appIns c = 0 :=
    occCount_zero_of_not_infix fun hx =>
      hnm ((by decide : marker <:+: appIns).trans hx)
  refine ⟨h0, ?_, ?_⟩
  · rw [hg, occCount_appIns_updBody (generateUUID_hex _) (generateUUID_ne _)
      (generateUUID_hex _), h0]
    exact Nat.add_zero _
  · rw [hg, occCount_extIns_updBody (generateUUID_hex _) (generateUUID_ne _)
      (generateUUID_hex _)]

/-- Witness for claim C3 at a concrete descriptor holding one occurrence of
each bundle-identifier context, with the all-zero random stream. -/
theorem build_setting_insertion_counts_witness :
    (¬ marker <:+:
      js "PRODUCT_BUNDLE_IDENTIFIER = com.hankun.BewlyCat; PRODUCT_NAME = n;PRODUCT_BUNDLE_IDENTIFIER = com.hankun.BewlyCat.Extension; SKIP_INSTALL = YES;") ∧
    occCount appIns (updatePbxprojContent (generateUUID fun _ => 0)
        (generateUUID fun _ => 0)
        (js "PRODUCT_BUNDLE_IDENTIFIER = com.hankun.BewlyCat; PRODUCT_NAME = n;PRODUCT_BUNDLE_IDENTIFIER = com.hankun.BewlyCat.Extension; SKIP_INSTALL = YES;"))
      = matchCount (bundleM appLit1 pnLit ragLit appIns)
        (js "PRODUCT_BUNDLE_IDENTIFIER = com.hankun.BewlyCat; PRODUCT_NAME = n;PRODUCT_BUNDLE_IDENTIFIER = com.hankun.BewlyCat.Extension; SKIP_INSTALL = YES;") := by
  refine ⟨by decide, ?_⟩
  have h := build_setting_insertion_counts
    (js "PRODUCT_BUNDLE_IDENTIFIER = com.hankun.BewlyCat; PRODUCT_NAME = n;PRODUCT_BUNDLE_IDENTIFIER = com.hankun.BewlyCat.Extension; SKIP_INSTALL = YES;")
    (fun _ => 0) (by decide)
  exact h.2.1
